import Mathlib

/-!
Shallow embedding of the resume structural parser of this repository
(`src/python/resume_parser.py`, together with the section segmenter of
`src/scripts/resume-parser/resume_parser.py`) and theorems about it.

Python strings are modelled as Lean `String`, integers as `Nat`/`Int`, floats
as `ℚ` with an explicit 2-decimal rounding step.  The regular expressions of
the source are hand-translated into character-level matchers that mirror the
regex semantics actually exercised (ordered alternation, leftmost match,
greedy/lazy repetition, word boundaries) on ASCII text.  Python `set`s that
are only ever sorted or deduplicated downstream are modelled as lists, since
their iteration order never reaches the output.
-/

namespace Resume

/-- ASCII lowercasing of a string, modelling Python str.lower on the ASCII
text handled by the parser. -/
def lowerStr (s : String) : String := String.mk (s.toList.map Char.toLower)

/-- ASCII uppercasing, modelling Python str.upper. -/
def upperStr (s : String) : String := String.mk (s.toList.map Char.toUpper)

/-- Python whitespace class for str.strip and regex white space. -/
def isPyWS (c : Char) : Bool :=
  c = ' ' || c = '\t' || c = '\n' || c = '\x0d' || c = '\x0b' || c = '\x0c'

/-- Python str.strip with no arguments. -/
def pyStrip (s : String) : String :=
  String.mk (((s.toList.dropWhile isPyWS).reverse.dropWhile isPyWS).reverse)

/-- Regex word character, the \w class on ASCII text. -/
def isWordChar (c : Char) : Bool := c.isAlphanum || c = '_'

/-- Literal prefix test on character lists. -/
def startsL : List Char → List Char → Bool
  | [], _ => true
  | _ :: _, [] => false
  | p :: ps, t :: ts => decide (p = t) && startsL ps ts

/-- Scan of str.split(sep) for a nonempty separator: emit the buffer and skip
the separator where it matches, otherwise consume one character. -/
def splitOnLF (sep : List Char) : Nat → List Char → List Char → List (List Char)
  | _, cur, [] => [cur.reverse]
  | 0, cur, l => [(l.reverse ++ cur).reverse]
  | fuel + 1, cur, c :: ts =>
    if startsL sep (c :: ts) then
      cur.reverse :: splitOnLF sep fuel [] ((c :: ts).drop sep.length)
    else splitOnLF sep fuel (c :: cur) ts

/-- Python str.split(sep) with an explicit nonempty separator. -/
def pySplitOn (s sep : String) : List String :=
  if sep = "" then [s]
  else (splitOnLF sep.toList s.toList.length [] s.toList).map String.mk

/-- Python str.startswith(pre). -/
def pyStartsWith (s pre : String) : Bool := startsL pre.toList s.toList

/-- Substring occurrence test, modelling Python needle in hay. -/
def occursL (pat : List Char) : List Char → Bool
  | [] => pat.isEmpty
  | c :: ts => startsL pat (c :: ts) || occursL pat ts

/-- Python needle in hay on strings. -/
def containsSub (needle hay : String) : Bool := occursL needle.toList hay.toList

/-- Index of the first occurrence of pat in the given list, offset by i;
helper for Python str.find. -/
def findSubAux (pat : List Char) : List Char → Nat → Option Nat
  | [], i => if pat.isEmpty then some i else none
  | c :: ts, i => if startsL pat (c :: ts) then some i else findSubAux pat ts (i + 1)

/-- Python hay.find(needle, start), with none standing for -1. -/
def findSubFrom (needle hay : String) (start : Nat) : Option Nat :=
  findSubAux needle.toList (hay.toList.drop start) start

/-- Regex word boundary between a left and a right character (none = out of
range counts as a non-word character). -/
def wordBoundary (a b : Option Char) : Bool :=
  (match a with | none => false | some c => isWordChar c) !=
  (match b with | none => false | some c => isWordChar c)

/-- Does the literal pattern match at the head of txt with \b on both sides?
pre is the character immediately before this position. -/
def wbAt (pat txt : List Char) (pre : Option Char) : Bool :=
  startsL pat txt &&
  wordBoundary pre txt.head? &&
  wordBoundary pat.getLast? (txt.drop pat.length).head?

/-- Scanning loop for the \b pat \b search. -/
def wbSearchAux (pat : List Char) (pre : Option Char) : List Char → Bool
  | [] => false
  | c :: ts => wbAt pat (c :: ts) pre || wbSearchAux pat (some c) ts

/-- re.search of a word-bounded escaped literal: \b needle \b. -/
def wbSearch (needle hay : String) : Bool :=
  wbSearchAux needle.toList none hay.toList

/-- Case-insensitive word-bounded search (re.IGNORECASE on ASCII). -/
def wbSearchCI (needle hay : String) : Bool :=
  wbSearch (lowerStr needle) (lowerStr hay)

/-- Does the literal pattern match at the head of txt with the two lookarounds
of the harvesting matcher: no alphanumeric immediately before or after? -/
def laAt (pat txt : List Char) (pre : Option Char) : Bool :=
  startsL pat txt &&
  (match pre with | none => true | some c => !c.isAlphanum) &&
  (match (txt.drop pat.length).head? with | none => true | some c => !c.isAlphanum)

/-- Scanning loop for the lookaround-bounded search. -/
def laSearchAux (pat : List Char) (pre : Option Char) : List Char → Bool
  | [] => false
  | c :: ts => laAt pat (c :: ts) pre || laSearchAux pat (some c) ts

/-- Case-insensitive search for (?<![A-Za-z0-9]) needle (?![A-Za-z0-9]). -/
def laSearchCI (needle hay : String) : Bool :=
  laSearchAux (lowerStr needle).toList none (lowerStr hay).toList

/-- Match a list of literal words separated by mandatory whitespace runs
(\s+) at the head of txt, returning the rest of the text. -/
def phraseAt : List (List Char) → List Char → Option (List Char)
  | [], txt => some txt
  | [w], txt => if startsL w txt then some (txt.drop w.length) else none
  | w :: ws, txt =>
    if startsL w txt then
      let rest := txt.drop w.length
      let gap := rest.takeWhile isPyWS
      if gap.isEmpty then none else phraseAt ws (rest.drop gap.length)
    else none

/-- Last character of the last word of a phrase (phrases here are nonempty
words). -/
def phraseLast (ws : List (List Char)) : Option Char :=
  match ws.getLast? with
  | none => none
  | some w => w.getLast?

/-- Scanning loop for the word-bounded phrase search \b w1 \s+ w2 ... \b. -/
def wbPhraseAux (ws : List (List Char)) (pre : Option Char) : List Char → Bool
  | [] => false
  | c :: ts =>
    (wordBoundary pre (some c) &&
      (match phraseAt ws (c :: ts) with
       | some rest => wordBoundary (phraseLast ws) rest.head?
       | none => false)) || wbPhraseAux ws (some c) ts

/-- Case-insensitive search for \b w1 \s+ w2 ... \b given the phrase as one
space-separated string. -/
def wbPhraseSearchCI (phrase hay : String) : Bool :=
  wbPhraseAux ((pySplitOn (lowerStr phrase) " ").map String.toList) none
    (lowerStr hay).toList

/-- Python str.split() with no arguments: split on whitespace runs, no empty
pieces; accumulator-based helper. -/
def wsSplitAux (cur : List Char) : List Char → List (List Char)
  | [] => if cur.isEmpty then [] else [cur.reverse]
  | c :: ts =>
    if isPyWS c then
      (if cur.isEmpty then wsSplitAux [] ts else cur.reverse :: wsSplitAux [] ts)
    else wsSplitAux (c :: cur) ts

/-- Python str.split() with no arguments. -/
def wsSplit (s : String) : List String := (wsSplitAux [] s.toList).map String.mk

/-- Python str.title() on ASCII text: a letter is uppercased when the
previous character is not a letter, lowercased otherwise. -/
def titleAux : Bool → List Char → List Char
  | _, [] => []
  | prevAlpha, c :: ts =>
    (if c.isAlpha then (if prevAlpha then c.toLower else c.toUpper) else c) ::
      titleAux c.isAlpha ts

/-- Python str.title() on ASCII text. -/
def pyTitle (s : String) : String := String.mk (titleAux false s.toList)

/-- Replace every non-overlapping occurrence of old (scanned left to right)
by new, as Python str.replace and re.sub with a literal pattern do. -/
def replaceSubLF (old new : List Char) : Nat → List Char → List Char
  | _, [] => []
  | 0, l => l
  | fuel + 1, c :: ts =>
    if startsL old (c :: ts) && !old.isEmpty then
      new ++ replaceSubLF old new fuel (ts.drop (old.length - 1))
    else c :: replaceSubLF old new fuel ts

/-- replaceSubLF with enough fuel to scan the whole list (every step of the
scan consumes at least one character, so the length is enough). -/
def replaceSubL (old new : List Char) (l : List Char) : List Char :=
  replaceSubLF old new l.length l

/-- Python str.replace(old, new) on strings. -/
def replaceSub (old new s : String) : String :=
  String.mk (replaceSubL old.toList new.toList s.toList)

/-- Remove every occurrence of a (lowercase) literal pattern, as the
re.sub(..., two-argument empty replacement) calls of the source do. -/
def removeSub (old s : String) : String := replaceSub old "" s

/-- Join a list of strings with the given separator (Python sep.join). -/
def joinSep (sep : String) : List String → String
  | [] => ""
  | [x] => x
  | x :: xs => x ++ sep ++ joinSep sep xs

/-- Decimal digits of a natural number, padded on the left with zeros to the
given width, modelling Python format specifiers 04d and 02d. -/
def padNum (width n : Nat) : String :=
  let s := toString n
  let pad := width - s.length
  String.mk (List.replicate pad '0') ++ s

/-- Lexicographic code-point order on character lists (Python operator <
restricted to the lists backing strings). -/
def lexLtL : List Char → List Char → Bool
  | [], [] => false
  | [], _ :: _ => true
  | _ :: _, [] => false
  | a :: as, b :: bs => if a < b then true else if b < a then false else lexLtL as bs

/-- Python operator < on strings: lexicographic order on code points. -/
def lexLt (a b : String) : Bool := lexLtL a.toList b.toList

/-- Stable insertion of a string into a list sorted by a key function
(helper for the stable sorts below). -/
def insertByKey (key : String → String) (x : String) : List String → List String
  | [] => [x]
  | y :: ys => if lexLt (key y) (key x) then y :: insertByKey key x ys else x :: y :: ys

/-- Stable sort by a key function, modelling Python sorted(..., key=...). -/
def sortByKey (key : String → String) (l : List String) : List String :=
  l.foldr (insertByKey key) []

/-- Python sorted(list) for plain strings (code-point order). -/
def pySorted (l : List String) : List String := sortByKey id l

/-- Deduplication keeping first occurrences (set construction where only
membership matters, since a sort follows). -/
def dedupAux (seen : List String) : List String → List String
  | [] => []
  | x :: xs => if x ∈ seen then dedupAux seen xs else x :: dedupAux (x :: seen) xs

/-- Python sorted(set(l)): deduplicate, then sort. -/
def sortedDedup (l : List String) : List String := pySorted (dedupAux [] l)

/-! Skill taxonomy tables of class ResumeParser in src/python/resume_parser.py,
transcribed verbatim. -/

/-- ResumeParser.PROGRAMMING_LANGUAGES. -/
def PROGRAMMING_LANGUAGES : List String := [
  "python", "javascript", "java", "c++", "c#", "ruby", "php", "go", "rust",
  "kotlin", "swift", "typescript", "scala", "perl", "r", "matlab", "c",
  "objective-c", "dart", "elixir", "clojure", "haskell", "lisp", "julia",
  "fortran", "cobol", "assembly", "vb", "visual basic"]

/-- ResumeParser.FRAMEWORKS_LIBRARIES. -/
def FRAMEWORKS_LIBRARIES : List String := [
  "html", "css", "react", "angular", "vue", "django", "flask", "fastapi", "express", "nodejs",
  "node.js", "spring", "hibernate", "dotnet", "asp.net", "tensorflow", "pytorch",
  "keras", "sklearn", "scikit-learn", "pandas", "numpy", "scipy", "matplotlib",
  "seaborn", "spark", "hadoop", "kafka", "rabbitmq", "redux", "next.js", "nextjs",
  "nest.js", "nestjs", "vue.js", "react.js", "angular.js", "jquery", "bootstrap",
  "tailwind", "tailwindcss", "material-ui", "mui", "chakra", "fastify", "koa",
  "laravel", "rails", "ruby on rails", "spring boot", "struts", "asp.net core"]

/-- ResumeParser.TOOLS_PLATFORMS. -/
def TOOLS_PLATFORMS : List String := [
  "docker", "kubernetes", "jenkins", "gitlab", "github", "git", "aws",
  "azure", "gcp", "google cloud", "terraform", "ansible", "docker-compose",
  "ci/cd", "linux", "unix", "bash", "shell", "nginx", "apache", "jira",
  "confluence", "slack", "trello", "asana", "bitbucket", "svn", "maven",
  "gradle", "npm", "pip", "virtualenv", "conda", "postman", "insomnia",
  "heroku", "render", "vercel", "netlify", "digitalocean", "linode",
  "vscode", "visual studio", "intellij", "eclipse", "pycharm", "webstorm",
  "gdb", "trace32", "logic analyzer", "oscilloscope", "uart debugger",
  "stm32", "raspberry pi", "arm", "avr", "stm32cubeide", "keil uvision",
  "openocd", "jtag", "swd", "jlink", "cortex"]

/-- ResumeParser.DATABASES. -/
def DATABASES : List String := [
  "postgres", "postgresql", "mysql", "mongodb", "redis", "elasticsearch",
  "cassandra", "dynamodb", "oracle", "sqlserver", "sql server", "firestore",
  "mariadb", "neo4j", "couchdb", "influxdb", "sqlite", "cockroachdb",
  "timescaledb", "clickhouse", "memcached", "rethinkdb"]

/-- ResumeParser.SOFT_SKILLS. -/
def SOFT_SKILLS : List String := [
  "communication", "teamwork", "leadership", "problem-solving", "critical thinking",
  "analytical thinking", "adaptability", "time management", "collaboration",
  "creativity", "emotional intelligence", "work ethic", "interpersonal",
  "presentation", "negotiation", "conflict resolution", "decision making"]

/-- ResumeParser.NOISE_PHRASES. -/
def NOISE_PHRASES : List String := [
  "hands-on", "hands on", "co-curricular activities", "extra-curricular",
  "extra curricular", "academic projects", "professional experience",
  "work experience", "technical skills", "programming languages",
  "tools and technologies", "core competencies", "areas of expertise",
  "proficient in", "familiar with", "experienced in", "knowledge of"]

/-- ResumeParser.SKILL_CANONICAL (insertion-ordered key-value pairs). -/
def SKILL_CANONICAL : List (String × String) := [
  ("machine learning", "Machine Learning"),
  ("deep learning", "Deep Learning"),
  ("data visualization", "Data Visualization"),
  ("data analysis", "Data Analysis"),
  ("data handling", "Data Handling"),
  ("model evaluation", "Model Evaluation"),
  ("feature engineering", "Feature Engineering"),
  ("regression", "Regression"),
  ("classification", "Classification"),
  ("clustering", "Clustering"),
  ("nlp", "NLP"),
  ("natural language processing", "NLP"),
  ("tf-idf", "TF-IDF"),
  ("cosine similarity", "Cosine Similarity"),
  ("cnn", "CNN"),
  ("rnn", "RNN"),
  ("transformers", "Transformers"),
  ("python", "Python"),
  ("javascript", "JavaScript"),
  ("typescript", "TypeScript"),
  ("java", "Java"),
  ("c", "C"),
  ("c++", "C++"),
  ("c#", "C#"),
  ("r", "R"),
  ("go", "Go"),
  ("php", "PHP"),
  ("ruby", "Ruby"),
  ("swift", "Swift"),
  ("kotlin", "Kotlin"),
  ("sql", "SQL"),
  ("nodejs", "Node.js"),
  ("node.js", "Node.js"),
  ("react", "React"),
  ("react.js", "React"),
  ("vue", "Vue"),
  ("vue.js", "Vue"),
  ("angular", "Angular"),
  ("angular.js", "Angular"),
  ("express", "Express"),
  ("django", "Django"),
  ("flask", "Flask"),
  ("fastapi", "FastAPI"),
  ("next.js", "Next.js"),
  ("nextjs", "Next.js"),
  ("nestjs", "NestJS"),
  ("nest.js", "NestJS"),
  ("tailwind", "Tailwind CSS"),
  ("tailwindcss", "Tailwind CSS"),
  ("bootstrap", "Bootstrap"),
  ("jquery", "jQuery"),
  ("pandas", "Pandas"),
  ("numpy", "NumPy"),
  ("scikit-learn", "Scikit-learn"),
  ("sklearn", "Scikit-learn"),
  ("tensorflow", "TensorFlow"),
  ("pytorch", "PyTorch"),
  ("postgres", "PostgreSQL"),
  ("postgresql", "PostgreSQL"),
  ("mysql", "MySQL"),
  ("mongodb", "MongoDB"),
  ("redis", "Redis"),
  ("sqlite", "SQLite"),
  ("sql server", "SQL Server"),
  ("sqlserver", "SQL Server"),
  ("docker", "Docker"),
  ("docker-compose", "Docker Compose"),
  ("kubernetes", "Kubernetes"),
  ("aws", "AWS"),
  ("azure", "Azure"),
  ("gcp", "GCP"),
  ("google cloud", "GCP"),
  ("git", "Git"),
  ("github", "GitHub"),
  ("gitlab", "GitLab"),
  ("vercel", "Vercel"),
  ("render", "Render"),
  ("ci/cd", "CI/CD"),
  ("vscode", "VS Code"),
  ("visual studio", "Visual Studio"),
  ("rtos", "RTOS"),
  ("i2c", "I2C"),
  ("i3c", "I3C"),
  ("uart", "UART"),
  ("gpio", "GPIO"),
  ("stm32", "STM32"),
  ("linux kernel", "Linux kernel"),
  ("device drivers", "Device drivers"),
  ("shell", "Shell"),
  ("freertos", "FreeRTOS"),
  ("zephyr", "Zephyr")]

/-- ResumeParser.CANONICAL_MAPPING (post-processing renames). -/
def CANONICAL_MAPPING : List (String × String) := [
  ("Linux kernel", "Device Drivers"),
  ("Linux Kernel", "Device Drivers"),
  ("Kernel", "Device Drivers"),
  ("Device drivers", "Device Drivers"),
  ("Device Drivers", "Device Drivers"),
  ("Device driver", "Device Drivers"),
  ("Device Driver", "Device Drivers"),
  ("Zephyr", "RTOS"),
  ("FreeRTOS", "RTOS"),
  ("Freertos", "RTOS"),
  ("Linux Cli", "Linux CLI"),
  ("Linux cli", "Linux CLI"),
  ("Shell", "Shell Scripting"),
  ("shell", "Shell Scripting"),
  ("STM32", "Microcontrollers"),
  ("Stm32", "Microcontrollers"),
  ("Raspberry Pi", "Microcontrollers"),
  ("Raspberry pi", "Microcontrollers")]

/-- ResumeParser.VAGUE_CONCEPTS. -/
def VAGUE_CONCEPTS : List String := [
  "Analytics", "Monitoring", "Telemetry", "Observability",
  "System Reliability", "System reliability", "analytics",
  "monitoring", "telemetry", "observability"]

/-- ResumeParser.INVALID_SKILLS. -/
def INVALID_SKILLS : List String := ["R"]

/-- ResumeParser.SOFT_SKILL_CANONICAL. -/
def SOFT_SKILL_CANONICAL : List (String × String) := [
  ("problem-solving", "Problem-Solving"),
  ("critical thinking", "Critical Thinking"),
  ("analytical thinking", "Analytical Thinking"),
  ("time management", "Time Management"),
  ("emotional intelligence", "Emotional Intelligence"),
  ("conflict resolution", "Conflict Resolution"),
  ("decision making", "Decision Making")]

/-- ResumeParser.TECHNICAL_CONCEPTS. -/
def TECHNICAL_CONCEPTS : List String := [
  "data structures", "data structures and algorithms", "dsa", "algorithms",
  "operating systems", "os", "dbms", "database management system",
  "computer networks", "networking", "cn", "oops", "object oriented programming",
  "oop", "computer organization", "computer architecture", "coa",
  "software engineering", "system design", "compiler design",
  "theory of computation", "toc", "automata", "discrete mathematics",
  "web development", "frontend", "backend",
  "rest api", "restful api", "api development", "responsive design",
  "machine learning", "deep learning", "data visualization", "data analysis",
  "data handling", "model evaluation", "feature engineering", "regression",
  "classification", "clustering", "nlp", "natural language processing",
  "tf-idf", "cosine similarity", "cnn", "rnn", "transformers",
  "statistical modeling", "predictive modeling", "time series",
  "embedded systems", "rtos", "gpio", "uart", "i2c", "i3c", "spi", "serial communication",
  "firmware", "device driver", "linux driver", "kernel module", "hardware-software interfacing",
  "microcontroller", "microprocessor", "interrupt handling", "memory management",
  "bootloader", "cross-compilation", "embedded c", "freertos", "zephyr",
  "hsi2c", "gdb debugger", "logic analyzer", "trace32", "ioctl",
  "linux internals", "linux cli", "shell scripting", "bash", "kernel",
  "observability", "performance optimization", "system reliability",
  "debugging", "profiling", "monitoring", "telemetry",
  "market research", "analytics", "business intelligence", "operations",
  "project management", "agile", "scrum", "kanban", "waterfall",
  "requirements analysis", "stakeholder management", "documentation"]

/-- Concatenation used as all_known_skills throughout the source. -/
def allKnownSkills : List String :=
  PROGRAMMING_LANGUAGES ++ FRAMEWORKS_LIBRARIES ++ TOOLS_PLATFORMS ++ DATABASES

/-- Lookup in an insertion-ordered association list (Python dict.get). -/
def alistGet (m : List (String × String)) (k : String) : Option String :=
  match m.find? (fun p => p.1 = k) with
  | some p => some p.2
  | none => none

/-- Python dict.get(k, default). -/
def alistGetD (m : List (String × String)) (k d : String) : String :=
  (alistGet m k).getD d

/-- The five technical-skill categories of the output schema. -/
inductive Cat where
  | technical_skills
  | programming_languages
  | frameworks_libraries
  | tools_platforms
  | databases
deriving DecidableEq, Repr

/-- A categorized skill mapping: the five technical categories of the
skills_data dict, each an ordered list of strings. -/
structure Skills5 where
  technical_skills : List String := []
  programming_languages : List String := []
  frameworks_libraries : List String := []
  tools_platforms : List String := []
  databases : List String := []
deriving DecidableEq, Repr

/-- Category accessor of a Skills5 value. -/
def Skills5.get (sd : Skills5) : Cat → List String
  | .technical_skills => sd.technical_skills
  | .programming_languages => sd.programming_languages
  | .frameworks_libraries => sd.frameworks_libraries
  | .tools_platforms => sd.tools_platforms
  | .databases => sd.databases

/-- Append one string at the end of a category list. -/
def Skills5.add (sd : Skills5) (c : Cat) (s : String) : Skills5 :=
  match c with
  | .technical_skills => { sd with technical_skills := sd.technical_skills ++ [s] }
  | .programming_languages => { sd with programming_languages := sd.programming_languages ++ [s] }
  | .frameworks_libraries => { sd with frameworks_libraries := sd.frameworks_libraries ++ [s] }
  | .tools_platforms => { sd with tools_platforms := sd.tools_platforms ++ [s] }
  | .databases => { sd with databases := sd.databases ++ [s] }

/-- Append a whole list at the end of a category list. -/
def Skills5.appendAll (sd : Skills5) (c : Cat) (l : List String) : Skills5 :=
  match c with
  | .technical_skills => { sd with technical_skills := sd.technical_skills ++ l }
  | .programming_languages => { sd with programming_languages := sd.programming_languages ++ l }
  | .frameworks_libraries => { sd with frameworks_libraries := sd.frameworks_libraries ++ l }
  | .tools_platforms => { sd with tools_platforms := sd.tools_platforms ++ l }
  | .databases => { sd with databases := sd.databases ++ l }

/-! Skill-string helpers of ResumeParser. -/

/-- Character class of re.sub stripping in normalize_skill: whitespace, -, :,
bullet, star. -/
def isSkillPunct (c : Char) : Bool :=
  isPyWS c || c = '-' || c = ':' || c = '•' || c = '*'

/-- Strip the leading and trailing runs removed by
re.sub of the anchored punctuation classes in normalize_skill. -/
def stripPunct (s : String) : String :=
  String.mk (((s.toList.dropWhile isSkillPunct).reverse.dropWhile isSkillPunct).reverse)

/-- Heading and category words rejected inside normalize_skill. -/
def headingWords : List String :=
  ["skills", "technical skills", "programming", "languages", "frameworks",
   "libraries", "tools", "databases", "technologies", "expertise"]

/-- Test for re.match of the anchored digits-or-non-word-characters class:
the token is nonempty and all its characters are digits or non-word. -/
def isAllDigitOrNonWord (s : String) : Bool :=
  !s.isEmpty && s.toList.all (fun c => c.isDigit || !isWordChar c)

/-- ResumeParser.normalize_skill (the raw_line argument is the enclosing
line used for the single-letter language check). -/
def normalize_skill (skill : String) (rawLine : Option String) : Option String :=
  if skill = "" then none
  else
    let isGroupLabel := pyStartsWith skill "GROUP:"
    let skill1 := if isGroupLabel then skill.drop 6 else skill
    let original := pyStrip skill1
    let s0 := lowerStr original
    let s1 := if isGroupLabel then s0
      else NOISE_PHRASES.foldl (fun acc noise => removeSub noise acc) s0
    let s2 := stripPunct s1
    if s2.length < 2 || s2.length > 50 then
      if s2.length = 1 && (s2 = "c" || s2 = "r") then
        match rawLine with
        | some rl => if wbSearchCI original rl then some s2 else none
        | none => some s2
      else none
    else if !isGroupLabel && s2 ∈ headingWords then none
    else if s2 ∈ SOFT_SKILLS then none
    else if isAllDigitOrNonWord s2 then none
    else some s2

/-- ResumeParser.format_skill_display. -/
def format_skill_display (skill : String) : String :=
  let skillLower := lowerStr (pyStrip skill)
  match alistGet SKILL_CANONICAL skillLower with
  | some v => v
  | none =>
    if skillLower = "api" || skillLower = "apis" then "API"
    else if skillLower = "ml" || skillLower = "ai" || skillLower = "nlp" then upperStr skillLower
    else pyTitle skillLower

/-- ResumeParser.format_soft_skill. -/
def format_soft_skill (skill : String) : String :=
  let skillLower := lowerStr (pyStrip skill)
  match alistGet SOFT_SKILL_CANONICAL skillLower with
  | some v => v
  | none => pyTitle skillLower

/-- ResumeParser.categorize_skill, with its hard overrides for html/css and
render/vercel followed by the ordered dictionary membership chain. -/
def categorize_skill (skill : String) : Cat :=
  let skillLower := lowerStr skill
  if skillLower = "html" || skillLower = "css" then .frameworks_libraries
  else if skillLower = "render" || skillLower = "vercel" then .tools_platforms
  else if skillLower ∈ PROGRAMMING_LANGUAGES then .programming_languages
  else if skillLower ∈ FRAMEWORKS_LIBRARIES then .frameworks_libraries
  else if skillLower ∈ TOOLS_PLATFORMS then .tools_platforms
  else if skillLower ∈ DATABASES then .databases
  else .technical_skills

/-- ResumeParser._normalize_embedded_skill. -/
def normalize_embedded_skill (skill : String) : Option String :=
  if skill = "" then none
  else
    let s := lowerStr (pyStrip skill)
    if s = "hsi2c" then some "i2c"
    else if containsSub "zephyr" s && containsSub "rtos" s then some "rtos"
    else if s = "freertos" then some "rtos"
    else if containsSub "linux kernel module" s || containsSub "kernel module" s then
      some "device drivers"
    else if containsSub "device driver" s then some "device drivers"
    else if s = "shell scripting" || s = "shell script" then some "shell"
    else some skill

/-! Splitters of extract_skill_items_from_line. -/

/-- Case-insensitive word-bounded match of the literal word and at the head
of the text (the final alternative of the skill-splitting patterns). -/
def isAndAt (txt : List Char) (pre : Option Char) : Bool :=
  match txt with
  | a :: n :: d :: rest =>
    (a.toLower = 'a' && n.toLower = 'n' && d.toLower = 'd') &&
      wordBoundary pre (some a) && wordBoundary (some d) rest.head?
  | _ => false

/-- re.split on the semicolon/comma, whitespace-ampersand-whitespace, or
word-bounded and pattern of extract_skill_items_from_line. -/
def splitSkillSepF : Nat → List Char → Option Char → List Char → List (List Char)
  | _, cur, _, [] => [cur.reverse]
  | 0, cur, _, l => [(l.reverse ++ cur).reverse]
  | fuel + 1, cur, pre, c :: ts =>
    if c = ';' || c = ',' then cur.reverse :: splitSkillSepF fuel [] (some c) ts
    else if isPyWS c &&
        (match ts with | amp :: w :: _ => amp = '&' && isPyWS w | _ => false) then
      cur.reverse :: splitSkillSepF fuel [] ((ts.drop 1).head?) (ts.drop 2)
    else if isAndAt (c :: ts) pre then
      cur.reverse :: splitSkillSepF fuel [] ((ts.drop 1).head?) (ts.drop 2)
    else splitSkillSepF fuel (c :: cur) (some c) ts

/-- splitSkillSepF with enough fuel to scan the whole list (every step
consumes at least one character, so the length is enough). -/
def splitSkillSepAux (cur : List Char) (pre : Option Char) (l : List Char) :
    List (List Char) :=
  splitSkillSepF l.length cur pre l

/-- re.split on the semicolon/comma/slash or word-bounded and pattern used on
parenthetical blocks. -/
def splitParenSepF : Nat → List Char → Option Char → List Char → List (List Char)
  | _, cur, _, [] => [cur.reverse]
  | 0, cur, _, l => [(l.reverse ++ cur).reverse]
  | fuel + 1, cur, pre, c :: ts =>
    if c = ';' || c = ',' || c = '/' then cur.reverse :: splitParenSepF fuel [] (some c) ts
    else if isAndAt (c :: ts) pre then
      cur.reverse :: splitParenSepF fuel [] ((ts.drop 1).head?) (ts.drop 2)
    else splitParenSepF fuel (c :: cur) (some c) ts

/-- splitParenSepF with enough fuel to scan the whole list. -/
def splitParenSepAux (cur : List Char) (pre : Option Char) (l : List Char) :
    List (List Char) :=
  splitParenSepF l.length cur pre l

/-- re.findall of the parenthetical-group pattern: capture the nonempty runs
between a literal open parenthesis and the next close parenthesis. -/
def parenBlocksF : Nat → List Char → List (List Char)
  | _, [] => []
  | 0, _ => []
  | fuel + 1, c :: ts =>
    if c = '(' then
      let content := ts.takeWhile (· ≠ ')')
      if content.length < ts.length then
        if content.isEmpty then parenBlocksF fuel ts
        else content :: parenBlocksF fuel (ts.drop (content.length + 1))
      else parenBlocksF fuel ts
    else parenBlocksF fuel ts

/-- parenBlocksF with enough fuel to scan the whole list. -/
def parenBlocks (l : List Char) : List (List Char) := parenBlocksF l.length l

/-- re.sub removing the parenthetical groups matched by parenBlocks. -/
def removeParensF : Nat → List Char → List Char
  | _, [] => []
  | 0, l => l
  | fuel + 1, c :: ts =>
    if c = '(' then
      let content := ts.takeWhile (· ≠ ')')
      if content.length < ts.length then
        if content.isEmpty then c :: removeParensF fuel ts
        else removeParensF fuel (ts.drop (content.length + 1))
      else c :: removeParensF fuel ts
    else c :: removeParensF fuel ts

/-- removeParensF with enough fuel to scan the whole list. -/
def removeParens (l : List Char) : List Char := removeParensF l.length l

/-- Leading-bullet class stripped at the start of a skills line. -/
def isLeadBullet (c : Char) : Bool := isPyWS c || c = '-' || c = '•' || c = '*'

/-- ResumeParser.extract_skill_items_from_line. -/
def extract_skill_items_from_line (line : String) : List String :=
  if line = "" then []
  else
    let raw0 := pyStrip line
    let raw1 := String.mk (raw0.toList.dropWhile isLeadBullet)
    let raw2 := pyStrip (removeSub "(cid:127)" raw1)
    let colonSplit :=
      if containsSub ":" raw2 then
        let lbl := (pySplitOn raw2 ":").headD ""
        let rest := raw2.drop (lbl.length + 1)
        let g := pyStrip lbl
        ((if g ≠ "" then [String.append "GROUP:" g] else []), pyStrip rest)
      else ([], raw2)
    let groupItems := colonSplit.1
    let raw3 := colonSplit.2
    let parenItems := (parenBlocks raw3.toList).flatMap (fun block =>
      (((splitParenSepAux [] none block).map (fun l => pyStrip (String.mk l))).filter (· ≠ "")))
    let raw4 := pyStrip (String.mk (removeParens raw3.toList))
    let mainItems :=
      ((splitSkillSepAux [] none raw4.toList).map (fun l => pyStrip (String.mk l))).filter (· ≠ "")
    groupItems ++ parenItems ++ mainItems

/-! Section segmentation of the python variant
(ResumeParser._detect_section_key and _get_sections). -/

/-- The section_keywords table of _detect_section_key, in its insertion
order. -/
def section_keywords : List (String × List String) := [
  ("skills", ["skills", "technical skills", "core competencies", "tools",
              "technologies", "expertise", "proficiencies"]),
  ("projects", ["projects", "project", "academic projects",
                "machine learning projects", "personal projects"]),
  ("experience", ["experience", "work experience", "professional experience",
                  "employment", "internship experience", "internships",
                  "work history", "employment history", "training",
                  "training experience"]),
  ("education", ["education", "academics", "academic background"]),
  ("certifications", ["certifications", "certificates", "certification"]),
  ("summary", ["professional summary", "summary", "profile", "about"])]

/-- The normalized candidate-heading form: lowercased, lowercase letters and
spaces only, stripped. -/
def headingNorm (line : String) : String :=
  pyStrip (String.mk ((lowerStr line).toList.filter (fun c => c.isLower || c = ' ')))

/-- ResumeParser._detect_section_key: the length, word-count and sentence
filters, then the keyword table lookup on the normalized line. -/
def detect_section_key (line : String) : Option String :=
  if line = "" then none
  else if line.length > 100 then none
  else if containsSub "." line && (pySplitOn line ".").length > 2 then none
  else if (wsSplit line).length > 8 then none
  else
    let normalized := headingNorm line
    if normalized = "" then none
    else section_keywords.findSome? (fun p =>
      if p.2.any (fun kw => normalized = kw || pyStartsWith normalized kw) then some p.1
      else none)

/-- ResumeParser._get_sections: single pass over the nonempty stripped lines,
headings open a (setdefault-style) section, other lines append to the current
one, lines before the first heading are dropped. -/
def get_sections (text : String) : List (String × List String) :=
  let lines := ((pySplitOn text "\n").map pyStrip).filter (· ≠ "")
  (lines.foldl (fun (st : List (String × List String) × Option String) line =>
    match detect_section_key line with
    | some k =>
      ((if st.1.any (·.1 = k) then st.1 else st.1 ++ [(k, [])]), some k)
    | none =>
      match st.2 with
      | some k =>
        (st.1.map (fun p => if p.1 = k then (p.1, p.2 ++ [line]) else p), st.2)
      | none => st) ([], none)).1

/-- Python sections.get(key, default empty list). -/
def sectionsGet (secs : List (String × List String)) (k : String) : List String :=
  ((secs.find? (·.1 = k)).map (·.2)).getD []

/-! ResumeParser.extract_skills. -/

/-- Insert into a category list only when absent, modelling set.add. -/
def Skills5.addSet (sd : Skills5) (c : Cat) (s : String) : Skills5 :=
  if s ∈ sd.get c then sd else sd.add c s

/-- The category additions produced by one candidate token of the skills
section: the dictionary loop with its verbatim double-check against the full
resume text, then the technical-concept fallback when no dictionary entry
matched. -/
def tokenAdds (resumeTextLower part item : String) : List (String × Cat) :=
  match normalize_skill item (some part) with
  | none => []
  | some normalized =>
    let hits := allKnownSkills.filter (fun k =>
      wbSearch k normalized && wbSearch k resumeTextLower)
    let adds := hits.map (fun k => (format_skill_display k, categorize_skill k))
    if hits.isEmpty then
      if normalized ∈ TECHNICAL_CONCEPTS && wbSearch normalized resumeTextLower then
        adds ++ [(format_skill_display normalized, Cat.technical_skills)]
      else adds
    else adds

/-- The skills-section token loop of extract_skills: every item of every
line, through tokenAdds. -/
def skillsTokensFold (resumeTextLower : String) (parts : List String) : Skills5 :=
  parts.foldl (fun acc part =>
      (extract_skill_items_from_line part).foldl (fun acc2 item =>
        (tokenAdds resumeTextLower part item).foldl (fun a p => a.addSet p.2 p.1) acc2)
        acc)
    ({} : Skills5)

/-- The known-skill fallback loop of extract_skills (no skills section). -/
def skillsFallbackFold (textLower : String) (init : Skills5) : Skills5 :=
  (allKnownSkills.filter (fun k => wbSearch k textLower)).foldl
    (fun a k => a.addSet (categorize_skill k) (format_skill_display k)) init

/-- The final per-category case-insensitive sort of extract_skills. -/
def sortSkills (sd : Skills5) : Skills5 :=
  { technical_skills := sortByKey lowerStr sd.technical_skills,
    programming_languages := sortByKey lowerStr sd.programming_languages,
    frameworks_libraries := sortByKey lowerStr sd.frameworks_libraries,
    tools_platforms := sortByKey lowerStr sd.tools_platforms,
    databases := sortByKey lowerStr sd.databases }

/-- ResumeParser.extract_skills: returns the five technical category lists
and the soft-skill list, each sorted case-insensitively as the source does. -/
def extract_skills (text : String) : Skills5 × List String :=
  let sections := get_sections text
  let skillsLines := sectionsGet sections "skills"
  let resumeTextLower := lowerStr text
  let textLower :=
    if skillsLines = [] then resumeTextLower else lowerStr (joinSep "\n" skillsLines)
  let parts := if skillsLines = [] then [] else pySplitOn (joinSep "\n" skillsLines) "\n"
  let afterTokens := skillsTokensFold resumeTextLower parts
  let afterFallback :=
    if skillsLines = [] then skillsFallbackFold textLower afterTokens
    else afterTokens
  let soft := dedupAux []
    ((SOFT_SKILLS.filter (fun sk => wbSearch sk textLower)).map format_soft_skill)
  (sortSkills afterFallback, sortByKey lowerStr soft)

/-! ResumeParser._harvest_skills_from_texts. -/

/-- The explicit embedded/RTOS normalization additions to the
technical_skills set of the harvester, in source order, each guarded by its
own search over the combined text. -/
def explicitTechAdds (combined : String) : List String :=
  (if wbSearchCI "HSI2C" combined then ["I2C"] else []) ++
  (if wbSearchCI "FreeRTOS" combined then ["RTOS"] else []) ++
  (if wbPhraseSearchCI "Zephyr RTOS" combined then ["RTOS"] else []) ++
  (if wbPhraseSearchCI "Linux kernel" combined then ["Linux kernel"] else []) ++
  (if wbPhraseSearchCI "kernel module" combined ||
      wbPhraseSearchCI "linux kernel module" combined then ["Device drivers"] else []) ++
  (if wbPhraseSearchCI "device driver" combined ||
      wbPhraseSearchCI "character driver" combined then ["Device drivers"] else []) ++
  (if wbSearchCI "stm32" combined then ["STM32", "Microcontrollers"] else []) ++
  (if wbSearchCI "UART" combined then ["UART"] else [])

/-- The combined text the harvester scans: the nonempty texts joined by
newlines. -/
def harvestCombined (texts : List String) : String :=
  joinSep "\n" (texts.filter (· ≠ ""))

/-- ResumeParser._harvest_skills_from_texts: dictionary and concept spotting
over the joined texts with lookaround boundaries, plus the explicit
embedded-systems rules (the shell-scripting rule adds to tools_platforms). -/
def harvest_skills_from_texts (texts : List String) : Skills5 :=
  if texts = [] then {}
  else
    let combined := harvestCombined texts
    let base := (allKnownSkills.filter (fun k => laSearchCI k combined)).foldl
      (fun a k => a.addSet (categorize_skill k) (format_skill_display k)) ({} : Skills5)
    let withConcepts := (TECHNICAL_CONCEPTS.filter (fun c => laSearchCI c combined)).foldl
      (fun a c => a.addSet Cat.technical_skills (format_skill_display c)) base
    let withTech := (explicitTechAdds combined).foldl
      (fun a s => a.addSet .technical_skills s) withConcepts
    if wbPhraseSearchCI "shell scripting" combined then
      withTech.addSet .tools_platforms "Shell"
    else withTech

/-! ResumeParser._post_process_skills. -/

/-- Project entry of the output schema. -/
structure ProjectEntry where
  title : String
  description : String
  tools_methods_used : List String
deriving DecidableEq, Repr

/-- Step 1 of post-processing: promote each project tool into the category
chosen by categorize_skill on its lowercase form (plain list append). -/
def promoteProjectTools (sd : Skills5) (projects : List ProjectEntry) : Skills5 :=
  projects.foldl (fun acc p =>
    p.tools_methods_used.foldl (fun a tech =>
      if tech ≠ "" then a.add (categorize_skill (lowerStr tech)) tech else a) acc) sd

/-- The final filters of step 2 on the canonically mapped key: single-letter
filter (only C survives), invalid-token filter, vague-concept filter. -/
def step2Filter (s3 : String) : Option String :=
  if s3.length = 1 && s3 ≠ "C" then none
  else if s3 ∈ INVALID_SKILLS then none
  else if s3 ∈ VAGUE_CONCEPTS then none
  else some s3

/-- Step 2 of post-processing on one raw skill string: blank filter, embedded
normalization, canonical mapping, then the final filters; returns the
all_skills key. -/
def step2Key (skill : String) : Option String :=
  if skill = "" || pyStrip skill = "" then none
  else
    match normalize_embedded_skill (pyStrip skill) with
    | none => none
    | some s2 => step2Filter (alistGetD CANONICAL_MAPPING s2 s2)

/-- The category-major iteration order of step 2 over the skills_data dict. -/
def catOrder : List Cat :=
  [.technical_skills, .programming_languages, .frameworks_libraries,
   .tools_platforms, .databases]

/-- All (skill, category) pairs of a Skills5 value in the iteration order of
step 2. -/
def pairStream (sd : Skills5) : List (String × Cat) :=
  catOrder.flatMap (fun c => (sd.get c).map (fun s => (s, c)))

/-- The all_skills dict of step 2: first category wins per key. -/
def buildAllSkills (pairs : List (String × Cat)) : List (String × Cat) :=
  pairs.foldl (fun acc p =>
    match step2Key p.1 with
    | none => acc
    | some k => if acc.any (·.1 = k) then acc else acc ++ [(k, p.2)]) []

/-- The known_languages set of step 3. -/
def known_languages : List String :=
  ["C", "C++", "C#", "Python", "Java", "JavaScript", "TypeScript",
   "Go", "Rust", "Ruby", "PHP", "Swift", "Kotlin", "Scala"]

/-- The known_frameworks set of step 3. -/
def known_frameworks : List String :=
  ["React", "Angular", "Vue", "Node.js", "Express", "Django",
   "Flask", "Spring", "Spring Boot", "TensorFlow", "PyTorch", "Keras"]

/-- The known_tools set of step 3. -/
def known_tools : List String :=
  ["Git", "Docker", "Kubernetes", "Jenkins", "AWS", "Azure", "GCP",
   "Linux", "VS Code", "IntelliJ", "GDB", "Trace32", "Logic Analyzer",
   "Shell Scripting", "GitHub", "GitLab", "Jira", "Postman"]

/-- The known_databases set of step 3. -/
def known_databases : List String :=
  ["MySQL", "PostgreSQL", "MongoDB", "Redis", "SQLite", "Oracle",
   "SQL Server", "Cassandra", "DynamoDB", "Firebase"]

/-- The hardware_terms set of step 3. -/
def hardware_terms : List String :=
  ["Microcontrollers", "STM32", "Raspberry Pi", "Arduino", "ESP32",
   "I2C", "I3C", "UART", "SPI", "GPIO", "CAN", "USB", "Ethernet",
   "Device Drivers", "RTOS", "Firmware", "Embedded Systems"]

/-- Step 3 of post-processing: single-category enforcement in priority order
languages, hardware terms, tools, frameworks, databases, else the original
category. -/
def assignCategory (skill : String) (orig : Cat) : Cat :=
  if skill ∈ known_languages then .programming_languages
  else if skill ∈ hardware_terms then .technical_skills
  else if skill ∈ known_tools then .tools_platforms
  else if skill ∈ known_frameworks then .frameworks_libraries
  else if skill ∈ known_databases then .databases
  else orig

/-- The acronym set preserved by the step-4 casing normalization. -/
def acronyms : List String :=
  ["I2C", "I3C", "UART", "SPI", "GPIO", "RTOS", "USB", "CAN",
   "AWS", "GCP", "API", "REST", "HTTP", "HTTPS", "TCP", "UDP",
   "CSS", "HTML", "SQL", "NoSQL", "CLI", "IDE", "CI/CD", "NLP",
   "CNN", "RNN", "ML", "AI", "IoT", "MQTT", "JSON", "XML", "YAML"]

/-- Literal suffix test on character lists (Python str.endswith). -/
def endsL (suffix l : List Char) : Bool := startsL suffix.reverse l.reverse

/-- Step 4 casing normalization of one skill: the trailing-CLI fixup, then
acronym uppercasing, then title case. -/
def normStep4 (s : String) : String :=
  if endsL " CLI".toList s.toList || endsL " Cli".toList s.toList then
    String.mk (s.toList.take (s.toList.length - 4)) ++ " CLI"
  else if upperStr s ∈ acronyms then upperStr s
  else pyTitle s

/-- ResumeParser._post_process_skills. -/
def post_process_skills (skillsData : Skills5) (projects : List ProjectEntry) : Skills5 :=
  let sd := promoteProjectTools skillsData projects
  let allSkills := buildAllSkills (pairStream sd)
  let catted := fun c =>
    (allSkills.filter (fun p => assignCategory p.1 p.2 = c)).map (fun p => p.1)
  { technical_skills := sortedDedup ((catted .technical_skills).map normStep4),
    programming_languages := sortedDedup ((catted .programming_languages).map normStep4),
    frameworks_libraries := sortedDedup ((catted .frameworks_libraries).map normStep4),
    tools_platforms := sortedDedup ((catted .tools_platforms).map normStep4),
    databases := sortedDedup ((catted .databases).map normStep4) }

/-! ResumeParser.infer_soft_skills_from_responsibilities. -/

/-- The verb-to-soft-skill mapping, in source order. -/
def verb_soft_skill_map : List (String × List String) := [
  ("collaborated", ["collaboration", "teamwork"]),
  ("cooperated", ["collaboration", "teamwork"]),
  ("partnered", ["teamwork", "collaboration"]),
  ("developed", ["problem solving", "technical thinking"]),
  ("designed", ["problem solving", "creativity"]),
  ("improved", ["problem solving", "analytical thinking"]),
  ("optimized", ["analytical thinking", "problem solving"]),
  ("evaluated", ["analytical thinking", "critical thinking"]),
  ("led", ["leadership"]),
  ("managed", ["leadership"]),
  ("mentored", ["leadership"]),
  ("presented", ["communication", "presentation"]),
  ("communicated", ["communication"]),
  ("negotiated", ["communication", "negotiation"]),
  ("delegated", ["leadership"]),
  ("coordinated", ["teamwork", "collaboration"]),
  ("resolved", ["problem solving", "conflict resolution"])]

/-- ResumeParser.infer_soft_skills_from_responsibilities (the result set is
modelled as a duplicate-free list). -/
def infer_soft_skills_from_responsibilities (responsibilities : List String) : List String :=
  responsibilities.foldl (fun acc resp =>
    verb_soft_skill_map.foldl (fun a p =>
      if containsSub p.1 (lowerStr resp) then
        p.2.foldl (fun l sk => if sk ∈ l then l else l ++ [sk]) a
      else a) acc) []

/-! ResumeParser.extract_certifications. -/

/-- Lazy capture of the certification-section pattern: consume characters
until the first position where a terminator alternative (in pattern order)
or the end of input matches; returns the captured group and the rest of the
input after the terminator. -/
def lazyCaptureUntil (terms : List (List Char)) : List Char → (List Char × List Char)
  | [] => ([], [])
  | c :: ts =>
    match terms.find? (fun t => startsL t (c :: ts)) with
    | some t => ([], (c :: ts).drop t.length)
    | none =>
      let r := lazyCaptureUntil terms ts
      (c :: r.1, r.2)

/-- The rest returned by lazyCaptureUntil is no longer than the input. -/
theorem lazyCaptureUntil_rest_le (terms : List (List Char)) :
    ∀ l : List Char, (lazyCaptureUntil terms l).2.length ≤ l.length := by
  intro l
  induction l with
  | nil => simp [lazyCaptureUntil]
  | cons c ts ih =>
    simp only [lazyCaptureUntil]
    cases h : terms.find? (fun t => startsL t (c :: ts)) with
    | none => simpa using Nat.le_succ_of_le ih
    | some t => simp [List.length_drop]

/-- The terminator alternatives of the certification-section pattern. -/
def certTerminators : List (List Char) :=
  ["project".toList, "experience".toList, "education".toList, "skill".toList]

/-- The dropWhile result is no longer than the input. -/
theorem dropWhile_length_le (p : Char → Bool) :
    ∀ l : List Char, (l.dropWhile p).length ≤ l.length := by
  intro l
  induction l with
  | nil => simp
  | cons c ts ih =>
    by_cases h : p c
    · simp [List.dropWhile, h]; omega
    · simp [List.dropWhile, h]

/-- Consume one match of the certification-section pattern whose literal
starts at the head of the input: skip the 13 literal characters, the word
characters, whitespace, an optional colon and whitespace, then lazily capture
up to a terminator or the end; returns the captured group and the rest. -/
def certOneMatch (l : List Char) : List Char × List Char :=
  let afterWord := (l.drop 13).dropWhile isWordChar
  let afterS1 := afterWord.dropWhile isPyWS
  let afterColon := match afterS1 with
    | ':' :: r => r
    | r => r
  let afterS2 := afterColon.dropWhile isPyWS
  lazyCaptureUntil certTerminators afterS2

/-- Dropping an optional leading colon does not lengthen a list. -/
theorem colonCase_length_le (l : List Char) :
    (match l with | ':' :: r => r | r => r).length ≤ l.length := by
  match l with
  | [] => simp
  | c :: r =>
    by_cases h : c = ':'
    · subst h; simp
    · have : (match c :: r with | ':' :: r => r | r => r) = c :: r := by
        cases hc : c
        simp_all
      simp [this]

/-- The rest after one certification match is strictly shorter than the
nonempty input. -/
theorem certOneMatch_rest_lt (c : Char) (ts : List Char) :
    (certOneMatch (c :: ts)).2.length < (c :: ts).length := by
  unfold certOneMatch
  have h1 := lazyCaptureUntil_rest_le certTerminators
    ((match ((c :: ts).drop 13).dropWhile isWordChar |>.dropWhile isPyWS with
      | ':' :: r => r
      | r => r).dropWhile isPyWS)
  have h2 := dropWhile_length_le isPyWS
    ((match ((c :: ts).drop 13).dropWhile isWordChar |>.dropWhile isPyWS with
      | ':' :: r => r
      | r => r))
  have h3 := colonCase_length_le (((c :: ts).drop 13).dropWhile isWordChar |>.dropWhile isPyWS)
  have h4 := dropWhile_length_le isPyWS (((c :: ts).drop 13).dropWhile isWordChar)
  have h5 := dropWhile_length_le isWordChar ((c :: ts).drop 13)
  have h6 : ((c :: ts).drop 13).length ≤ ts.length := by
    simp [List.length_drop]
  simp only [List.length_cons]
  omega

/-- re.findall of the certification-section pattern over the lowercased
text. -/
def scanCertF : Nat → List Char → List (List Char)
  | _, [] => []
  | 0, _ => []
  | fuel + 1, c :: ts =>
    if startsL "certification".toList (c :: ts) then
      (certOneMatch (c :: ts)).1 :: scanCertF fuel (certOneMatch (c :: ts)).2
    else scanCertF fuel ts

/-- scanCertF with enough fuel to scan the whole list (certOneMatch strictly
shortens its nonempty input, see certOneMatch_rest_lt). -/
def scanCertAux (l : List Char) : List (List Char) := scanCertF l.length l

/-- Leading bullet of a certification line: one bullet character and the
following whitespace. -/
def stripCertBullet (s : String) : String :=
  match s.toList with
  | c :: rest =>
    if c = '•' || c = '-' || c = '*' then String.mk (rest.dropWhile isPyWS) else s
  | [] => s

/-- The action verbs whose lines are skipped by extract_certifications. -/
def certActionVerbs : List String :=
  ["learnt", "learned", "created", "built", "developed", "implemented",
   "gained", "studied"]

/-- ResumeParser.extract_certifications over the lowercased resume text. -/
def extract_certifications (text : String) : List String :=
  let textLower := lowerStr text
  let certMatches := (scanCertAux textLower.toList).map String.mk
  if certMatches = [] then []
  else
    let certText := joinSep " " certMatches
    let lines := ((pySplitOn certText "\n").map pyStrip).filter (· ≠ "")
    (lines.filterMap (fun line =>
      let line2 := stripCertBullet line
      if certActionVerbs.any (fun v => pyStartsWith (lowerStr line2) v) then none
      else if 10 < line2.length && line2.length < 200 then some (pyStrip line2)
      else none))

/-! ResumeParser experience extraction. -/

/-- Models datetime.date.today() at a fixed date; none of the inputs
considered in the theorems exercises the Present/Current branch. -/
def todayYear : Nat := 2026

/-- Month of the fixed model date. -/
def todayMonth : Nat := 10

/-- Python slicing s[:n]. -/
def strTake (s : String) (n : Nat) : String := String.mk (s.toList.take n)

/-- Match exactly four digit characters, returning their value and the rest
(the regex group of four digits has no trailing boundary requirement). -/
def parse4Digits (l : List Char) : Option (Nat × List Char) :=
  match l with
  | a :: b :: c :: d :: rest =>
    if a.isDigit && b.isDigit && c.isDigit && d.isDigit then
      some ((a.toNat - 48) * 1000 + (b.toNat - 48) * 100 +
        (c.toNat - 48) * 10 + (d.toNat - 48), rest)
    else none
  | _ => none

/-- Is there a run of four digits anywhere in the string? -/
def searchDigits4 (s : String) : Bool :=
  let rec go : List Char → Bool
    | [] => false
    | c :: ts => (parse4Digits (c :: ts)).isSome || go ts
  go s.toList

/-- The month-name alternation of the experience date patterns in its source
order, lowercased, with the month numbers of month_map. -/
def durMonthAlts : List (String × Nat) :=
  [("jan", 1), ("january", 1), ("feb", 2), ("february", 2), ("mar", 3),
   ("march", 3), ("apr", 4), ("april", 4), ("may", 5), ("jun", 6),
   ("june", 6), ("jul", 7), ("july", 7), ("aug", 8), ("august", 8),
   ("sep", 9), ("sept", 9), ("september", 9), ("oct", 10), ("october", 10),
   ("nov", 11), ("november", 11), ("dec", 12), ("december", 12)]

/-- Does the tail-end of date_pattern1 — a month name followed by mandatory
whitespace and an optional year — match at the head of the list (ordered
alternation with the rest-check folded in)? -/
def endOfP1 (l : List Char) : Bool :=
  durMonthAlts.any (fun m =>
    startsL m.1.toList l && !((l.drop m.1.length).takeWhile isPyWS).isEmpty)

/-- Does the middle of date_pattern1 — optional whitespace, one to three
arbitrary non-newline characters, optional whitespace, then the end-month
part — match at the head of the list?  The two repetition widths are
explored as the regex backtracking does. -/
def p1Tail (r2 : List Char) : Bool :=
  let wsMax := (r2.takeWhile isPyWS).length
  (List.range (wsMax + 1)).any (fun a =>
    [1, 2, 3].any (fun b =>
      let base := r2.drop a
      decide (b ≤ base.length) &&
      (base.take b).all (fun c => decide (c ≠ '\n')) &&
      endOfP1 ((base.drop b).dropWhile isPyWS)))

/-- Does date_pattern1 (month year separator month optional-year) match at
the head of the lowercased list? -/
def p1At (l : List Char) : Bool :=
  durMonthAlts.any (fun m =>
    startsL m.1.toList l &&
    (let r1 := l.drop m.1.length
     let ws1 := r1.takeWhile isPyWS
     !ws1.isEmpty &&
     (match parse4Digits (r1.drop ws1.length) with
      | none => false
      | some r => p1Tail r.2)))

/-- Does date_pattern2 (year separator year-or-present-or-current) match at
the head of the lowercased list? -/
def p2At (l : List Char) : Bool :=
  match parse4Digits l with
  | none => false
  | some r =>
    let wsMax := (r.2.takeWhile isPyWS).length
    (List.range (wsMax + 1)).any (fun a =>
      [1, 2, 3].any (fun b =>
        let base := r.2.drop a
        decide (b ≤ base.length) &&
        (base.take b).all (fun c => decide (c ≠ '\n')) &&
        (let tail := (base.drop b).dropWhile isPyWS
         (parse4Digits tail).isSome ||
           startsL "present".toList tail || startsL "current".toList tail)))

/-- Scan every position of the list for a predicate match (re.search). -/
def anySuffix (p : List Char → Bool) : List Char → Bool
  | [] => p []
  | c :: ts => p (c :: ts) || anySuffix p ts

/-- re.search of date_pattern1 on a line, case-insensitively. -/
def searchP1 (line : String) : Bool := anySuffix p1At (lowerStr line).toList

/-- re.search of date_pattern2 on a line, case-insensitively. -/
def searchP2 (line : String) : Bool := anySuffix p2At (lowerStr line).toList

/-- A line carries a date range when either pattern matches. -/
def hasDateLine (line : String) : Bool := searchP1 line || searchP2 line

/-- End-of-range token of the month-range pattern of
_parse_duration_and_dates. -/
inductive MREnd where
  | presentTok
  | monthTok (m : Nat) (y : Option Nat)
deriving DecidableEq, Repr

/-- The separator class of the duration patterns on lowercased text. -/
def isSepChar (c : Char) : Bool :=
  c = '-' || c = '–' || c = '—' || c = 't' || c = 'o'

/-- Ordered end-alternation of the month-range pattern: month names, then
present, then current; the optional whitespace-year tail always succeeds, so
the first literal prefix wins, as in the regex. -/
def matchMREnd (l : List Char) : Option MREnd :=
  match durMonthAlts.find? (fun m => startsL m.1.toList l) with
  | some m =>
    let rest := (l.drop m.1.length).dropWhile isPyWS
    match parse4Digits rest with
    | some r => some (.monthTok m.2 (some r.1))
    | none => some (.monthTok m.2 none)
  | none =>
    if startsL "present".toList l then some .presentTok
    else if startsL "current".toList l then some .presentTok
    else none

/-- Match the month-range pattern of _parse_duration_and_dates at the head of
the lowercased list, returning start month, start year and the end token.
The separator run is explored longest-first as the regex backtracking
does. -/
def matchMonthRangeAt (l : List Char) : Option (Nat × Nat × MREnd) :=
  durMonthAlts.findSome? (fun alt =>
    if startsL alt.1.toList l then
      let r1 := l.drop alt.1.length
      let ws1 := r1.takeWhile isPyWS
      if ws1.isEmpty then none
      else
        match parse4Digits (r1.drop ws1.length) with
        | none => none
        | some (sy, r2) =>
          let r3 := r2.dropWhile isPyWS
          let seps := r3.takeWhile isSepChar
          if seps.isEmpty then none
          else
            (List.range seps.length).findSome? (fun k =>
              let sepLen := seps.length - k
              let r4 := (r3.drop sepLen).dropWhile isPyWS
              (matchMREnd r4).map (fun e => (alt.2, sy, e)))
    else none)

/-- Leftmost search of the month-range pattern. -/
def searchMonthRange : List Char → Option (Nat × Nat × MREnd)
  | [] => none
  | c :: ts =>
    match matchMonthRangeAt (c :: ts) with
    | some r => some r
    | none => searchMonthRange ts

/-- End token of the year-range pattern. -/
inductive YREnd where
  | presentTok
  | yearTok (y : Nat)
deriving DecidableEq, Repr

/-- Match the year-range pattern at the head of the lowercased list. -/
def matchYearRangeAt (l : List Char) : Option (Nat × YREnd) :=
  match parse4Digits l with
  | none => none
  | some (sy, r1) =>
    let r2 := r1.dropWhile isPyWS
    let seps := r2.takeWhile isSepChar
    if seps.isEmpty then none
    else
      (List.range seps.length).findSome? (fun k =>
        let sepLen := seps.length - k
        let r3 := (r2.drop sepLen).dropWhile isPyWS
        match parse4Digits r3 with
        | some r => some (sy, .yearTok r.1)
        | none =>
          if startsL "present".toList r3 then some (sy, .presentTok)
          else if startsL "current".toList r3 then some (sy, .presentTok)
          else none)

/-- Leftmost search of the year-range pattern. -/
def searchYearRange : List Char → Option (Nat × YREnd)
  | [] => none
  | c :: ts =>
    match matchYearRangeAt (c :: ts) with
    | some r => some r
    | none => searchYearRange ts

/-- Match one or two digits greedily, returning their value, for the explicit
month/year count patterns. -/
def parse12Digits (l : List Char) : Option (Nat × List Char) :=
  match l with
  | a :: b :: rest =>
    if a.isDigit && b.isDigit then some ((a.toNat - 48) * 10 + (b.toNat - 48), rest)
    else if a.isDigit then some (a.toNat - 48, b :: rest)
    else none
  | [a] => if a.isDigit then some (a.toNat - 48, []) else none
  | [] => none

/-- Match the explicit months pattern (digits, optional whitespace, month
unit word) at the head of the lowercased list, trying the greedy two-digit
width first. -/
def matchMonthsAt (l : List Char) : Option Nat :=
  let tryWidth := fun (p : Option (Nat × List Char)) =>
    match p with
    | none => none
    | some (n, rest) =>
      let r := rest.dropWhile isPyWS
      if startsL "month".toList r || startsL "mo".toList r then some n else none
  match l with
  | a :: b :: rest =>
    if a.isDigit && b.isDigit then
      match tryWidth (some ((a.toNat - 48) * 10 + (b.toNat - 48), rest)) with
      | some n => some n
      | none => tryWidth (some (a.toNat - 48, b :: rest))
    else if a.isDigit then tryWidth (some (a.toNat - 48, b :: rest))
    else none
  | [_] => none
  | [] => none

/-- Match the explicit years pattern (digits, optional whitespace, year unit
word) at the head of the lowercased list. -/
def matchYearsAt (l : List Char) : Option Nat :=
  let tryWidth := fun (p : Option (Nat × List Char)) =>
    match p with
    | none => none
    | some (n, rest) =>
      let r := rest.dropWhile isPyWS
      if startsL "year".toList r || startsL "yr".toList r then some n else none
  match l with
  | a :: b :: rest =>
    if a.isDigit && b.isDigit then
      match tryWidth (some ((a.toNat - 48) * 10 + (b.toNat - 48), rest)) with
      | some n => some n
      | none => tryWidth (some (a.toNat - 48, b :: rest))
    else if a.isDigit then tryWidth (some (a.toNat - 48, b :: rest))
    else none
  | [_] => none
  | [] => none

/-- Leftmost search for an at-position matcher returning a value. -/
def searchFor (p : List Char → Option Nat) : List Char → Option Nat
  | [] => none
  | c :: ts =>
    match p (c :: ts) with
    | some n => some n
    | none => searchFor p ts

/-- ResumeParser._parse_duration_and_dates: duration in months and the
normalized start/end dates of a text block. -/
def parse_duration_and_dates (text : String) : Nat × String × String :=
  let tl := (lowerStr text).toList
  match searchMonthRange tl with
  | some (sm, sy, e) =>
    let em : Nat := match e with
      | .presentTok => todayMonth
      | .monthTok m _ => m
    let ey : Nat := match e with
      | .presentTok => todayYear
      | .monthTok _ y => y.getD sy
    let duration := (((ey : Int) - sy) * 12 + ((em : Int) - sm) + 1).toNat
    (duration, padNum 4 sy ++ "-" ++ padNum 2 sm, padNum 4 ey ++ "-" ++ padNum 2 em)
  | none =>
    match searchYearRange tl with
    | some (sy, e) =>
      let ey : Nat := match e with
        | .presentTok => todayYear
        | .yearTok y => y
      let em : Nat := match e with
        | .presentTok => todayMonth
        | .yearTok _ => 12
      let duration := (((ey : Int) - sy) * 12 + ((em : Int) - 1) + 1).toNat
      (duration, padNum 4 sy ++ "-" ++ padNum 2 1, padNum 4 ey ++ "-" ++ padNum 2 em)
    | none =>
      match searchFor matchMonthsAt tl with
      | some n => (n, "", "")
      | none =>
        match searchFor matchYearsAt tl with
        | some n => (n * 12, "", "")
        | none => (0, "", "")

/-- The bullet characters stripped by ResumeParser._clean_string. -/
def cleanStringBullets : List Char :=
  ['\uf0b7', '\u2022', '\u25aa', '\u25ab', '\u25cf', '\u25cb', '\u25a0', '\u25a1', '\u25c6', '\u25c7', '-', '\u2013', '\u2014']

/-- ResumeParser._clean_string. -/
def clean_string (s : String) : String :=
  if s = "" then ""
  else
    let s1 := pyStrip s
    let s2 := cleanStringBullets.foldl
      (fun acc b => pyStrip (String.mk (acc.toList.dropWhile (· = b)))) s1
    let s3 := replaceSub "–" "-" (replaceSub "—" "-" s2)
    let s4 := replaceSub "�" "" (replaceSub "(cid:127)" "" s3)
    pyStrip s4

/-- One experience entry of the output schema. -/
structure ExperienceEntry where
  role : String
  company : String
  duration_months : Nat
  type : String
  responsibilities : List String
  start_date : String
  end_date : String
deriving DecidableEq, Repr

/-- re.match of the leading bullet alternation on a line. -/
def isBulletStart (l : String) : Bool :=
  pyStartsWith l "•" || pyStartsWith l "-" || pyStartsWith l "*" || pyStartsWith l "(cid:127)"

/-- re.sub removing one leading bullet token and the whitespace after it. -/
def stripBulletWS (l : String) : String :=
  if pyStartsWith l "•" || pyStartsWith l "-" || pyStartsWith l "*" then
    String.mk ((l.toList.drop 1).dropWhile isPyWS)
  else if pyStartsWith l "(cid:127)" then
    String.mk ((l.toList.drop 9).dropWhile isPyWS)
  else l

/-- The location/company indicator words of the role/company heuristic. -/
def locationWords : List String :=
  ["india", "bangalore", "delhi", "mumbai", "usa", "inc", "ltd", "llc",
   "corp", "labs", "ai", "technology"]

/-- re.split on runs of two or more newlines (the fallback block split). -/
def splitBlankF : Nat → List Char → List Char → List (List Char)
  | _, cur, [] => [cur.reverse]
  | 0, cur, l => [(l.reverse ++ cur).reverse]
  | fuel + 1, cur, c :: ts =>
    if c = '\n' && (match ts with | '\n' :: _ => true | _ => false) then
      cur.reverse :: splitBlankF fuel [] (ts.dropWhile (· = '\n'))
    else splitBlankF fuel (c :: cur) ts

/-- splitBlankF with enough fuel to scan the whole list. -/
def splitBlankAux (cur : List Char) (l : List Char) : List (List Char) :=
  splitBlankF l.length cur l

/-- The fallback (no date line anywhere) entry builder of
extract_experience_details, applied to one blank-line-delimited block. -/
def fallbackEntry (entryRaw : String) : Option ExperienceEntry :=
  let entry := pyStrip entryRaw
  if entry.length < 10 then none
  else
    let lines := ((pySplitOn entry "\n").map pyStrip).filter (· ≠ "")
    if lines = [] then none
    else
      let responsibilities := (lines.filter isBulletStart).map
        (fun l => pyStrip (stripBulletWS l))
      match lines.find? hasDateLine with
      | none => none
      | some dateLine =>
        match lines.filter (fun l => l ≠ dateLine && !isBulletStart l) with
        | [] => none
        | role :: restc =>
          let company := restc.headD ""
          let d := parse_duration_and_dates dateLine
          let roleLower := lowerStr role
          let expType := if containsSub "intern" roleLower then "internship" else "full-time"
          let d2 := if d.1 = 0 then
              ((if expType = "internship" then 6 else 12), "", "")
            else d
          some { role := strTake role 100,
                 company := if company ≠ "" then strTake company 100 else "",
                 duration_months := d2.1,
                 type := expType,
                 responsibilities := responsibilities,
                 start_date := d2.2.1,
                 end_date := d2.2.2 }

/-- The per-date-line entry builder of extract_experience_details. -/
def mainEntry (expLines : List String) (dateIdxs : List Nat) (j : Nat) :
    Option ExperienceEntry :=
  let dateIdx := dateIdxs.getD j 0
  let startIdx := dateIdx - 4
  let endIdx := if j + 1 < dateIdxs.length then dateIdxs.getD (j + 1) 0
    else expLines.length
  let preDateLines := ((List.range (dateIdx - startIdx)).map
      (fun k => pyStrip (expLines.getD (startIdx + k) ""))).filter
    (fun l => l ≠ "" && !isBulletStart l)
  let rc : String × String :=
    if preDateLines.length ≥ 2 then
      let lm2 := preDateLines.getD (preDateLines.length - 2) ""
      let lm1 := preDateLines.getD (preDateLines.length - 1) ""
      let l1Loc := locationWords.any (fun w => containsSub w (lowerStr lm2))
      let l2Loc := locationWords.any (fun w => containsSub w (lowerStr lm1))
      if l2Loc && !l1Loc then (lm2, lm1)
      else (lm1, lm2)
    else if preDateLines.length = 1 then (preDateLines.getD 0 "", "")
    else ("", "")
  let dateLineText := pyStrip (expLines.getD dateIdx "")
  let role1 :=
    if rc.1 = "" then
      let parts := pySplitOn dateLineText "–"
      if parts.length ≥ 2 then
        let potentialRole := pyStrip (parts.headD "")
        if potentialRole.length < 100 && !searchDigits4 potentialRole then potentialRole
        else ""
      else ""
    else rc.1
  let responsibilities := ((List.range (endIdx - (dateIdx + 1))).map
      (fun k => pyStrip (expLines.getD (dateIdx + 1 + k) ""))).filterMap
    (fun line =>
      if isBulletStart line then
        let t := pyStrip (stripBulletWS line)
        if t ≠ "" && t.length > 5 then some t else none
      else none)
  if role1 = "" then none
  else
    let d := parse_duration_and_dates dateLineText
    let role := clean_string role1
    let company := clean_string rc.2
    let roleLower := lowerStr role
    let expType :=
      if containsSub "intern" roleLower then "internship"
      else if containsSub "training" roleLower || containsSub "trainee" roleLower then
        "training"
      else if containsSub "freelance" roleLower || containsSub "contractor" roleLower then
        (if containsSub "freelance" roleLower then "freelance" else "contract")
      else "full-time"
    let d2 := if d.1 = 0 then
        ((if expType = "internship" then 6 else 12), "", "")
      else d
    some { role := strTake role 100,
           company := if company ≠ "" then strTake company 100 else "",
           duration_months := d2.1,
           type := expType,
           responsibilities := responsibilities.map clean_string,
           start_date := d2.2.1,
           end_date := d2.2.2 }

/-- ResumeParser.extract_experience_details. -/
def extract_experience_details (text : String) : List ExperienceEntry :=
  let sections := get_sections text
  let expLines := sectionsGet sections "experience"
  if expLines = [] then []
  else
    let expText := joinSep "\n" expLines
    let dateIdxs := (List.range expLines.length).filter
      (fun i => hasDateLine (expLines.getD i ""))
    if dateIdxs = [] then
      ((splitBlankAux [] expText.toList).map String.mk).filterMap fallbackEntry
    else
      (List.range dateIdxs.length).filterMap (mainEntry expLines dateIdxs)

/-! ResumeParser.count_projects. -/

/-- The terminator alternatives of the projects-section pattern. -/
def projTerminators : List (List Char) :=
  ["experience".toList, "skills".toList, "education".toList, "certification".toList]

/-- Consume one match of the projects-section pattern whose literal starts at
the head of the input: the literal, an optional plural s, whitespace, an
optional colon, whitespace, then the lazy capture. -/
def projOneMatch (l : List Char) : List Char × List Char :=
  let afterLit := l.drop 7
  let afterS := match afterLit with
    | 's' :: r => r
    | r => r
  let afterW1 := afterS.dropWhile isPyWS
  let afterColon := match afterW1 with
    | ':' :: r => r
    | r => r
  let afterW2 := afterColon.dropWhile isPyWS
  lazyCaptureUntil projTerminators afterW2

/-- Dropping an optional leading literal character does not lengthen. -/
theorem optCharCase_length_le (x : Char) (l : List Char) :
    (match l with | c :: r => if c = x then r else c :: r | [] => []).length ≤ l.length := by
  match l with
  | [] => simp
  | c :: r =>
    by_cases h : c = x <;> simp [h]

/-- The rest after one projects-section match is strictly shorter than the
nonempty input. -/
theorem projOneMatch_rest_lt (c : Char) (ts : List Char) :
    (projOneMatch (c :: ts)).2.length < (c :: ts).length := by
  unfold projOneMatch
  have hs : ∀ m : List Char,
      (match m with | 's' :: r => r | r => r).length ≤ m.length := by
    intro m; match m with
    | [] => simp
    | x :: r =>
      by_cases h : x = 's'
      · subst h; simp
      · have : (match x :: r with | 's' :: r => r | r => r) = x :: r := by
          cases hx : x
          simp_all
        simp [this]
  have hc : ∀ m : List Char,
      (match m with | ':' :: r => r | r => r).length ≤ m.length :=
    colonCase_length_le
  have h0 : ((c :: ts).drop 7).length ≤ ts.length := by simp [List.length_drop]
  have h1 := hs ((c :: ts).drop 7)
  have h2 := dropWhile_length_le isPyWS
    (match (c :: ts).drop 7 with | 's' :: r => r | r => r)
  have h3 := hc ((match (c :: ts).drop 7 with | 's' :: r => r | r => r).dropWhile isPyWS)
  have h4 := dropWhile_length_le isPyWS
    (match (match (c :: ts).drop 7 with | 's' :: r => r | r => r).dropWhile isPyWS with
     | ':' :: r => r | r => r)
  have h5 := lazyCaptureUntil_rest_le projTerminators
    ((match (match (c :: ts).drop 7 with | 's' :: r => r | r => r).dropWhile isPyWS with
      | ':' :: r => r | r => r).dropWhile isPyWS)
  simp only [List.length_cons]
  omega

/-- re.findall of the projects-section pattern over the lowercased text. -/
def scanProjF : Nat → List Char → List (List Char)
  | _, [] => []
  | 0, _ => []
  | fuel + 1, c :: ts =>
    if startsL "project".toList (c :: ts) then
      (projOneMatch (c :: ts)).1 :: scanProjF fuel (projOneMatch (c :: ts)).2
    else scanProjF fuel ts

/-- scanProjF with enough fuel to scan the whole list (projOneMatch strictly
shortens its nonempty input, see projOneMatch_rest_lt). -/
def scanProjAux (l : List Char) : List (List Char) := scanProjF l.length l

/-- The bullet character class of the project bullet pattern. -/
def bulletClassChar (c : Char) : Bool :=
  c = '•' || c = '-' || c = '*' || c.isDigit || c = '+' || c = '.'

/-- After the start-or-newline anchor: optional whitespace, one bullet-class
character, then mandatory whitespace; returns the rest after the match. -/
def bulletTail (r : List Char) : Option (List Char) :=
  let afterWS := r.dropWhile isPyWS
  match afterWS with
  | c :: rest =>
    if bulletClassChar c then
      let ws2 := rest.takeWhile isPyWS
      if ws2.isEmpty then none else some (rest.drop ws2.length)
    else none
  | [] => none

/-- A successful bulletTail consumes at least one character. -/
theorem bulletTail_lt (r x : List Char) (h : bulletTail r = some x) :
    x.length < r.length := by
  unfold bulletTail at h
  rcases hd : r.dropWhile isPyWS with _ | ⟨c, rest⟩ <;> rw [hd] at h
  · exact absurd h (by simp)
  · by_cases hb : bulletClassChar c
    · simp only [hb, if_true] at h
      by_cases he : (rest.takeWhile isPyWS).isEmpty
      · simp [he] at h
      · simp only [he, if_false] at h
        have h1 : x.length ≤ rest.length := by
          rw [← Option.some_inj.mp h]; simp [List.length_drop]
        have h2 : (c :: rest).length ≤ r.length := by
          rw [← hd]; exact dropWhile_length_le isPyWS r
        simp only [List.length_cons] at h2
        omega
    · simp [hb] at h

/-- The newline-anchored alternative of the bullet pattern at one
position. -/
def bulletAnchorNL (l : List Char) : Option (List Char) :=
  if l.head? = some '\n' then bulletTail (l.drop 1) else none

/-- A successful newline-anchored bullet match consumes characters. -/
theorem bulletAnchorNL_lt (l x : List Char) (h : bulletAnchorNL l = some x) :
    x.length < l.length := by
  unfold bulletAnchorNL at h
  split at h
  · rename_i hh
    have h1 := bulletTail_lt _ _ h
    have h2 : l ≠ [] := by
      intro he; subst he; simp at hh
    have h3 : 0 < l.length := List.length_pos.mpr h2
    simp only [List.length_drop] at h1
    omega
  · exact absurd h (by simp)

/-- One attempt of the bullet pattern at a position: the start anchor first
when at the beginning of the string, else the newline anchor. -/
def bulletAnchor (l : List Char) (atStart : Bool) : Option (List Char) :=
  if atStart then
    match bulletTail l with
    | some r => some r
    | none => bulletAnchorNL l
  else bulletAnchorNL l

/-- A successful bullet-pattern attempt consumes characters. -/
theorem bulletAnchor_lt (l x : List Char) (b : Bool)
    (h : bulletAnchor l b = some x) : x.length < l.length := by
  unfold bulletAnchor at h
  split at h
  · rcases hb : bulletTail l with _ | r <;> rw [hb] at h
    · exact bulletAnchorNL_lt l x h
    · injection h with hh
      subst hh
      exact bulletTail_lt l r hb
  · exact bulletAnchorNL_lt l x h

/-- Count of re.findall matches of the bullet pattern over the projects text
(with the regex consumption semantics: matches do not overlap, failed
positions bump along by one). -/
def countBulletsF : Nat → List Char → Bool → Nat
  | _, [], _ => 0
  | 0, _, _ => 0
  | fuel + 1, c :: ts, atStart =>
    match bulletAnchor (c :: ts) atStart with
    | some rest => 1 + countBulletsF fuel rest false
    | none => countBulletsF fuel ts false

/-- countBulletsF with enough fuel to scan the whole list (bulletAnchor
strictly shortens its input, see bulletAnchor_lt). -/
def countBulletsAux (l : List Char) (atStart : Bool) : Nat :=
  countBulletsF l.length l atStart

/-- The project-count indicator words. -/
def projIndicators : List String :=
  ["github", "gitlab", "project", "built", "developed",
   "created", "designed", "implemented"]

/-- ResumeParser.count_projects. -/
def count_projects (text : String) : Nat :=
  let textLower := lowerStr text
  match (scanProjAux textLower.toList).map String.mk with
  | [] => 0
  | first :: _ =>
    let bulletCount := countBulletsAux first.toList true
    if bulletCount > 0 then min bulletCount 20
    else
      let lines := pySplitOn first "\n"
      let cnt := (lines.filter (fun line =>
        projIndicators.any (fun ind => containsSub ind (lowerStr line)) &&
        line.length > 15)).length
      min (max 0 cnt) 20

/-! ResumeParser.extract_projects_details. -/

/-- The ordered method-name alternations of the project tools pass. -/
def method_patterns_alts : List (List String) := [
  ["TF-IDF", "TF/IDF", "tfidf"],
  ["Cosine Similarity", "cosine similarity"],
  ["Random Forest", "random forest"],
  ["Logistic Regression", "logistic regression"],
  ["Neural Network", "neural networks"],
  ["Feature Engineering", "feature engineering"],
  ["Hyperparameter Tuning", "hyperparameter tuning"],
  ["Exploratory Data Analysis", "EDA"],
  ["NLP", "Natural Language Processing"],
  ["CNN", "Convolutional Neural Network"],
  ["RNN", "Recurrent Neural Network"],
  ["LSTM", "Long Short-Term Memory"]]

/-- Leftmost case-insensitive search of an ordered literal alternation,
returning the matched substring in its original casing (match.group(0)). -/
def searchAltCI (alts : List String) : List Char → Option String
  | [] => none
  | c :: ts =>
    match alts.find? (fun a =>
      startsL (lowerStr a).toList ((c :: ts).map Char.toLower)) with
    | some a => some (String.mk ((c :: ts).take a.length))
    | none => searchAltCI alts ts

/-- The dictionary concatenation scanned inside flush_project. -/
def projKnownTools : List String :=
  FRAMEWORKS_LIBRARIES ++ PROGRAMMING_LANGUAGES ++ TOOLS_PLATFORMS ++ DATABASES

/-- The tools_methods_used list of one flushed project: word-bounded
dictionary hits over the project description only, in canonical display
form, then the matched method names, each deduplicated by order of
appearance. -/
def flushTools (description : String) : List String :=
  let projectText := lowerStr description
  let tools1 := projKnownTools.foldl (fun acc tool =>
    if wbSearch (lowerStr tool) projectText then
      let canonical := alistGetD SKILL_CANONICAL (lowerStr tool) (pyTitle tool)
      if canonical ∈ acc then acc else acc ++ [canonical]
    else acc) []
  method_patterns_alts.foldl (fun acc alts =>
    match searchAltCI alts description.toList with
    | some m => if m ∈ acc then acc else acc ++ [m]
    | none => acc) tools1

/-- State of the project-grouping loop. -/
structure PState where
  title : String
  desc : List String
  out : List ProjectEntry

/-- flush_project of extract_projects_details. -/
def flushProject (st : PState) : PState :=
  if st.title = "" then st
  else
    let description := pyStrip (joinSep "\n" st.desc)
    { title := "", desc := [],
      out := st.out ++ [{ title := strTake st.title 100,
                          description := strTake description 300,
                          tools_methods_used := flushTools description }] }

/-- The date-token search of the project title heuristic: a three-letter
month abbreviation substring (case-insensitive, unbounded) or a four-digit
run. -/
def hasProjDateToken (line : String) : Bool :=
  let ll := lowerStr line
  ["jan", "feb", "mar", "apr", "may", "jun", "jul", "aug", "sep", "oct",
   "nov", "dec"].any (fun m => containsSub m ll) || searchDigits4 line

/-- ResumeParser.extract_projects_details. -/
def extract_projects_details (text : String) : List ProjectEntry :=
  let sections := get_sections text
  let projLines := sectionsGet sections "projects"
  if projLines = [] then []
  else
    let projText := joinSep "\n" projLines
    let lines := ((pySplitOn projText "\n").map pyStrip).filter (· ≠ "")
    let final := lines.foldl (fun (st : PState) line =>
      if detect_section_key line = some "projects" then st
      else
        let ll := lowerStr line
        let isB :=
          isBulletStart line || pyStartsWith ll "developed" || pyStartsWith ll "built" ||
          pyStartsWith ll "created" || pyStartsWith ll "implemented" ||
          pyStartsWith ll "integrated" || pyStartsWith ll "demonstrated" ||
          pyStartsWith ll "used" || pyStartsWith ll "leveraged" ||
          pyStartsWith ll "designed" || pyStartsWith ll "technologies:" ||
          pyStartsWith ll "tech stack:" ||
          (st.title ≠ "" && !hasProjDateToken line)
        if !isB && (hasProjDateToken line || st.title = "") then
          let st2 := if st.title ≠ "" then flushProject st else st
          { st2 with title := line }
        else
          let bulletText := pyStrip (stripBulletWS line)
          if bulletText ≠ "" then { st with desc := st.desc ++ [bulletText] }
          else st) { title := "", desc := [], out := [] }
    (flushProject final).out.take 20

/-! ResumeParser.calculate_completeness_score. -/

/-- One education entry of the output schema. -/
structure EduEntry where
  degree : String
  field : String
  institution : String
  start_year : String
  end_year : String
  cgpa : String
deriving DecidableEq, Repr

/-- Round-to-nearest integer with ties to even, as Python round does. -/
def roundHalfEven (q : ℚ) : ℤ :=
  let f := ⌊q⌋
  let r := q - f
  if r < 1 / 2 then f
  else if r > 1 / 2 then f + 1
  else if Even f then f else f + 1

/-- Python round(x, 2) modelled exactly over the rationals. -/
def round2 (q : ℚ) : ℚ := (roundHalfEven (q * 100) : ℚ) / 100

/-- ResumeParser.calculate_completeness_score: four equally weighted
normalized components, rounded to two decimals. -/
def calculate_completeness_score (skillsData : Skills5) (education : List EduEntry)
    (experienceMonths : Nat) (projects : Nat) : ℚ :=
  let totalTechnical : Nat :=
    skillsData.technical_skills.length + skillsData.programming_languages.length +
    skillsData.frameworks_libraries.length + skillsData.tools_platforms.length +
    skillsData.databases.length
  let skillsScore : ℚ := min ((totalTechnical : ℚ) / 10) 1
  let educationScore : ℚ := if education.length > 0 then 1 else 0
  let experienceScore : ℚ := min ((experienceMonths : ℚ) / 120) 1
  let projectsScore : ℚ := min ((projects : ℚ) / 5) 1
  round2 (1 / 4 * skillsScore + 1 / 4 * educationScore +
    1 / 4 * experienceScore + 1 / 4 * projectsScore)

/-! ResumeParser.extract_education. -/

/-- Python slicing text[a:b] in characters. -/
def strSlice (s : String) (a b : Nat) : String :=
  String.mk ((s.toList.drop a).take (b - a))

/-- Ordered terminator alternation of the education-section pattern; returns
the consumed length at a matching position. -/
def eduTermAt (l : List Char) : Option Nat :=
  if startsL "experience".toList l then some 10
  else if startsL "skills".toList l then some 6
  else if startsL "projects".toList l then some 8
  else if startsL "certification".toList l then some 13
  else
    match phraseAt ["professional".toList, "achievements".toList] l with
    | some rest => some (l.length - rest.length)
    | none =>
      if startsL "internship".toList l then some 10
      else if startsL "declaration".toList l then some 11
      else none

/-- Lazy capture of the education-section pattern up to a terminator or the
end of input. -/
def lazyCaptureEdu : List Char → (List Char × List Char)
  | [] => ([], [])
  | c :: ts =>
    match eduTermAt (c :: ts) with
    | some n => ([], (c :: ts).drop n)
    | none =>
      let r := lazyCaptureEdu ts
      (c :: r.1, r.2)

/-- The rest returned by lazyCaptureEdu is no longer than the input. -/
theorem lazyCaptureEdu_rest_le :
    ∀ l : List Char, (lazyCaptureEdu l).2.length ≤ l.length := by
  intro l
  induction l with
  | nil => simp [lazyCaptureEdu]
  | cons c ts ih =>
    simp only [lazyCaptureEdu]
    cases h : eduTermAt (c :: ts) with
    | none => simpa using Nat.le_succ_of_le ih
    | some n => simp [List.length_drop]

/-- Consume one match of the education-section pattern whose literal starts
at the head of the input. -/
def eduOneMatch (l : List Char) : List Char × List Char :=
  let a1 := (l.drop 9).dropWhile isPyWS
  let a2 := match a1 with
    | ':' :: r => r
    | r => r
  let a3 := a2.dropWhile isPyWS
  lazyCaptureEdu a3

/-- The rest after one education-section match is strictly shorter than the
nonempty input. -/
theorem eduOneMatch_rest_lt (c : Char) (ts : List Char) :
    (eduOneMatch (c :: ts)).2.length < (c :: ts).length := by
  unfold eduOneMatch
  have h0 : ((c :: ts).drop 9).length ≤ ts.length := by simp [List.length_drop]
  have h1 := dropWhile_length_le isPyWS ((c :: ts).drop 9)
  have h2 := colonCase_length_le (((c :: ts).drop 9).dropWhile isPyWS)
  have h3 := dropWhile_length_le isPyWS
    (match ((c :: ts).drop 9).dropWhile isPyWS with | ':' :: r => r | r => r)
  have h4 := lazyCaptureEdu_rest_le
    ((match ((c :: ts).drop 9).dropWhile isPyWS with
      | ':' :: r => r | r => r).dropWhile isPyWS)
  simp only [List.length_cons]
  omega

/-- re.findall of the education-section pattern over the lowercased text. -/
def scanEduF : Nat → List Char → List (List Char)
  | _, [] => []
  | 0, _ => []
  | fuel + 1, c :: ts =>
    if startsL "education".toList (c :: ts) then
      (eduOneMatch (c :: ts)).1 :: scanEduF fuel (eduOneMatch (c :: ts)).2
    else scanEduF fuel ts

/-- scanEduF with enough fuel to scan the whole list (eduOneMatch strictly
shortens its nonempty input, see eduOneMatch_rest_lt). -/
def scanEduAux (l : List Char) : List (List Char) := scanEduF l.length l

/-- The ordered degree alternation of the degree pattern (lowercase, literal
dots). -/
def degreeAlts : List String :=
  ["bachelor of technology", "bachelor of science", "bachelor of arts",
   "masters of technology", "masters of science",
   "master of business administration", "phd", "doctorate", "diploma",
   "b.tech", "b.s", "b.a", "m.tech", "m.s", "m.a", "m.b.a", "mba"]

/-- The mandatory-whitespace-then-field tail of the degree pattern: at least
one whitespace character, then the greedy run of characters that are not
comma, newline or digit (the field group). -/
def degreeFieldTake (l2 : List Char) : Option (String × List Char) :=
  let ws := l2.takeWhile isPyWS
  if ws.isEmpty then none
  else
    let rest := l2.drop ws.length
    let fld := rest.takeWhile (fun c => !(c = ',' || c = '\n' || c.isDigit))
    some (String.mk fld, rest.drop fld.length)

/-- A successful degreeFieldTake consumes at least one character. -/
theorem degreeFieldTake_lt (l2 : List Char) (f : String) (r : List Char)
    (h : degreeFieldTake l2 = some (f, r)) : r.length < l2.length := by
  unfold degreeFieldTake at h
  by_cases he : (l2.takeWhile isPyWS).isEmpty
  · simp [he] at h
  · simp only [he, if_false] at h
    have hw : 0 < (l2.takeWhile isPyWS).length := by
      cases hq : l2.takeWhile isPyWS
      · simp [hq] at he
      · simp [hq]
    have hwle : (l2.takeWhile isPyWS).length ≤ l2.length := by
      have := l2.takeWhile_sublist (p := isPyWS)
      exact this.length_le
    have hr : r = (l2.drop (l2.takeWhile isPyWS).length).drop
        ((l2.drop (l2.takeWhile isPyWS).length).takeWhile
          (fun c => !(c = ',' || c = '\n' || c.isDigit))).length := by
      have := h
      injection this with h1
      injection h1 with h2 h3
      exact h3.symm
    rw [hr]
    simp only [List.length_drop]
    omega

/-- The optional in/on connective then the field tail of the degree
pattern. -/
def tryDegreeTail (l : List Char) : Option (String × List Char) :=
  match (if startsL "in".toList l then degreeFieldTake (l.drop 2) else none) with
  | some r => some r
  | none =>
    match (if startsL "on".toList l then degreeFieldTake (l.drop 2) else none) with
    | some r => some r
    | none => degreeFieldTake l

/-- A successful tryDegreeTail consumes at least one character. -/
theorem tryDegreeTail_lt (l : List Char) (f : String) (r : List Char)
    (h : tryDegreeTail l = some (f, r)) : r.length < l.length := by
  have h3 : (l.drop 2).length ≤ l.length := by simp [List.length_drop]
  unfold tryDegreeTail at h
  rcases hin : (if startsL "in".toList l = true then degreeFieldTake (l.drop 2) else none)
      with _ | v1
  · rw [hin] at h
    dsimp only at h
    rcases hon : (if startsL "on".toList l = true then degreeFieldTake (l.drop 2) else none)
        with _ | v2
    · rw [hon] at h
      dsimp only at h
      exact degreeFieldTake_lt l f r h
    · rw [hon] at h
      dsimp only at h
      have hv : v2 = (f, r) := by injection h
      subst hv
      split at hon
      · have := degreeFieldTake_lt (l.drop 2) f r hon
        omega
      · simp at hon
  · rw [hin] at h
    dsimp only at h
    have hv : v1 = (f, r) := by injection h
    subst hv
    split at hin
    · have := degreeFieldTake_lt (l.drop 2) f r hin
      omega
    · simp at hin

/-- The optional-whitespace run before the connective, explored greedily
(longest first) as the regex backtracking does, followed by the
connective-and-field tail. -/
def degreeRestAt (l : List Char) : Option (String × List Char) :=
  let wsMax := (l.takeWhile isPyWS).length
  (List.range (wsMax + 1)).findSome? (fun k => tryDegreeTail (l.drop (wsMax - k)))

/-- A successful degreeRestAt consumes at least one character. -/
theorem degreeRestAt_lt (l : List Char) (f : String) (r : List Char)
    (h : degreeRestAt l = some (f, r)) : r.length < l.length := by
  unfold degreeRestAt at h
  obtain ⟨k, -, hk⟩ := List.exists_of_findSome?_eq_some h
  have h1 := tryDegreeTail_lt _ f r hk
  have h2 : (l.drop ((l.takeWhile isPyWS).length - k)).length ≤ l.length := by
    simp [List.length_drop]
  omega

/-- The degree-pattern match at one position: ordered degree alternation with
the whitespace/connective/field tail folded in; returns the degree token, the
field group and the rest of the input after the match. -/
def degreeMatchAt (l : List Char) : Option (String × String × List Char) :=
  degreeAlts.findSome? (fun alt =>
    if startsL alt.toList l then
      (degreeRestAt (l.drop alt.length)).map (fun r => (alt, r.1, r.2))
    else none)

/-- A successful degreeMatchAt consumes at least one character. -/
theorem degreeMatchAt_lt (l : List Char) (a f : String) (r : List Char)
    (h : degreeMatchAt l = some (a, f, r)) : r.length < l.length := by
  unfold degreeMatchAt at h
  obtain ⟨alt, -, halt⟩ := List.exists_of_findSome?_eq_some h
  split at halt
  · rw [Option.map_eq_some'] at halt
    obtain ⟨⟨g, r2⟩, hd, hval⟩ := halt
    simp only [Prod.mk.injEq] at hval
    obtain ⟨-, -, h2⟩ := hval
    subst h2
    have := degreeRestAt_lt (l.drop alt.length) g r2 hd
    have h3 : (l.drop alt.length).length ≤ l.length := by simp [List.length_drop]
    omega
  · simp at halt

/-- re.finditer of the degree pattern: all non-overlapping matches with their
field groups, scanning left to right. -/
def findDegreesF : Nat → List Char → List (String × String)
  | _, [] => []
  | 0, _ => []
  | fuel + 1, c :: ts =>
    match degreeMatchAt (c :: ts) with
    | some r => (r.1, r.2.1) :: findDegreesF fuel r.2.2
    | none => findDegreesF fuel ts

/-- findDegreesF with enough fuel to scan the whole list (degreeMatchAt
strictly shortens its input, see degreeMatchAt_lt). -/
def findDegrees (l : List Char) : List (String × String) := findDegreesF l.length l

/-- Degree normalization to full names. -/
def normDegree (alt : String) : String :=
  if alt = "b.tech" || alt = "b.s" || alt = "b.a" then
    (if containsSub "tech" alt then "Bachelor of Technology" else "Bachelor of Science")
  else if alt = "m.tech" || alt = "m.s" || alt = "m.a" then
    (if containsSub "tech" alt then "Master of Technology" else "Master of Science")
  else if alt = "mba" || alt = "m.b.a" then "Master of Business Administration"
  else pyTitle alt

/-- Python s.split(sep)[0]: the prefix before the first separator
occurrence. -/
def splitFirst (sep s : String) : String := (pySplitOn s sep).headD s

/-- The field cleanup of extract_education: strip, then cut at the first of
the ordered separators found as a substring. -/
def cleanField (fieldRaw : String) : String :=
  if fieldRaw = "" then ""
  else
    let field := pyStrip fieldRaw
    match ["-", "—", "|", "cgpa", "gpa", "grade"].find?
        (fun sep => containsSub sep (lowerStr field)) with
    | some sep => pyStrip (splitFirst sep field)
    | none => field

/-- Rewrite of the last entry of an education list, when one exists. -/
def setLast (l : List EduEntry) (g : EduEntry → EduEntry) : List EduEntry :=
  match l.getLast? with
  | none => l
  | some e => l.dropLast ++ [g e]

/-- re.sub of an optional trailing comma and trailing whitespace. -/
def stripTrailingCommaWS (s : String) : String :=
  let l := s.toList.reverse.dropWhile isPyWS
  let l2 := match l with
    | ',' :: r => r
    | r => r
  String.mk l2.reverse

/-- The institution candidate of a comma-split line: the first part holding
one of the given keywords (and, for pattern 1, not a degree word), extended
by the following part when that is a location. -/
def instCandidate (parts : List String) (keep : String → Bool)
    (nextStop : List String) : Option String :=
  match parts.findIdx? keep with
  | none => none
  | some i =>
    let part := parts.getD i ""
    let cand0 := pyStrip part
    let cand :=
      if i + 1 < parts.length then
        let nextPart := pyStrip (parts.getD (i + 1) "")
        if !nextStop.any (fun sw => containsSub sw (lowerStr nextPart)) then
          cand0 ++ ", " ++ nextPart
        else cand0
      else cand0
    if 5 < cand.length && cand.length < 200 then some cand else none

/-- Keywords of the standalone institution-line pass. -/
def instKW2 : List String :=
  ["institute", "university", "college", "school", "academy", "polytechnic"]

/-- The capitalized keyword alternation of the fallback institution regex. -/
def instKWCaps : List String :=
  ["University", "College", "School", "Institute", "Academy", "Polytechnic"]

/-- The character class of the fallback institution regex. -/
def isInstX (c : Char) : Bool :=
  c.isAlpha || isPyWS c || c = '&' || c = ',' || c = '.' || c = '-'

/-- The comma-or-end tail of the fallback institution regex (the dollar also
matches just before a final newline). -/
def instEndOK (rest : List Char) : Bool :=
  match rest with
  | [] => true
  | [c] => c = ',' || c = '\n'
  | c :: _ => c = ','

/-- The lazy class run before the comma-or-end tail: the least width that
makes the tail match. -/
def instLazy (l : List Char) : Option Nat :=
  let maxm := (l.takeWhile isInstX).length
  (List.range (maxm + 1)).find? (fun m => instEndOK (l.drop m))

/-- One start position of the fallback institution regex: greedy class run
(longest first), a capitalized keyword, then the lazy class run; returns the
group. -/
def instTryStart (l : List Char) : Option (List Char) :=
  match l with
  | [] => none
  | c :: ts =>
    let maxRun := (ts.takeWhile isInstX).length
    (List.range (maxRun + 1)).findSome? (fun k =>
      let n := maxRun - k
      let p := ts.drop n
      match instKWCaps.find? (fun kw => startsL kw.toList p) with
      | some kw =>
        let afterK := p.drop kw.length
        match instLazy afterK with
        | some m => some (c :: (ts.take n ++ p.take kw.length ++ afterK.take m))
        | none => none
      | none => none)

/-- Leftmost search of the fallback institution regex: the start character
must be an uppercase letter. -/
def searchInstRegex : List Char → Option String
  | [] => none
  | c :: ts =>
    if c.isUpper then
      match instTryStart (c :: ts) with
      | some g => some (String.mk g)
      | none => searchInstRegex ts
    else searchInstRegex ts

/-- Non-overlapping year tokens of the education text: four digits starting
20 or 19 with word boundaries on both sides. -/
def findYearsAux (pre : Option Char) : List Char → List Nat
  | a :: b :: c :: d :: rest =>
    if a.isDigit && b.isDigit && c.isDigit && d.isDigit &&
       ((a = '2' && b = '0') || (a = '1' && b = '9')) &&
       wordBoundary pre (some a) && wordBoundary (some d) rest.head? then
      ((a.toNat - 48) * 1000 + (b.toNat - 48) * 100 +
        (c.toNat - 48) * 10 + (d.toNat - 48)) :: findYearsAux (some d) rest
    else findYearsAux (some a) (b :: c :: d :: rest)
  | _ => []

/-- The keyword alternation of the CGPA pattern, in order. -/
def cgpaKWs : List String := ["cgpa", "gpa", "grade"]

/-- The CGPA pattern at one position of the lowercase text: keyword,
whitespace, optional punctuation, whitespace, the value group, then the
optional slash-scale group. -/
def cgpaMatchAt (l : List Char) : Option (String × Option String) :=
  cgpaKWs.findSome? (fun kw =>
    if startsL kw.toList l then
      let r1 := (l.drop kw.length).dropWhile isPyWS
      let r2 := match r1 with
        | c :: rest => if c = ':' || c = '/' || c = ',' then rest else c :: rest
        | [] => []
      let r3 := r2.dropWhile isPyWS
      let num := r3.takeWhile (fun c => c.isDigit || c = '.')
      if num.isEmpty then none
      else
        let r4 := (r3.drop num.length).dropWhile isPyWS
        let scale := match r4 with
          | '/' :: r5 =>
            let r6 := r5.dropWhile isPyWS
            let num2 := r6.takeWhile (fun c => c.isDigit || c = '.')
            if num2.isEmpty then none else some (String.mk num2)
          | _ => none
        some (String.mk num, scale)
    else none)

/-- Leftmost search of the CGPA pattern. -/
def searchCgpa : List Char → Option (String × Option String)
  | [] => none
  | c :: ts =>
    match cgpaMatchAt (c :: ts) with
    | some r => some r
    | none => searchCgpa ts

/-- The working education text and original-section slice of
ResumeParser.extract_education: the joined education-section matches and the
education-to-terminator slice when the section pattern matches, the whole
lowercased/raw text otherwise. -/
def eduPair (text : String) : String × String :=
  let textLower := lowerStr text
  let eduMatches := (scanEduAux textLower.toList).map String.mk
  if eduMatches ≠ [] then
    let eduText := joinSep " " eduMatches
    let orig :=
      match findSubFrom "education" textLower 0 with
      | some startIdx =>
        let endKeywords := ["experience", "skill", "project", "certification",
                            "professional", "internship", "declaration"]
        let endIdx := endKeywords.foldl (fun acc kw =>
          match findSubFrom kw textLower (startIdx + 10) with
          | some t => if t < acc then t else acc
          | none => acc) text.length
        strSlice text startIdx endIdx
      | none => text
    (eduText, orig)
  else (textLower, text)

/-- Institution patterns 1 and 2 of extract_education over the original
section slice: the degree-line comma candidates, else the standalone
keyword-line candidates. -/
def eduInstLines (orig : String) : List String :=
  let origLines := pySplitOn orig "\n"
  let degreeLines := origLines.filter (fun line =>
    ["bachelor of technology", "bachelor of science", "master"].any
      (fun d => containsSub d (lowerStr line)))
  let instLines1 := degreeLines.foldl (fun acc dl =>
    if ["university", "college", "institute"].any
        (fun kw => containsSub kw (lowerStr dl)) then
      match instCandidate (pySplitOn dl ",")
          (fun part =>
            (containsSub "university" (lowerStr part) ||
             containsSub "institute" (lowerStr part)) &&
            !containsSub "bachelor" (lowerStr part) &&
            !containsSub "master" (lowerStr part))
          ["cgpa", "gpa", "percentage", "20", "grade", "june", "july", "may",
           "august"] with
      | some cand => acc ++ [cand]
      | none => acc
    else acc) []
  if instLines1 = [] then
    origLines.foldl (fun acc line =>
      let lineClean := pyStrip line
      if ["high school", "intermediate", "secondary"].any
          (fun sk => containsSub sk (lowerStr lineClean)) then acc
      else if instKW2.any (fun kw => containsSub kw (lowerStr lineClean)) then
        if (["cgpa", "gpa", "percentage", "2019", "2020", "2021", "2022",
             "2023", "2024", "2025", "2026", "2027", "2028"].any
            (fun sw => containsSub sw (lowerStr lineClean))) then
          match instCandidate (pySplitOn lineClean ",")
              (fun part => instKW2.any (fun kw => containsSub kw (lowerStr part)))
              ["cgpa", "gpa", "percentage", "20", "grade"] with
          | some cand => acc ++ [cand]
          | none => acc
        else
          let cleanLine := pyStrip (String.mk (lineClean.toList.takeWhile
            (fun c => !(c = ',' || c = '-' || c = '\u2014' || c = '|'))))
          if 5 < cleanLine.length && cleanLine.length < 200 then acc ++ [cleanLine]
          else acc
      else acc) []
  else instLines1

/-- The institution assignment to the last entry (education_info institution
update of the source). -/
def eduApplyInst (instLines2 : List String) (baseList : List EduEntry) :
    List EduEntry :=
  match instLines2 with
  | [] => baseList
  | inst0 :: _ =>
    let institution := pyStrip (stripTrailingCommaWS inst0)
    match baseList.getLast? with
    | some e =>
      if e.institution = "" then
        setLast baseList (fun e => { e with institution := institution })
      else baseList
    | none => baseList

/-- The fallback institution regex on the original section slice. -/
def eduApplyFallback (orig : String) (l : List EduEntry) : List EduEntry :=
  match l.getLast? with
  | some e =>
    if e.institution = "" then
      match searchInstRegex orig.toList with
      | some g => setLast l (fun e => { e with institution := pyStrip g })
      | none => l
    else l
  | none => l

/-- The year assignment to the last entry. -/
def eduApplyYears (eduText : String) (l : List EduEntry) : List EduEntry :=
  let years := findYearsAux none eduText.toList
  if years.length ≥ 2 && l ≠ [] then
    setLast l (fun e =>
      { e with start_year := toString ((years.min?).getD 0),
               end_year := toString ((years.max?).getD 0) })
  else if years.length = 1 && l ≠ [] then
    setLast l (fun e =>
      { e with end_year := toString (years.headD 0) })
  else l

/-- The CGPA assignment to the last entry. -/
def eduApplyCgpa (eduText : String) (l : List EduEntry) : List EduEntry :=
  match searchCgpa eduText.toList with
  | some (v, sc) =>
    if l ≠ [] then
      setLast l (fun e => { e with cgpa := v ++ "/" ++ (sc.getD "10.0") })
    else l
  | none => l

/-- ResumeParser.extract_education: one entry per degree match, then the
institution, fallback-institution, year and CGPA updates in source order. -/
def extract_education (text : String) : List EduEntry :=
  let eduText := (eduPair text).1
  let orig := (eduPair text).2
  let baseList := (findDegrees eduText.toList).map (fun d =>
    ({ degree := normDegree d.1, field := cleanField d.2, institution := "",
       start_year := "", end_year := "", cgpa := "" } : EduEntry))
  eduApplyCgpa eduText (eduApplyYears eduText (eduApplyFallback orig
    (eduApplyInst (eduInstLines orig) baseList)))

/-! ResumeParser.parse and the main entry point. -/

/-- The output profile record of parse. -/
structure Profile where
  technical_skills : List String
  programming_languages : List String
  frameworks_libraries : List String
  tools_platforms : List String
  databases : List String
  soft_skills : List String
  experience : List ExperienceEntry
  experience_months_total : Nat
  projects : List ProjectEntry
  education : List EduEntry
  certifications : List String
  resume_completeness_score : ℚ
deriving DecidableEq, Repr

/-- The pure assembly tail of parse after the extractor calls, split into
three definitions: mergedSkillsData (cross-section harvesting and the
extension of the skills_data dict), finalSkills (the required final
post-processing), and assembleProfile (the experience-months override,
project-count maximum, soft-skill inference, scoring, and the result dict).
extract_experience_months and extract_cgpa are called by the source but
their results are unconditionally overwritten or only logged, so they do
not appear. -/
def mergedSkillsData (text : String) (sk : Skills5 × List String)
    (experienceDetails : List ExperienceEntry)
    (projectsDetails : List ProjectEntry) : Skills5 :=
  let harvestTexts := [text] ++
    (if experienceDetails ≠ [] then
      experienceDetails.flatMap (fun e => e.responsibilities) else []) ++
    (if projectsDetails ≠ [] then projectsDetails.map (fun p => p.description) else [])
  let harvested := harvest_skills_from_texts harvestTexts
  { technical_skills := sk.1.technical_skills ++ harvested.technical_skills,
    programming_languages := sk.1.programming_languages ++ harvested.programming_languages,
    frameworks_libraries := sk.1.frameworks_libraries ++ harvested.frameworks_libraries,
    tools_platforms := sk.1.tools_platforms ++ harvested.tools_platforms,
    databases := sk.1.databases ++ harvested.databases }

/-- The final skill mapping of one parse: the merged skills_data dict put
through the required final post-processing. -/
def finalSkills (text : String) (sk : Skills5 × List String)
    (experienceDetails : List ExperienceEntry)
    (projectsDetails : List ProjectEntry) : Skills5 :=
  post_process_skills (mergedSkillsData text sk experienceDetails projectsDetails)
    projectsDetails

/-- The assembly tail continued (see the module comment above
mergedSkillsData). -/
def assembleProfile (text : String) (sk : Skills5 × List String)
    (education : List EduEntry) (experienceDetails : List ExperienceEntry)
    (projectsCount0 : Nat) (projectsDetails : List ProjectEntry)
    (certifications : List String) : Profile :=
  let experienceMonths :=
    if experienceDetails ≠ [] then
      (experienceDetails.map (fun e => e.duration_months)).sum
    else 0
  let projectsCount :=
    if projectsDetails ≠ [] then max projectsCount0 projectsDetails.length
    else projectsCount0
  let softInferred :=
    if experienceDetails ≠ [] && sk.2 = [] then
      infer_soft_skills_from_responsibilities
        (experienceDetails.flatMap (fun e => e.responsibilities))
    else []
  let combinedSoft := sk.2 ++ softInferred
  let skillsFinal := finalSkills text sk experienceDetails projectsDetails
  let completeness :=
    calculate_completeness_score skillsFinal education experienceMonths projectsCount
  { technical_skills := skillsFinal.technical_skills,
    programming_languages := skillsFinal.programming_languages,
    frameworks_libraries := skillsFinal.frameworks_libraries,
    tools_platforms := skillsFinal.tools_platforms,
    databases := skillsFinal.databases,
    soft_skills := sortedDedup combinedSoft,
    experience := experienceDetails,
    experience_months_total := experienceMonths,
    projects := projectsDetails,
    education := education,
    certifications := certifications,
    resume_completeness_score := completeness }

/-- ResumeParser.parse on already-extracted text (text_content is the
stripped raw text; binary file extraction is outside this boundary). -/
def parseProfile (rawText : String) : Profile :=
  let text := pyStrip rawText
  assembleProfile text (extract_skills text) (extract_education text)
    (extract_experience_details text) (count_projects text)
    (extract_projects_details text) (extract_certifications text)

/-- JSON-able values of the output record. -/
inductive JVal where
  | jstrs (l : List String)
  | jint (n : Nat)
  | jnum (q : ℚ)
  | jexps (l : List ExperienceEntry)
  | jprojs (l : List ProjectEntry)
  | jedus (l : List EduEntry)
deriving DecidableEq, Repr

/-- The result dict literal of parse, as an ordered key-value record. -/
def encodeProfile (p : Profile) : List (String × JVal) :=
  [("technical_skills", .jstrs p.technical_skills),
   ("programming_languages", .jstrs p.programming_languages),
   ("frameworks_libraries", .jstrs p.frameworks_libraries),
   ("tools_platforms", .jstrs p.tools_platforms),
   ("databases", .jstrs p.databases),
   ("soft_skills", .jstrs p.soft_skills),
   ("experience", .jexps p.experience),
   ("experience_months_total", .jint p.experience_months_total),
   ("projects", .jprojs p.projects),
   ("education", .jedus p.education),
   ("certifications", .jstrs p.certifications),
   ("resume_completeness_score", .jnum p.resume_completeness_score)]

/-- The default_response dict literal of main (the zero score is the int 0 of
the source). -/
def defaultResponse : List (String × JVal) :=
  [("technical_skills", .jstrs []),
   ("programming_languages", .jstrs []),
   ("frameworks_libraries", .jstrs []),
   ("tools_platforms", .jstrs []),
   ("databases", .jstrs []),
   ("soft_skills", .jstrs []),
   ("experience", .jexps []),
   ("experience_months_total", .jint 0),
   ("projects", .jprojs []),
   ("education", .jedus []),
   ("certifications", .jstrs []),
   ("resume_completeness_score", .jnum 0)]

/-- parse as seen from main: text extraction may fail (unsupported file,
library errors); parse itself raises when the extracted text is empty, and
otherwise computes the profile. -/
def parseOutcome (textResult : Except Unit String) : Except Unit Profile :=
  match textResult with
  | .error e => .error e
  | .ok raw => if raw = "" then .error () else .ok (parseProfile raw)

/-- Emission of one record by main: the parsed profile on success, the
default response on any caught exception. -/
def emitRecord : Except Unit Profile → List (String × JVal)
  | .ok p => encodeProfile p
  | .error _ => defaultResponse

/-- The record printed to stdout by main given the text-extraction outcome;
main catches every exception, so this function is total. -/
def mainEmit (textResult : Except Unit String) : List (String × JVal) :=
  emitRecord (parseOutcome textResult)

/-- The fixed key set of the output schema, in emission order. -/
def fixedKeys : List String :=
  ["technical_skills", "programming_languages", "frameworks_libraries",
   "tools_platforms", "databases", "soft_skills", "experience",
   "experience_months_total", "projects", "education", "certifications",
   "resume_completeness_score"]

/-- The control flow of parse over fallible extractor calls, in source call
order: the body of parse has no per-extractor exception handling, so the
first extractor exception propagates out of parse (whose blanket except
re-raises) and is caught only in main.  The extractors whose results the
source discards are still called, hence still bound. -/
def parseSeq (text : String) (skillsR : Except Unit (Skills5 × List String))
    (educationR : Except Unit (List EduEntry))
    (experienceMonthsR : Except Unit Nat)
    (experienceR : Except Unit (List ExperienceEntry))
    (projectsCountR : Except Unit Nat)
    (projectsR : Except Unit (List ProjectEntry))
    (cgpaR : Except Unit (Option ℚ))
    (certificationsR : Except Unit (List String)) : Except Unit Profile := do
  let sk ← skillsR
  let education ← educationR
  let _ ← experienceMonthsR
  let experienceDetails ← experienceR
  let projectsCount0 ← projectsCountR
  let projectsDetails ← projectsR
  let _ ← cgpaR
  let certifications ← certificationsR
  pure (assembleProfile text sk education experienceDetails projectsCount0
    projectsDetails certifications)

/-! The section segmenter of src/scripts/resume-parser/resume_parser.py
(segment_by_layout_and_rules), the variant with the separator-line and
colon heading rules. -/

namespace ScriptsSeg

/-- SECTION_KEYWORDS of the scripts variant, in insertion order. -/
def SECTION_KEYWORDS : List (String × List String) := [
  ("skills", ["skills", "technical skills", "professional skills",
              "core competencies", "competencies", "expertise", "proficiency",
              "proficiencies", "technologies", "technical expertise",
              "key skills", "areas of expertise", "technical proficiency",
              "toolset"]),
  ("education", ["education", "academic background", "academic",
                 "qualifications", "training", "degrees", "certifications",
                 "academic qualifications", "educational background",
                 "academic credentials"]),
  ("experience", ["experience", "work experience", "professional experience",
                  "employment", "employment history", "work history", "career",
                  "career history", "professional background",
                  "work background", "positions", "professional history"]),
  ("projects", ["projects", "selected projects", "key projects", "portfolio",
                "personal projects", "side projects", "project experience",
                "notable projects", "project work"])]

/-- re.match of the separator-line pattern: a nonempty run of =, -, em-dash,
underscore, star or whitespace spanning the whole line. -/
def isSeparatorLine (line : String) : Bool :=
  line ≠ "" && line.toList.all (fun c =>
    c = '=' || c = '-' || c = '—' || c = '_' || c = '*' || isPyWS c)

/-- The keyword containment test applied to the line after a separator. -/
def headerKeywordMatch (headerLineLower : String) : Option String :=
  SECTION_KEYWORDS.findSome? (fun p =>
    if p.2.any (fun kw => containsSub kw headerLineLower) then some p.1 else none)

/-- The flexible keyword heading test of the scripts segmenter: a contained
keyword that moreover looks like a header (trailing colon, short exact line,
or keyword at the start), longest keyword winning. -/
def bestKeywordMatch (line : String) : Option String :=
  let lineLower := pyStrip (lowerStr line)
  let headerLike := fun (kw : String) =>
    endsL ":".toList (pyStrip line).toList ||
    ((wsSplit line).length ≤ 3 && kw = lineLower) ||
    (pyStartsWith lineLower (kw ++ " ") || pyStartsWith lineLower (kw ++ ":") ||
      lineLower = kw)
  (SECTION_KEYWORDS.foldl (fun acc p =>
    p.2.foldl (fun (acc2 : Option String × Nat) kw =>
      if containsSub kw lineLower && headerLike kw && kw.length > acc2.2 then
        (some p.1, kw.length)
      else acc2) acc) ((none : Option String), 0)).1

/-- Ordered-dict update: overwrite in place when the key exists, else append
(Python dict assignment). -/
def updateAssoc (l : List (String × String)) (k v : String) :
    List (String × String) :=
  if l.any (·.1 = k) then l.map (fun p => if p.1 = k then (k, v) else p)
  else l ++ [(k, v)]

/-- The while-loop of segment_by_layout_and_rules over the remaining lines,
carrying the sections map, the current section name and its line buffer. -/
def segLoopF : Nat → List (String × String) → String → List String → List String →
    List (String × String) × String × List String
  | _, secs, cur, buf, [] => (secs, cur, buf)
  | 0, secs, cur, buf, _ => (secs, cur, buf)
  | fuel + 1, secs, cur, buf, line :: rest =>
    let sepCase : Option (String × String) :=
      if isSeparatorLine line && rest ≠ [] then
        let headerLine := rest.headD ""
        match headerKeywordMatch (pyStrip (lowerStr headerLine)) with
        | some name => some (name, headerLine)
        | none => none
      else none
    match sepCase with
    | some nh =>
      let secs2 := if cur ≠ "" then updateAssoc secs cur (joinSep "\n" buf) else secs
      segLoopF fuel secs2 nh.1 [nh.2] rest.tail
    | none =>
      match bestKeywordMatch line with
      | some name =>
        let secs2 := if cur ≠ "" then updateAssoc secs cur (joinSep "\n" buf) else secs
        segLoopF fuel secs2 name [line] rest
      | none => segLoopF fuel secs cur (buf ++ [line]) rest

/-- segLoopF with enough fuel to consume the whole line list (every step
consumes at least one line). -/
def segLoop (secs : List (String × String)) (cur : String) (buf : List String)
    (lines : List String) : List (String × String) × String × List String :=
  segLoopF lines.length secs cur buf lines

/-- segment_by_layout_and_rules on the stripped nonempty lines of the text
(self.lines), with the header default section; the raw text is kept for the
body fallback. -/
def segment_by_layout_and_rules (text : String) : List (String × String) :=
  let lines := ((pySplitOn text "\n").map pyStrip).filter (· ≠ "")
  let st := segLoop [] "header" [] lines
  let secs :=
    if st.2.1 ≠ "" && st.2.2 ≠ [] then updateAssoc st.1 st.2.1 (joinSep "\n" st.2.2)
    else st.1
  if secs = [] then [("body", text)] else secs

end ScriptsSeg

/-! Supporting lemmas for the theorems below. -/

/-- A literal prefix is no longer than the text it matches. -/
theorem startsL_length_le (p t : List Char) (h : startsL p t = true) :
    p.length ≤ t.length := by
  induction p generalizing t with
  | nil => simp
  | cons a ps ih =>
    cases t with
    | nil => simp [startsL] at h
    | cons b ts =>
      simp only [startsL, Bool.and_eq_true] at h
      have := ih ts h.2
      simp only [List.length_cons]
      omega

/-- A literal suffix is no longer than the text it matches. -/
theorem endsL_length_le (suf l : List Char) (h : endsL suf l = true) :
    suf.length ≤ l.length := by
  have := startsL_length_le suf.reverse l.reverse h
  simpa using this

/-- Title casing does not change the length of a character list. -/
theorem titleAux_length (b : Bool) (l : List Char) :
    (titleAux b l).length = l.length := by
  induction l generalizing b with
  | nil => rfl
  | cons c ts ih => simp [titleAux, ih]

/-- Python title casing preserves string length. -/
theorem pyTitle_length (s : String) : (pyTitle s).length = s.length := by
  show (titleAux false s.data).length = s.data.length
  exact titleAux_length false s.data

/-- Python uppercasing preserves string length. -/
theorem upperStr_length (s : String) : (upperStr s).length = s.length := by
  show (s.data.map Char.toUpper).length = s.data.length
  simp

/-- The step-4 casing normalization preserves string length. -/
theorem normStep4_length (k : String) : (normStep4 k).length = k.length := by
  unfold normStep4
  split
  · rename_i h
    have h4 : 4 ≤ k.toList.length := by
      simp only [Bool.or_eq_true] at h
      rcases h with h' | h'
      · exact endsL_length_le _ _ h'
      · exact endsL_length_le _ _ h'
    have hlen : (String.mk (k.toList.take (k.toList.length - 4)) ++ " CLI").length =
        (k.toList.take (k.toList.length - 4)).length + 4 := by
      rw [String.length_append]
      rfl
    rw [hlen]
    have : (k.toList.take (k.toList.length - 4)).length = k.toList.length - 4 := by
      simp [List.length_take]
    rw [this]
    show k.toList.length - 4 + 4 = k.length
    have : k.toList.length = k.length := rfl
    omega
  · split
    · exact upperStr_length k
    · exact pyTitle_length k

/-- The all_skills keys produced by step 2 are never the bare letter R, and
the only single-letter key is C. -/
theorem step2Filter_props (s3 k : String) (h : step2Filter s3 = some k) :
    k ≠ "R" ∧ (k.length = 1 → k = "C") := by
  unfold step2Filter at h
  split at h
  · simp at h
  · split at h
    · simp at h
    · split at h
      · simp at h
      · rename_i h1 h2 h3
        injection h with hk
        subst hk
        constructor
        · intro hR
          rw [hR] at h2
          simp [INVALID_SKILLS] at h2
        · intro hlen
          by_contra hC
          apply h1
          simp [hlen, hC]

theorem step2Key_props (s k : String) (h : step2Key s = some k) :
    k ≠ "R" ∧ (k.length = 1 → k = "C") := by
  unfold step2Key at h
  split at h
  · simp at h
  · split at h
    · simp at h
    · exact step2Filter_props _ k h

/-- Every pair of the all_skills association list stems from an input pair
whose string step-2-normalizes to its key. -/
theorem buildAllSkills_mem (pairs : List (String × Cat)) (acc : List (String × Cat))
    (p : String × Cat)
    (h : p ∈ pairs.foldl (fun acc q =>
      match step2Key q.1 with
      | none => acc
      | some k => if acc.any (·.1 = k) then acc else acc ++ [(k, q.2)]) acc) :
    p ∈ acc ∨ ∃ q, q ∈ pairs ∧ step2Key q.1 = some p.1 := by
  induction pairs generalizing acc with
  | nil => exact Or.inl h
  | cons q qs ih =>
    simp only [List.foldl_cons] at h
    rcases ih _ h with h' | ⟨q', hq', hs⟩
    · rcases hk : step2Key q.1 with _ | k
      · rw [hk] at h'
        exact Or.inl h'
      · rw [hk] at h'
        dsimp only at h'
        by_cases hany : (acc.any (·.1 = k)) = true
        · rw [if_pos hany] at h'
          exact Or.inl h'
        · rw [if_neg hany] at h'
          rcases List.mem_append.mp h' with h'' | h''
          · exact Or.inl h''
          · right
            refine ⟨q, List.mem_cons_self q qs, ?_⟩
            have : p = (k, q.2) := by simpa using h''
            rw [this, hk]
    · exact Or.inr ⟨q', List.mem_cons_of_mem q hq', hs⟩

/-- Membership through the stable key-based insertion. -/
theorem insertByKey_mem (key : String → String) (x y : String) (l : List String) :
    y ∈ insertByKey key x l ↔ y = x ∨ y ∈ l := by
  induction l with
  | nil => simp [insertByKey]
  | cons z zs ih =>
    unfold insertByKey
    split
    · simp only [List.mem_cons, ih]
      try tauto
    · simp only [List.mem_cons]
      try tauto

/-- Membership through the stable key-based sort. -/
theorem sortByKey_mem (key : String → String) (l : List String) (y : String) :
    y ∈ sortByKey key l ↔ y ∈ l := by
  unfold sortByKey
  induction l with
  | nil => simp
  | cons x xs ih => simp [insertByKey_mem, ih]

/-- Deduplication only drops elements. -/
theorem dedupAux_subset (seen l : List String) (y : String)
    (h : y ∈ dedupAux seen l) : y ∈ l := by
  induction l generalizing seen with
  | nil => simp [dedupAux] at h
  | cons x xs ih =>
    unfold dedupAux at h
    split at h
    · exact List.mem_cons_of_mem x (ih _ h)
    · rcases List.mem_cons.mp h with h' | h'
      · exact h' ▸ List.mem_cons_self x xs
      · exact List.mem_cons_of_mem x (ih _ h')

/-- Sorting a deduplicated list only reorders its elements. -/
theorem sortedDedup_subset (l : List String) (y : String)
    (h : y ∈ sortedDedup l) : y ∈ l := by
  unfold sortedDedup pySorted at h
  exact dedupAux_subset [] l y ((sortByKey_mem id _ y).mp h)

/-- Every skill string in a post-processed category is the step-4
normalization of an all_skills key. -/
theorem post_process_mem (sd : Skills5) (projs : List ProjectEntry) (c : Cat)
    (s : String) (h : s ∈ (post_process_skills sd projs).get c) :
    ∃ p, p ∈ buildAllSkills (pairStream (promoteProjectTools sd projs)) ∧
      s = normStep4 p.1 := by
  have h' : s ∈ sortedDedup
      ((((buildAllSkills (pairStream (promoteProjectTools sd projs))).filter
        (fun p => assignCategory p.1 p.2 = c)).map (fun p => p.1)).map normStep4) := by
    cases c <;> simpa [post_process_skills, Skills5.get] using h
  have h2 := sortedDedup_subset _ _ h'
  rcases List.mem_map.mp h2 with ⟨k, hk, rfl⟩
  rcases List.mem_map.mp hk with ⟨p, hp, rfl⟩
  exact ⟨p, (List.mem_filter.mp hp).1, rfl⟩

/-- No post-processed category contains the letter R, and the only possible
single-letter entry is C. -/
theorem post_process_props (sd : Skills5) (projs : List ProjectEntry) (c : Cat)
    (s : String) (h : s ∈ (post_process_skills sd projs).get c) :
    s ≠ "R" ∧ (s.length = 1 → s = "C") := by
  obtain ⟨p, hp, rfl⟩ := post_process_mem sd projs c s h
  rcases buildAllSkills_mem _ [] p hp with h0 | ⟨q, -, hs⟩
  · simp at h0
  · obtain ⟨hR, hC⟩ := step2Key_props q.1 p.1 hs
    have hlen := normStep4_length p.1
    constructor
    · intro hRs
      have h1 : p.1.length = 1 := by
        rw [hRs] at hlen
        simpa using hlen.symm
      have h2 := hC h1
      rw [h2] at hRs
      exact absurd hRs (by decide)
    · intro h1
      have h2 : p.1.length = 1 := by omega
      rw [hC h2]
      decide

/-- The five technical-skill category lists of a profile. -/
def profileCat (p : Profile) : Cat → List String
  | .technical_skills => p.technical_skills
  | .programming_languages => p.programming_languages
  | .frameworks_libraries => p.frameworks_libraries
  | .tools_platforms => p.tools_platforms
  | .databases => p.databases

/-- roundHalfEven is nonnegative on nonnegative input. -/
theorem roundHalfEven_nonneg (q : ℚ) (h : 0 ≤ q) : 0 ≤ roundHalfEven q := by
  simp only [roundHalfEven]
  have h0 : (0 : ℤ) ≤ ⌊q⌋ := Int.floor_nonneg.mpr h
  split
  · exact h0
  · split
    · omega
    · split <;> omega

/-- roundHalfEven never exceeds an integer bound of its argument. -/
theorem roundHalfEven_le (q : ℚ) (n : ℤ) (h : q ≤ (n : ℚ)) : roundHalfEven q ≤ n := by
  simp only [roundHalfEven]
  have hf : ⌊q⌋ ≤ n := by
    have h2 : ⌊q⌋ ≤ ⌊(n : ℚ)⌋ := Int.floor_le_floor h
    simpa using h2
  have hfq : (⌊q⌋ : ℚ) ≤ q := Int.floor_le q
  split
  · exact hf
  · have hlt : ⌊q⌋ < n := by
      have : (⌊q⌋ : ℚ) + 1 / 2 ≤ q := by linarith [le_of_not_lt (by assumption : ¬q - (⌊q⌋ : ℚ) < 1 / 2)]
      have : (⌊q⌋ : ℚ) < (n : ℚ) := by linarith
      exact_mod_cast this
    split
    · omega
    · split <;> omega

/-- round2 keeps the unit interval. -/
theorem round2_bounds (q : ℚ) (h0 : 0 ≤ q) (h1 : q ≤ 1) :
    0 ≤ round2 q ∧ round2 q ≤ 1 := by
  unfold round2
  have hn : 0 ≤ roundHalfEven (q * 100) := roundHalfEven_nonneg _ (by linarith)
  have hu : roundHalfEven (q * 100) ≤ 100 := roundHalfEven_le _ 100 (by push_cast; linarith)
  constructor
  · exact div_nonneg (by exact_mod_cast hn) (by norm_num)
  · rw [div_le_one (by norm_num : (0 : ℚ) < 100)]
    exact_mod_cast hu

/-! Claim theorems. -/

/-- C10: for every input, the single-letter skill string R never appears in
any technical-skill category of the final output — the post-processing pass
hard-deletes R and drops every other single-letter token except C — and C is
the only single-letter skill string that can survive to the output. -/
theorem c10_r_never_reported (text : String) :
    (∀ c : Cat, "R" ∉ profileCat (parseProfile text) c) ∧
    (∀ c : Cat, ∀ s ∈ profileCat (parseProfile text) c, s.length = 1 → s = "C") := by
  have key : ∀ c : Cat, ∀ s, s ∈ profileCat (parseProfile text) c →
      s ≠ "R" ∧ (s.length = 1 → s = "C") := by
    intro c s hs
    have hb : profileCat (parseProfile text) c =
        (finalSkills (pyStrip text) (extract_skills (pyStrip text))
          (extract_experience_details (pyStrip text))
          (extract_projects_details (pyStrip text))).get c := by
      cases c <;> simp only [profileCat, parseProfile, assembleProfile, Skills5.get]
    rw [hb] at hs
    simp only [finalSkills] at hs
    exact post_process_props _ _ c s hs
  exact ⟨fun c hR => (key c _ hR).1 rfl, fun c s hs => (key c s hs).2⟩

set_option maxHeartbeats 1000000 in
/-- Witness for c10_r_never_reported: on an input whose resume text lists the
language c, the letter C is reported among the programming languages, and the
theorem applied there confirms C is the surviving single-letter form. -/
theorem c10_witness :
    "C" ∈ profileCat (parseProfile "c programming") Cat.programming_languages ∧
    "C" = "C" := by
  have hmem : "C" ∈ profileCat (parseProfile "c programming")
      Cat.programming_languages := by decide
  exact ⟨hmem, (c10_r_never_reported "c programming").2 Cat.programming_languages
    "C" hmem (by decide)⟩

set_option maxHeartbeats 4000000 in
/-- C7: a resume whose experience section holds exactly the block
Senior Engineer / Tech Corp / Jan 2020 - Dec 2021 yields exactly one
experience entry with type full-time, 24 months (month granularity,
inclusive of both endpoint months), start 2020-01 and end 2021-12. -/
theorem c7_experience_scenario :
    (parseProfile "Experience\nSenior Engineer\nTech Corp\nJan 2020 - Dec 2021").experience =
      [{ role := "Senior Engineer", company := "Tech Corp", duration_months := 24,
         type := "full-time", responsibilities := [], start_date := "2020-01",
         end_date := "2021-12" }] := by
  have h : (parseProfile "Experience\nSenior Engineer\nTech Corp\nJan 2020 - Dec 2021").experience =
      extract_experience_details
        (pyStrip "Experience\nSenior Engineer\nTech Corp\nJan 2020 - Dec 2021") := by
    simp only [parseProfile, assembleProfile]
  rw [h]
  decide

/-- C4: in every returned profile, experience_months_total equals the sum of
duration_months over the returned experience entries (hence it is 0 when the
experience list is empty, the sum over no entries); the total is never
recomputed from whole-document scanning — the document-wide months scan of
the source is discarded by parse. -/
theorem c4_months_total (text : String) :
    (parseProfile text).experience_months_total =
      ((parseProfile text).experience.map (fun e => e.duration_months)).sum := by
  have h1 : (parseProfile text).experience = extract_experience_details (pyStrip text) := by
    simp only [parseProfile, assembleProfile]
  have h2 : (parseProfile text).experience_months_total =
      (if extract_experience_details (pyStrip text) ≠ [] then
        ((extract_experience_details (pyStrip text)).map (fun e => e.duration_months)).sum
      else 0) := by
    simp only [parseProfile, assembleProfile]
  rw [h1, h2]
  by_cases h : extract_experience_details (pyStrip text) = []
  · simp [h]
  · simp [h]

/-- C5: the completeness score is the two-decimal rounding of the four
equally weighted clamped components of the spec formula (skills count over
10, education presence, months over 120, projects over 5, soft skills
excluded from the count), and therefore always lies in the unit interval. -/
theorem c5_score_formula_and_bounds (sk : Skills5) (education : List EduEntry)
    (months projects : Nat) :
    calculate_completeness_score sk education months projects =
      round2 (1 / 4 * min (((sk.technical_skills.length +
          sk.programming_languages.length + sk.frameworks_libraries.length +
          sk.tools_platforms.length + sk.databases.length : Nat) : ℚ) / 10) 1 +
        1 / 4 * (if education = [] then 0 else 1) +
        1 / 4 * min ((months : ℚ) / 120) 1 +
        1 / 4 * min ((projects : ℚ) / 5) 1) ∧
    0 ≤ calculate_completeness_score sk education months projects ∧
    calculate_completeness_score sk education months projects ≤ 1 := by
  have hedu : (if education.length > 0 then (1 : ℚ) else 0) =
      (if education = [] then 0 else 1) := by
    cases education <;> simp
  have heq : calculate_completeness_score sk education months projects =
      round2 (1 / 4 * min (((sk.technical_skills.length +
          sk.programming_languages.length + sk.frameworks_libraries.length +
          sk.tools_platforms.length + sk.databases.length : Nat) : ℚ) / 10) 1 +
        1 / 4 * (if education = [] then 0 else 1) +
        1 / 4 * min ((months : ℚ) / 120) 1 +
        1 / 4 * min ((projects : ℚ) / 5) 1) := by
    simp only [calculate_completeness_score]
    rw [hedu]
  refine ⟨heq, ?_⟩
  rw [heq]
  have b1 : 0 ≤ min (((sk.technical_skills.length +
      sk.programming_languages.length + sk.frameworks_libraries.length +
      sk.tools_platforms.length + sk.databases.length : Nat) : ℚ) / 10) 1 ∧
      min (((sk.technical_skills.length +
      sk.programming_languages.length + sk.frameworks_libraries.length +
      sk.tools_platforms.length + sk.databases.length : Nat) : ℚ) / 10) 1 ≤ 1 :=
    ⟨le_min (by positivity) (by norm_num), min_le_right _ _⟩
  have b2 : 0 ≤ (if education = [] then (0 : ℚ) else 1) ∧
      (if education = [] then (0 : ℚ) else 1) ≤ 1 := by
    split <;> norm_num
  have b3 : 0 ≤ min ((months : ℚ) / 120) 1 ∧ min ((months : ℚ) / 120) 1 ≤ 1 :=
    ⟨le_min (by positivity) (by norm_num), min_le_right _ _⟩
  have b4 : 0 ≤ min ((projects : ℚ) / 5) 1 ∧ min ((projects : ℚ) / 5) 1 ≤ 1 :=
    ⟨le_min (by positivity) (by norm_num), min_le_right _ _⟩
  exact round2_bounds _ (by linarith [b1.1, b2.1, b3.1, b4.1])
    (by linarith [b1.2, b2.2, b3.2, b4.2])

/-- C1: for every text-extraction outcome, the record emitted by main has
exactly the twelve fixed keys in schema order, and on any failure propagated
to main (extraction failure, or the empty-text exception parse raises) the
emitted record is the all-empty/zero default response; main never re-raises. -/
theorem c1_fixed_schema (textResult : Except Unit String) :
    ((mainEmit textResult).map Prod.fst = fixedKeys) ∧
    (∀ e : Unit, parseOutcome textResult = .error e →
      mainEmit textResult = defaultResponse) := by
  constructor
  · cases h : parseOutcome textResult with
    | ok p =>
      simp only [mainEmit, h, emitRecord, encodeProfile, fixedKeys, List.map]
    | error e =>
      simp only [mainEmit, h, emitRecord, defaultResponse, fixedKeys, List.map]
  · intro e he
    simp only [mainEmit, he, emitRecord]

/-- Witness for c1_fixed_schema: extraction succeeding with the empty string
makes parse raise, and main emits the default response. -/
theorem c1_witness :
    parseOutcome (.ok "") = .error () ∧ mainEmit (.ok "") = defaultResponse := by
  have h : parseOutcome (.ok "") = .error () := by rfl
  exact ⟨h, (c1_fixed_schema (.ok "")).2 () h⟩

/-- The education result used to exhibit the missing extractor isolation. -/
def c3Education : List EduEntry :=
  [{ degree := "Bachelor of Technology", field := "physics",
     institution := "ABC Institute", start_year := "2018", end_year := "2022",
     cgpa := "" }]

/-- C3 counterexample: with the skills extractor raising and the education
extractor succeeding with one entry, parse propagates the exception (it has
no per-extractor handling), main emits the all-default record, and the
education entry the sibling extractor produced is absent from the output —
refuting per-field degradation. -/
theorem c3_counterexample :
    parseSeq "x" (.error ()) (.ok c3Education) (.ok 0) (.ok []) (.ok 0)
        (.ok []) (.ok none) (.ok []) = .error () ∧
    emitRecord (parseSeq "x" (.error ()) (.ok c3Education) (.ok 0) (.ok [])
        (.ok 0) (.ok []) (.ok none) (.ok [])) = defaultResponse ∧
    ("education", JVal.jedus c3Education) ∉ defaultResponse := by
  refine ⟨rfl, rfl, by decide⟩

/-- C3 amended: parse calls the extractors in sequence with no per-extractor
exception handling, so a failure in any one extractor aborts the whole parse
and main degrades every field at once to the default record — sibling fields
are not populated. -/
theorem c3_amended (text : String)
    (skillsR : Except Unit (Skills5 × List String))
    (educationR : Except Unit (List EduEntry))
    (experienceMonthsR : Except Unit Nat)
    (experienceR : Except Unit (List ExperienceEntry))
    (projectsCountR : Except Unit Nat)
    (projectsR : Except Unit (List ProjectEntry))
    (cgpaR : Except Unit (Option ℚ))
    (certificationsR : Except Unit (List String))
    (h : skillsR = .error () ∨ educationR = .error () ∨
      experienceMonthsR = .error () ∨ experienceR = .error () ∨
      projectsCountR = .error () ∨ projectsR = .error () ∨
      cgpaR = .error () ∨ certificationsR = .error ()) :
    emitRecord (parseSeq text skillsR educationR experienceMonthsR experienceR
      projectsCountR projectsR cgpaR certificationsR) = defaultResponse := by
  cases skillsR <;> cases educationR <;> cases experienceMonthsR <;>
    cases experienceR <;> cases projectsCountR <;> cases projectsR <;>
    cases cgpaR <;> cases certificationsR <;>
    first
      | rfl
      | simp_all

/-- Witness for c3_amended: the certifications extractor failing alone is
enough to empty every field of the emitted record. -/
theorem c3_witness :
    emitRecord (parseSeq "x" (.ok ({}, [])) (.ok c3Education) (.ok 0) (.ok [])
      (.ok 0) (.ok []) (.ok none) (.error ())) = defaultResponse :=
  c3_amended "x" (.ok ({}, [])) (.ok c3Education) (.ok 0) (.ok []) (.ok 0)
    (.ok []) (.ok none) (.error ())
    (Or.inr (Or.inr (Or.inr (Or.inr (Or.inr (Or.inr (Or.inr rfl)))))))

/-- setLast does not change the (degree, field) projection when the update
preserves those two fields. -/
theorem setLast_map_degree_field (l : List EduEntry) (g : EduEntry → EduEntry)
    (h : ∀ e, (g e).degree = e.degree ∧ (g e).field = e.field) :
    (setLast l g).map (fun e => (e.degree, e.field)) =
      l.map (fun e => (e.degree, e.field)) := by
  unfold setLast
  cases hl : l.getLast? with
  | none => rfl
  | some e =>
    have hne : l ≠ [] := by
      intro h0
      subst h0
      simp at hl
    conv_rhs => rw [← List.dropLast_append_getLast hne]
    have he : l.getLast hne = e := by
      have h2 := List.getLast?_eq_getLast l hne
      rw [hl] at h2
      exact (Option.some.injEq _ _ ▸ h2).symm
    simp [he, (h e).1, (h e).2]

set_option maxHeartbeats 2000000 in
/-- C9 counterexample: on a resume whose education section repeats the same
degree line, the extractor returns the same (degree, institution) pair twice
— no deduplication by that pair happens. -/
theorem c9_counterexample :
    extract_education "education\nb.tech in physics\nb.tech in physics" =
      [{ degree := "Bachelor of Technology", field := "physics", institution := "",
         start_year := "", end_year := "", cgpa := "" },
       { degree := "Bachelor of Technology", field := "physics", institution := "",
         start_year := "", end_year := "", cgpa := "" }] ∧
    ¬ ((extract_education "education\nb.tech in physics\nb.tech in physics").map
        (fun e => (e.degree, e.institution))).Nodup := by
  constructor
  · decide
  · decide

/-- The institution stage does not change any (degree, field). -/
theorem eduApplyInst_proj (il : List String) (l : List EduEntry) :
    (eduApplyInst il l).map (fun e => (e.degree, e.field)) =
      l.map (fun e => (e.degree, e.field)) := by
  unfold eduApplyInst
  split
  · rfl
  · split
    · split
      · exact setLast_map_degree_field _ _ (fun e => ⟨rfl, rfl⟩)
      · rfl
    · rfl

/-- The fallback-institution stage does not change any (degree, field). -/
theorem eduApplyFallback_proj (orig : String) (l : List EduEntry) :
    (eduApplyFallback orig l).map (fun e => (e.degree, e.field)) =
      l.map (fun e => (e.degree, e.field)) := by
  unfold eduApplyFallback
  split
  · split
    · split
      · exact setLast_map_degree_field _ _ (fun e => ⟨rfl, rfl⟩)
      · rfl
    · rfl
  · rfl

/-- The year stage does not change any (degree, field). -/
theorem eduApplyYears_proj (eduText : String) (l : List EduEntry) :
    (eduApplyYears eduText l).map (fun e => (e.degree, e.field)) =
      l.map (fun e => (e.degree, e.field)) := by
  simp only [eduApplyYears]
  split
  · exact setLast_map_degree_field _ _ (fun e => ⟨rfl, rfl⟩)
  · split
    · exact setLast_map_degree_field _ _ (fun e => ⟨rfl, rfl⟩)
    · rfl

/-- The CGPA stage does not change any (degree, field). -/
theorem eduApplyCgpa_proj (eduText : String) (l : List EduEntry) :
    (eduApplyCgpa eduText l).map (fun e => (e.degree, e.field)) =
      l.map (fun e => (e.degree, e.field)) := by
  unfold eduApplyCgpa
  split
  · split
    · exact setLast_map_degree_field _ _ (fun e => ⟨rfl, rfl⟩)
    · rfl
  · rfl

/-- C9 amended: the education extractor emits exactly one entry per
degree-pattern match, in match order, with no deduplication of any kind: the
(degree, field) projection of the output is exactly the list of normalized
degree matches, so repeated matches repeat the same (degree, institution)
pair in the output. -/
theorem c9_amended (text : String) :
    (extract_education text).map (fun e => (e.degree, e.field)) =
      (findDegrees (eduPair text).1.toList).map
        (fun d => (normDegree d.1, cleanField d.2)) := by
  simp only [extract_education]
  rw [eduApplyCgpa_proj, eduApplyYears_proj, eduApplyFallback_proj,
    eduApplyInst_proj, List.map_map]
  rfl

/-- findSome? returning a value means some list element produced one. -/
theorem findSome?_isSome_mem {α β : Type} (l : List α) (f : α → Option β)
    (h : (l.findSome? f).isSome = true) : ∃ x ∈ l, (f x).isSome = true := by
  induction l with
  | nil => simp [List.findSome?] at h
  | cons a as ih =>
    cases hf : f a with
    | some b => exact ⟨a, by simp, by simp [hf]⟩
    | none =>
      rw [List.findSome?_cons, hf] at h
      obtain ⟨x, hx, hfx⟩ := ih h
      exact ⟨x, by simp [hx], hfx⟩

/-- A foldl over an option-valued best-match accumulator yields G whenever
the result holds a value, provided every step either keeps the accumulator
or establishes G. -/
theorem foldl_some_prop {α : Type} (G : Prop)
    (f : Option String × Nat → α → Option String × Nat) :
    ∀ (l : List α) (acc : Option String × Nat),
      (∀ acc2 x, x ∈ l → ((f acc2 x).1.isSome = true) →
        acc2.1.isSome = true ∨ G) →
      (acc.1.isSome = true → G) → ((l.foldl f acc).1.isSome = true) → G
  | [], _, _, hacc, h => hacc h
  | a :: as, acc, hf, hacc, h => by
    rw [List.foldl_cons] at h
    exact foldl_some_prop G f as (f acc a)
      (fun acc2 x hx h2 => hf acc2 x (List.mem_cons_of_mem a hx) h2)
      (fun hs => (hf acc a (List.mem_cons_self a as) hs).elim hacc id) h

/-- The inner keyword fold of bestKeywordMatch sets the accumulator only on
a contained keyword. -/
theorem bestKeywordMatch_inner (lineLower : String) (hl : String → Bool)
    (name : String) (G : Prop) (kws : List String) (acc : Option String × Nat)
    (hkws : ∀ kw ∈ kws, containsSub kw lineLower = true → G)
    (h : ((kws.foldl (fun (acc2 : Option String × Nat) kw =>
        if containsSub kw lineLower && hl kw && decide (acc2.2 < kw.length) then
          (some name, kw.length) else acc2) acc).1.isSome = true)) :
    acc.1.isSome = true ∨ G := by
  refine foldl_some_prop (acc.1.isSome = true ∨ G) _ kws acc ?_ Or.inl h
  intro acc2 kw hkw h2
  split at h2
  · rename_i hcond
    rw [Bool.and_eq_true, Bool.and_eq_true] at hcond
    exact Or.inr (Or.inr (hkws kw hkw hcond.1.1))
  · exact Or.inl h2

/-- bestKeywordMatch answers only lines containing a table keyword. -/
theorem bestKeywordMatch_keyword (line : String)
    (h : (ScriptsSeg.bestKeywordMatch line).isSome = true) :
    ∃ p ∈ ScriptsSeg.SECTION_KEYWORDS, ∃ kw ∈ p.2,
      containsSub kw (pyStrip (lowerStr line)) = true := by
  simp only [ScriptsSeg.bestKeywordMatch] at h
  refine foldl_some_prop _ _ ScriptsSeg.SECTION_KEYWORDS
    ((none : Option String), 0) ?_ (by simp) h
  intro acc p hp h2
  exact bestKeywordMatch_inner _ _ _ _ p.2 acc
    (fun kw hkw hc => ⟨p, hp, kw, hkw, hc⟩) h2

/-- headerKeywordMatch answers only lines containing a table keyword. -/
theorem headerKeywordMatch_keyword (hl : String)
    (h : (ScriptsSeg.headerKeywordMatch hl).isSome = true) :
    ∃ p ∈ ScriptsSeg.SECTION_KEYWORDS, ∃ kw ∈ p.2, containsSub kw hl = true := by
  unfold ScriptsSeg.headerKeywordMatch at h
  obtain ⟨p, hp, hsome⟩ := findSome?_isSome_mem _ _ h
  by_cases hc : (p.2.any (fun kw => containsSub kw hl)) = true
  · rw [List.any_eq_true] at hc
    obtain ⟨kw, hkw, hck⟩ := hc
    exact ⟨p, hp, kw, hkw, hck⟩
  · rw [if_neg (by simpa using hc)] at hsome
    simp at hsome

set_option maxHeartbeats 1000000 in
/-- C8 counterexample: the line Hobbies: passes every structural filter of
the claim (short, few words, no internal sentence split) and ends with a
colon, and in the scripts run below it also directly follows a separator
line, yet neither segmenter treats it as a heading: the main variant's
detector returns none, the scripts variant's keyword matcher returns none,
and the scripts segmentation keeps everything in the default header section
— both implementations also require a keyword of the fixed table. -/
theorem c8_counterexample :
    ("Hobbies:".length < 100 ∧ (wsSplit "Hobbies:").length ≤ 8 ∧
      containsSub "." "Hobbies:" = false ∧
      endsL ":".toList "Hobbies:".toList = true) ∧
    detect_section_key "Hobbies:" = none ∧
    ScriptsSeg.bestKeywordMatch "Hobbies:" = none ∧
    ScriptsSeg.segment_by_layout_and_rules "intro\n=====\nHobbies:\nchess" =
      [("header", "intro\n=====\nHobbies:\nchess")] := by
  exact ⟨by decide, by decide, by decide, by decide⟩

/-- C8 amended: a candidate heading always requires a keyword of the fixed
table — the colon and separator rules are not sufficient on their own: the
main segmenter accepts a line (under its length, word-count and sentence
filters) only when its normalized form equals or is prefixed by a table
keyword, and the scripts segmenter's flexible rule and separator rule accept
a line only when it contains a table keyword. -/
theorem c8_amended (line : String) :
    ((detect_section_key line).isSome = true →
      ∃ p ∈ section_keywords, ∃ kw ∈ p.2,
        (headingNorm line = kw ∨ pyStartsWith (headingNorm line) kw = true)) ∧
    ((ScriptsSeg.headerKeywordMatch line).isSome = true →
      ∃ p ∈ ScriptsSeg.SECTION_KEYWORDS, ∃ kw ∈ p.2,
        containsSub kw line = true) ∧
    ((ScriptsSeg.bestKeywordMatch line).isSome = true →
      ∃ p ∈ ScriptsSeg.SECTION_KEYWORDS, ∃ kw ∈ p.2,
        containsSub kw (pyStrip (lowerStr line)) = true) := by
  refine ⟨?_, headerKeywordMatch_keyword line, bestKeywordMatch_keyword line⟩
  intro h
  simp only [detect_section_key] at h
  split at h
  · simp at h
  · split at h
    · simp at h
    · split at h
      · simp at h
      · split at h
        · simp at h
        · split at h
          · simp at h
          · obtain ⟨p, hp, hsome⟩ := findSome?_isSome_mem _ _ h
            by_cases hc : (p.2.any (fun kw =>
                decide (headingNorm line = kw) || pyStartsWith (headingNorm line) kw)) = true
            · rw [List.any_eq_true] at hc
              obtain ⟨kw, hkw, hck⟩ := hc
              rw [Bool.or_eq_true] at hck
              rcases hck with hck | hck
              · exact ⟨p, hp, kw, hkw, Or.inl (of_decide_eq_true hck)⟩
              · exact ⟨p, hp, kw, hkw, Or.inr hck⟩
            · rw [if_neg (by simpa using hc)] at hsome
              simp at hsome

/-- Witness for c8_amended: the line skills is detected as a heading, and
the theorem yields the keyword backing it. -/
theorem c8_witness :
    (detect_section_key "skills").isSome = true ∧
    (∃ p ∈ section_keywords, ∃ kw ∈ p.2,
      (headingNorm "skills" = kw ∨ pyStartsWith (headingNorm "skills") kw = true)) := by
  have h : (detect_section_key "skills").isSome = true := by decide
  exact ⟨h, (c8_amended "skills").1 h⟩

/-- Membership after addSet: the element was already there or is the added
string. -/
theorem Skills5.mem_addSet (sd : Skills5) (c c' : Cat) (s x : String)
    (h : x ∈ (sd.addSet c s).get c') : x ∈ sd.get c' ∨ x = s := by
  unfold Skills5.addSet at h
  split at h
  · exact Or.inl h
  · unfold Skills5.add at h
    cases c <;> cases c' <;> simp [Skills5.get] at h ⊢ <;> tauto

/-- Membership after a fold of addSet calls: the element was in the initial
value or is the display of one of the folded items. -/
theorem mem_foldl_addSet {α : Type} (g : α → Cat) (d : α → String) (l : List α)
    (init : Skills5) (c : Cat) (x : String)
    (h : x ∈ (l.foldl (fun a k => a.addSet (g k) (d k)) init).get c) :
    x ∈ init.get c ∨ ∃ k ∈ l, x = d k := by
  induction l generalizing init with
  | nil => exact Or.inl h
  | cons a as ih =>
    rw [List.foldl_cons] at h
    rcases ih _ h with h1 | ⟨k, hk, he⟩
    · rcases Skills5.mem_addSet _ _ _ _ _ h1 with h2 | h2
      · exact Or.inl h2
      · exact Or.inr ⟨a, by simp, h2⟩
    · exact Or.inr ⟨k, by simp [hk], he⟩

set_option maxHeartbeats 4000000 in
/-- C2 counterexample: the input freertos yields the technical skill RTOS,
but RTOS has no word-bounded case-insensitive occurrence in the input (its
letters occur only inside the word freertos) — the reported skill string is
not verbatim-findable in the source text. -/
theorem c2_counterexample :
    (parseProfile "freertos").technical_skills = ["RTOS"] ∧
    wbSearchCI "RTOS" "freertos" = false ∧
    laSearchCI "RTOS" "freertos" = false := by
  exact ⟨by decide, by decide, by decide⟩

/-- C2 amended: every skill the harvester reports is the display form of a
fixed-vocabulary key (dictionary entry or technical concept) whose KEY has a
boundary-checked case-insensitive occurrence in the combined text, or an
output of one of the fixed explicit embedded-systems rules whose trigger
phrase occurs in the text: the reported string itself (a canonical display
or rule output such as RTOS for the trigger freertos) need not occur
verbatim in the source. -/
theorem c2_amended (texts : List String) (c : Cat) (s : String)
    (h : s ∈ (harvest_skills_from_texts texts).get c) :
    (∃ k, (k ∈ allKnownSkills ∨ k ∈ TECHNICAL_CONCEPTS) ∧
      laSearchCI k (harvestCombined texts) = true ∧
      s = format_skill_display k) ∨
    s ∈ explicitTechAdds (harvestCombined texts) ∨
    (s = "Shell" ∧
      wbPhraseSearchCI "shell scripting" (harvestCombined texts) = true) := by
  have chain : s ∈ ((explicitTechAdds (harvestCombined texts)).foldl
      (fun a s2 => a.addSet .technical_skills s2)
      ((TECHNICAL_CONCEPTS.filter
          (fun c2 => laSearchCI c2 (harvestCombined texts))).foldl
        (fun a c2 => a.addSet Cat.technical_skills (format_skill_display c2))
        ((allKnownSkills.filter
            (fun k => laSearchCI k (harvestCombined texts))).foldl
          (fun a k => a.addSet (categorize_skill k) (format_skill_display k))
          ({} : Skills5)))).get c →
      ((∃ k, (k ∈ allKnownSkills ∨ k ∈ TECHNICAL_CONCEPTS) ∧
        laSearchCI k (harvestCombined texts) = true ∧
        s = format_skill_display k) ∨
      s ∈ explicitTechAdds (harvestCombined texts) ∨
      (s = "Shell" ∧
        wbPhraseSearchCI "shell scripting" (harvestCombined texts) = true)) := by
    intro h2
    rcases mem_foldl_addSet (fun _ => Cat.technical_skills) (fun s2 => s2) _ _ _ _ h2
      with h3 | ⟨k, hk, he⟩
    · rcases mem_foldl_addSet (fun _ => Cat.technical_skills) format_skill_display
          _ _ _ _ h3 with h4 | ⟨k, hk, he⟩
      · rcases mem_foldl_addSet categorize_skill format_skill_display
            _ _ _ _ h4 with h5 | ⟨k, hk, he⟩
        · cases c <;> simp [Skills5.get] at h5
        · obtain ⟨hk1, hk2⟩ := List.mem_filter.mp hk
          exact Or.inl ⟨k, Or.inl hk1, hk2, he⟩
      · obtain ⟨hk1, hk2⟩ := List.mem_filter.mp hk
        exact Or.inl ⟨k, Or.inr hk1, hk2, he⟩
    · subst he
      exact Or.inr (Or.inl hk)
  simp only [harvest_skills_from_texts] at h
  split at h
  · cases c <;> simp [Skills5.get] at h
  · split at h
    · rename_i hshell
      rcases Skills5.mem_addSet _ _ _ _ _ h with h6 | h6
      · exact chain h6
      · exact Or.inr (Or.inr ⟨h6, hshell⟩)
    · exact chain h

set_option maxHeartbeats 2000000 in
/-- Witness for c2_amended: RTOS is harvested from the text freertos, and
the theorem traces it to a vocabulary key or explicit rule matching the
combined text. -/
theorem c2_witness :
    "RTOS" ∈ (harvest_skills_from_texts ["freertos"]).get Cat.technical_skills ∧
    ((∃ k, (k ∈ allKnownSkills ∨ k ∈ TECHNICAL_CONCEPTS) ∧
      laSearchCI k (harvestCombined ["freertos"]) = true ∧
      "RTOS" = format_skill_display k) ∨
    "RTOS" ∈ explicitTechAdds (harvestCombined ["freertos"]) ∨
    ("RTOS" = "Shell" ∧
      wbPhraseSearchCI "shell scripting" (harvestCombined ["freertos"]) = true)) := by
  have h : "RTOS" ∈ (harvest_skills_from_texts ["freertos"]).get
      Cat.technical_skills := by decide
  exact ⟨h, c2_amended ["freertos"] Cat.technical_skills "RTOS" h⟩

/-! Character-level case facts used for the cross-category uniqueness
analysis: Lean's Char.toLower and Char.toUpper act on the basic latin
letters only, exactly like Python str.lower and str.upper on the ASCII
strings of this parser. -/

/-- toNat of Char.ofNat for code points below the surrogate range. -/
theorem char_toNat_ofNat {n : Nat} (h : n < 55296) : (Char.ofNat n).toNat = n := by
  have hv : n.isValidChar := Or.inl h
  unfold Char.ofNat
  rw [dif_pos hv]
  unfold Char.ofNatAux Char.toNat
  simp [UInt32.toNat]

/-- isUpper in terms of the code point. -/
theorem char_isUpper_iff (c : Char) : c.isUpper = true ↔ 65 ≤ c.toNat ∧ c.toNat ≤ 90 := by
  unfold Char.isUpper Char.toNat
  rw [Bool.and_eq_true, decide_eq_true_iff, decide_eq_true_iff]
  rw [ge_iff_le, UInt32.le_def, UInt32.le_def, BitVec.le_def, BitVec.le_def]
  exact Iff.rfl

/-- isLower in terms of the code point. -/
theorem char_isLower_iff (c : Char) : c.isLower = true ↔ 97 ≤ c.toNat ∧ c.toNat ≤ 122 := by
  unfold Char.isLower Char.toNat
  rw [Bool.and_eq_true, decide_eq_true_iff, decide_eq_true_iff]
  rw [ge_iff_le, UInt32.le_def, UInt32.le_def, BitVec.le_def, BitVec.le_def]
  exact Iff.rfl

/-- Lowercasing after uppercasing is plain lowercasing. -/
theorem char_toLower_toUpper (c : Char) : c.toUpper.toLower = c.toLower := by
  unfold Char.toUpper Char.toLower
  by_cases h1 : 97 ≤ c.toNat ∧ c.toNat ≤ 122
  · rw [if_pos h1]
    have ht : (Char.ofNat (c.toNat - 32)).toNat = c.toNat - 32 :=
      char_toNat_ofNat (by omega)
    rw [if_pos (by omega : 65 ≤ (Char.ofNat (c.toNat - 32)).toNat ∧
        (Char.ofNat (c.toNat - 32)).toNat ≤ 90)]
    rw [if_neg (by omega : ¬(65 ≤ c.toNat ∧ c.toNat ≤ 90))]
    rw [ht]
    have h2 : c.toNat - 32 + 32 = c.toNat := by omega
    rw [h2, Char.ofNat_toNat]
  · rw [if_neg h1]

/-- Lowercasing is idempotent. -/
theorem char_toLower_toLower (c : Char) : c.toLower.toLower = c.toLower := by
  unfold Char.toLower
  by_cases h1 : 65 ≤ c.toNat ∧ c.toNat ≤ 90
  · rw [if_pos h1]
    have ht : (Char.ofNat (c.toNat + 32)).toNat = c.toNat + 32 :=
      char_toNat_ofNat (by omega)
    rw [if_neg (by omega : ¬(65 ≤ (Char.ofNat (c.toNat + 32)).toNat ∧
        (Char.ofNat (c.toNat + 32)).toNat ≤ 90))]
  · rw [if_neg h1, if_neg h1]

/-- Uppercasing after lowercasing is plain uppercasing. -/
theorem char_toUpper_toLower (c : Char) : c.toLower.toUpper = c.toUpper := by
  unfold Char.toUpper Char.toLower
  by_cases h1 : 65 ≤ c.toNat ∧ c.toNat ≤ 90
  · rw [if_pos h1]
    have ht : (Char.ofNat (c.toNat + 32)).toNat = c.toNat + 32 :=
      char_toNat_ofNat (by omega)
    rw [if_pos (by omega : 97 ≤ (Char.ofNat (c.toNat + 32)).toNat ∧
        (Char.ofNat (c.toNat + 32)).toNat ≤ 122)]
    rw [if_neg (by omega : ¬(97 ≤ c.toNat ∧ c.toNat ≤ 122))]
    rw [ht]
    have h2 : c.toNat + 32 - 32 = c.toNat := by omega
    rw [h2, Char.ofNat_toNat]
  · rw [if_neg h1]

/-- Lowercasing keeps the letter property. -/
theorem char_isAlpha_toLower (c : Char) : c.toLower.isAlpha = c.isAlpha := by
  unfold Char.isAlpha
  by_cases hu : c.isUpper = true
  · obtain ⟨h1, h2⟩ := (char_isUpper_iff c).mp hu
    have ht : c.toLower.toNat = c.toNat + 32 := by
      unfold Char.toLower
      rw [if_pos ⟨h1, h2⟩]
      exact char_toNat_ofNat (by omega)
    have hl : c.toLower.isLower = true := (char_isLower_iff _).mpr (by omega)
    have hcl : c.isLower = false := by
      rw [Bool.eq_false_iff]
      intro hx
      have := (char_isLower_iff c).mp hx
      omega
    rw [hu, hl]
    simp
  · have hce : c.toLower = c := by
      unfold Char.toLower
      rw [if_neg]
      intro hx
      exact hu ((char_isUpper_iff c).mpr hx)
    rw [hce]

/-- Lowercasing keeps the whitespace class of the parser. -/
theorem char_isPyWS_toLower (c : Char) : isPyWS c.toLower = isPyWS c := by
  by_cases hu : c.isUpper = true
  · obtain ⟨h1, h2⟩ := (char_isUpper_iff c).mp hu
    have ht : c.toLower.toNat = c.toNat + 32 := by
      unfold Char.toLower
      rw [if_pos ⟨h1, h2⟩]
      exact char_toNat_ofNat (by omega)
    have hws : ∀ d : Char, isPyWS d = true → d.toNat ≤ 32 := by
      intro d hd
      unfold isPyWS at hd
      rcases (by simpa using hd :
          ((((d = ' ' ∨ d = '\t') ∨ d = '\n') ∨ d = '\x0d') ∨ d = '\x0b') ∨ d = '\x0c')
        with ((((h | h) | h) | h) | h) | h <;> subst h <;> decide
    have hcn : isPyWS c = false := by
      rw [Bool.eq_false_iff]
      intro hx
      have := hws c hx
      omega
    have hln : isPyWS c.toLower = false := by
      rw [Bool.eq_false_iff]
      intro hx
      have := hws c.toLower hx
      omega
    rw [hcn, hln]
  · have hce : c.toLower = c := by
      unfold Char.toLower
      rw [if_neg]
      intro hx
      exact hu ((char_isUpper_iff c).mpr hx)
    rw [hce]

/-- Lowercasing a string is idempotent. -/
theorem lowerStr_lowerStr (s : String) : lowerStr (lowerStr s) = lowerStr s := by
  unfold lowerStr
  show String.mk _ = String.mk _
  congr 1
  show List.map Char.toLower (List.map Char.toLower s.toList) =
    List.map Char.toLower s.toList
  rw [List.map_map]
  exact List.map_congr_left (fun c _ => char_toLower_toLower c)

/-- Lowercasing after uppercasing is plain lowercasing. -/
theorem lowerStr_upperStr (s : String) : lowerStr (upperStr s) = lowerStr s := by
  unfold lowerStr upperStr
  show String.mk _ = String.mk _
  congr 1
  show List.map Char.toLower (List.map Char.toUpper s.toList) =
    List.map Char.toLower s.toList
  rw [List.map_map]
  exact List.map_congr_left (fun c _ => char_toLower_toUpper c)

/-- Title-casing never changes the lowercase image. -/
theorem titleAux_lower (b : Bool) (l : List Char) :
    (titleAux b l).map Char.toLower = l.map Char.toLower := by
  induction l generalizing b with
  | nil => rfl
  | cons c ts ih =>
    unfold titleAux
    simp only [List.map_cons, ih]
    by_cases ha : c.isAlpha = true
    · cases b <;>
        simp [ha, char_toLower_toLower, char_toLower_toUpper]
    · simp [ha]

/-- pyTitle never changes the lowercase image. -/
theorem lowerStr_pyTitle (s : String) : lowerStr (pyTitle s) = lowerStr s := by
  unfold lowerStr pyTitle
  simp [titleAux_lower]

/-- A matched literal prefix is the take of its length. -/
theorem startsL_take (p t : List Char) (h : startsL p t = true) : t.take p.length = p := by
  induction p generalizing t with
  | nil => rfl
  | cons a ps ih =>
    cases t with
    | nil => simp [startsL] at h
    | cons b ts =>
      unfold startsL at h
      rw [Bool.and_eq_true, decide_eq_true_iff] at h
      simp [h.1.symm, ih ts h.2]

/-- A matched literal suffix splits the list. -/
theorem endsL_decomp (suf l : List Char) (h : endsL suf l = true) :
    ∃ pre, l = pre ++ suf := by
  unfold endsL at h
  have h2 := startsL_take _ _ h
  refine ⟨(l.reverse.drop suf.length).reverse, ?_⟩
  have h3 : l.reverse = suf.reverse ++ l.reverse.drop suf.length := by
    conv_lhs => rw [← List.take_append_drop suf.reverse.length l.reverse]
    rw [List.length_reverse] at h2 ⊢
    rw [h2]
  have h4 := congrArg List.reverse h3
  simpa using h4

/-- Stripping commutes with lowercasing. -/
theorem lowerStr_pyStrip (s : String) : lowerStr (pyStrip s) = pyStrip (lowerStr s) := by
  unfold lowerStr pyStrip
  show String.mk _ = String.mk _
  congr 1
  show (((s.toList.dropWhile isPyWS).reverse.dropWhile isPyWS).reverse).map Char.toLower =
    ((((s.toList.map Char.toLower).dropWhile isPyWS).reverse.dropWhile isPyWS).reverse)
  have hcomp : (isPyWS ∘ Char.toLower) = isPyWS := by
    funext c
    exact char_isPyWS_toLower c
  rw [List.dropWhile_map, hcomp]
  rw [← List.map_reverse, List.dropWhile_map, hcomp, List.map_reverse]

/-- Lowercasing distributes over append. -/
theorem lowerStr_append (a b : String) : lowerStr (a ++ b) = lowerStr a ++ lowerStr b := by
  apply String.ext
  show List.map Char.toLower (a.data ++ b.data) =
    List.map Char.toLower a.data ++ List.map Char.toLower b.data
  rw [List.map_append]

/-- The step-4 casing normalization never changes the lowercase image. -/
theorem lowerStr_normStep4 (s : String) : lowerStr (normStep4 s) = lowerStr s := by
  unfold normStep4
  split
  · rename_i hcli
    rw [Bool.or_eq_true] at hcli
    have main : ∀ suf : List Char, suf.length = 4 →
        List.map Char.toLower suf = " cli".toList →
        endsL suf s.toList = true →
        lowerStr (String.mk (s.toList.take (s.toList.length - 4)) ++ " CLI") =
          lowerStr s := by
      intro suf hlen hmap hends
      obtain ⟨pre, hpre⟩ := endsL_decomp _ _ hends
      rw [lowerStr_append]
      apply String.ext
      show List.map Char.toLower (s.toList.take (s.toList.length - 4)) ++
          List.map Char.toLower " CLI".toList =
        List.map Char.toLower s.toList
      rw [hpre, List.length_append, hlen]
      have htake : (pre ++ suf).take (pre.length + 4 - 4) = pre := by
        have h4 : pre.length + 4 - 4 = pre.length := by omega
        rw [h4]
        simp
      rw [htake, List.map_append]
      congr 1
      rw [hmap]
      decide
    rcases hcli with hcli | hcli
    · exact main " CLI".toList (by decide) (by decide) hcli
    · exact main " Cli".toList (by decide) (by decide) hcli
  · split
    · exact lowerStr_upperStr s
    · exact lowerStr_pyTitle s

/-- Membership with category after add. -/
theorem Skills5.mem_add_cat (sd : Skills5) (c c' : Cat) (s x : String)
    (h : x ∈ (sd.add c s).get c') : x ∈ sd.get c' ∨ (x = s ∧ c' = c) := by
  unfold Skills5.add at h
  cases c <;> cases c' <;> simp [Skills5.get] at h ⊢ <;> tauto

/-- Membership with category after addSet. -/
theorem Skills5.mem_addSet_cat (sd : Skills5) (c c' : Cat) (s x : String)
    (h : x ∈ (sd.addSet c s).get c') : x ∈ sd.get c' ∨ (x = s ∧ c' = c) := by
  unfold Skills5.addSet at h
  split at h
  · exact Or.inl h
  · exact Skills5.mem_add_cat sd c c' s x h

/-- Fold-step membership principle for Skills5 folds. -/
theorem mem_foldl_preserve {α : Type} (f : Skills5 → α → Skills5)
    (P : String → Cat → Prop) :
    ∀ (l : List α),
      (∀ acc x, x ∈ l → ∀ c s, s ∈ (f acc x).get c → s ∈ acc.get c ∨ P s c) →
      ∀ (init : Skills5) (c : Cat) (s : String),
        s ∈ (l.foldl f init).get c → s ∈ init.get c ∨ P s c
  | [], _, _, _, _, h => Or.inl h
  | a :: as, hstep, init, c, s, h => by
    rw [List.foldl_cons] at h
    rcases mem_foldl_preserve f P as
      (fun acc x hx => hstep acc x (List.mem_cons_of_mem a hx))
      (f init a) c s h with h1 | h1
    · exact hstep init a (List.mem_cons_self a as) c s h1
    · exact Or.inr h1

/-- Fold-step membership principle for list accumulators. -/
theorem mem_foldl_of_step {α β : Type} [DecidableEq β] (g : List β → α → List β)
    (P : α → β → Prop)
    (hg : ∀ acc x t, t ∈ g acc x → t ∈ acc ∨ P x t) :
    ∀ (l : List α) (init : List β) (t : β), t ∈ l.foldl g init →
      t ∈ init ∨ ∃ x ∈ l, P x t
  | [], _, _, h => Or.inl h
  | a :: as, init, t, h => by
    rw [List.foldl_cons] at h
    rcases mem_foldl_of_step g P hg as (g init a) t h with h1 | ⟨x, hx, hp⟩
    · rcases hg init a t h1 with h2 | h2
      · exact Or.inl h2
      · exact Or.inr ⟨a, by simp, h2⟩
    · exact Or.inr ⟨x, by simp [hx], hp⟩

/-- Every tokenAdds pair is a dictionary display with its category or a
technical-concept display. -/
theorem mem_tokenAdds (rtl part item : String) (p : String × Cat)
    (h : p ∈ tokenAdds rtl part item) :
    (∃ k ∈ allKnownSkills, p = (format_skill_display k, categorize_skill k)) ∨
    (∃ k ∈ TECHNICAL_CONCEPTS, p = (format_skill_display k, Cat.technical_skills)) := by
  unfold tokenAdds at h
  split at h
  · simp at h
  · rename_i normalized heq
    dsimp only at h
    have hadds : ∀ q ∈ (allKnownSkills.filter
        (fun k => wbSearch k normalized && wbSearch k rtl)).map
        (fun k => (format_skill_display k, categorize_skill k)),
        (∃ k ∈ allKnownSkills, q = (format_skill_display k, categorize_skill k)) := by
      intro q hq
      rcases List.mem_map.mp hq with ⟨k, hk, rfl⟩
      exact ⟨k, (List.mem_filter.mp hk).1, rfl⟩
    by_cases hemp : (allKnownSkills.filter
        (fun k => wbSearch k normalized && wbSearch k rtl)).isEmpty = true
    · rw [if_pos hemp] at h
      by_cases hcon : (decide (normalized ∈ TECHNICAL_CONCEPTS) &&
          wbSearch normalized rtl) = true
      · rw [if_pos hcon] at h
        rw [Bool.and_eq_true, decide_eq_true_iff] at hcon
        rcases List.mem_append.mp h with h1 | h1
        · exact Or.inl (hadds p h1)
        · exact Or.inr ⟨normalized, hcon.1, by simpa using h1⟩
      · rw [if_neg hcon] at h
        exact Or.inl (hadds p h)
    · rw [if_neg hemp] at h
      exact Or.inl (hadds p h)

/-- The explicit additions range over seven fixed strings. -/
theorem mem_explicitTechAdds (comb s : String) (h : s ∈ explicitTechAdds comb) :
    s ∈ ["I2C", "RTOS", "Linux kernel", "Device drivers", "STM32",
         "Microcontrollers", "UART"] := by
  unfold explicitTechAdds at h
  simp only [List.mem_append] at h
  rcases h with ((((((h | h) | h) | h) | h) | h) | h) | h <;>
    (split at h <;> simp_all <;> try tauto)

/-- The lowercase images of the method-pattern alternatives. -/
def methodLowers : List String :=
  (method_patterns_alts.flatMap (fun l => l)).map lowerStr

/-- The raw (string, category) pairs the merged skills_data can contain
before key normalization: dictionary displays with their dictionary
category, concept displays, the explicit-rule strings, Shell, canonical
project-tool forms, and verbatim method captures (any casing of a pattern
alternative). -/
def rawReached (raw : String) (c : Cat) : Prop :=
  (∃ k ∈ allKnownSkills, raw = format_skill_display k ∧ c = categorize_skill k) ∨
  (∃ k ∈ TECHNICAL_CONCEPTS, raw = format_skill_display k ∧ c = Cat.technical_skills) ∨
  (raw ∈ ["I2C", "RTOS", "Linux kernel", "Device drivers", "STM32",
          "Microcontrollers", "UART"] ∧ c = Cat.technical_skills) ∨
  (raw = "Shell" ∧ c = Cat.tools_platforms) ∨
  (∃ tool ∈ projKnownTools,
    raw = alistGetD SKILL_CANONICAL (lowerStr tool) (pyTitle tool) ∧
    c = categorize_skill (lowerStr raw)) ∨
  (lowerStr raw ∈ methodLowers ∧ c = categorize_skill (lowerStr raw))

/-- The tokenAdds fold only adds reachable raw pairs. -/
theorem tokenFold_reached (rtl part item : String)
    (acc : Skills5) (c : Cat) (s : String)
    (h : s ∈ ((tokenAdds rtl part item).foldl
      (fun a p => a.addSet p.2 p.1) acc).get c) :
    s ∈ acc.get c ∨ rawReached s c := by
  refine mem_foldl_preserve _ (fun s2 c2 => rawReached s2 c2) _ ?_ acc c s h
  intro acc2 p hp c2 s2 h2
  rcases Skills5.mem_addSet_cat _ _ _ _ _ h2 with h3 | ⟨he, hc⟩
  · exact Or.inl h3
  · right
    rcases mem_tokenAdds rtl part item p hp with ⟨k, hk, hpe⟩ | ⟨k, hk, hpe⟩
    · subst hpe
      exact Or.inl ⟨k, hk, by simp [he, hc]⟩
    · subst hpe
      exact Or.inr (Or.inl ⟨k, hk, by simp [he, hc]⟩)

/-- The skills-section token loop only holds reachable raw pairs. -/
theorem skillsTokensFold_reached (rtl : String) (parts : List String)
    (c : Cat) (s : String)
    (h : s ∈ (skillsTokensFold rtl parts).get c) : rawReached s c := by
  unfold skillsTokensFold at h
  have hstep : ∀ (acc : Skills5) (part : String), part ∈ parts → ∀ (c2 : Cat) (s2 : String),
      s2 ∈ ((extract_skill_items_from_line part).foldl (fun acc2 item =>
        (tokenAdds rtl part item).foldl (fun a p => a.addSet p.2 p.1) acc2)
        acc).get c2 → s2 ∈ acc.get c2 ∨ rawReached s2 c2 := by
    intro acc part hpart c2 s2 h2
    have hstep2 : ∀ (acc2 : Skills5) (item : String),
        item ∈ extract_skill_items_from_line part → ∀ (c3 : Cat) (s3 : String),
        s3 ∈ ((tokenAdds rtl part item).foldl (fun a p => a.addSet p.2 p.1) acc2).get c3 →
        s3 ∈ acc2.get c3 ∨ rawReached s3 c3 := by
      intro acc2 item hitem c3 s3 h3
      exact tokenFold_reached rtl part item acc2 c3 s3 h3
    exact mem_foldl_preserve _ (fun s3 c3 => rawReached s3 c3) _ hstep2 acc c2 s2 h2
  rcases mem_foldl_preserve _ (fun s2 c2 => rawReached s2 c2) parts hstep _ c s h
    with h1 | h1
  · cases c <;> simp [Skills5.get] at h1
  · exact h1

/-- The fallback loop only adds reachable raw pairs. -/
theorem skillsFallbackFold_reached (tl : String) (init : Skills5)
    (c : Cat) (s : String)
    (h : s ∈ (skillsFallbackFold tl init).get c) :
    s ∈ init.get c ∨ rawReached s c := by
  unfold skillsFallbackFold at h
  have hstep : ∀ (acc : Skills5) (k : String),
      k ∈ allKnownSkills.filter (fun k => wbSearch k tl) → ∀ (c2 : Cat) (s2 : String),
      s2 ∈ (acc.addSet (categorize_skill k) (format_skill_display k)).get c2 →
      s2 ∈ acc.get c2 ∨ rawReached s2 c2 := by
    intro acc k hk c2 s2 h2
    rcases Skills5.mem_addSet_cat _ _ _ _ _ h2 with h3 | ⟨he, hc⟩
    · exact Or.inl h3
    · exact Or.inr (Or.inl ⟨k, (List.mem_filter.mp hk).1, by simp [he, hc]⟩)
  exact mem_foldl_preserve _ (fun s2 c2 => rawReached s2 c2) _ hstep init c s h

/-- Every extracted technical skill is a reachable raw pair. -/
theorem extract_skills_reached (text : String) (c : Cat) (s : String)
    (h : s ∈ (extract_skills text).1.get c) : rawReached s c := by
  have hget : ∀ sd : Skills5, (sortSkills sd).get c = sortByKey lowerStr (sd.get c) := by
    intro sd
    cases c <;> rfl
  simp only [extract_skills] at h
  rw [hget] at h
  have h2 := (sortByKey_mem lowerStr _ s).mp h
  split at h2
  · rcases skillsFallbackFold_reached _ _ c s h2 with h3 | h3
    · exact skillsTokensFold_reached _ _ c s h3
    · exact h3
  · exact skillsTokensFold_reached _ _ c s h2

/-- Every harvested skill is a reachable raw pair. -/
theorem harvest_reached (texts : List String) (c : Cat) (s : String)
    (h : s ∈ (harvest_skills_from_texts texts).get c) : rawReached s c := by
  simp only [harvest_skills_from_texts] at h
  split at h
  · cases c <;> simp [Skills5.get] at h
  · have hbase : ∀ (cb : Cat) (sb : String), sb ∈ ((allKnownSkills.filter
        (fun k => laSearchCI k (harvestCombined texts))).foldl
        (fun a k => a.addSet (categorize_skill k) (format_skill_display k))
        ({} : Skills5)).get cb → rawReached sb cb := by
      intro cb sb hb
      have hstep : ∀ (acc : Skills5) (k : String),
          k ∈ allKnownSkills.filter (fun k => laSearchCI k (harvestCombined texts)) →
          ∀ (c2 : Cat) (s2 : String),
          s2 ∈ (acc.addSet (categorize_skill k) (format_skill_display k)).get c2 →
          s2 ∈ acc.get c2 ∨ rawReached s2 c2 := by
        intro acc k hk c2 s2 h2
        rcases Skills5.mem_addSet_cat _ _ _ _ _ h2 with h3 | ⟨he, hc⟩
        · exact Or.inl h3
        · exact Or.inr (Or.inl ⟨k, (List.mem_filter.mp hk).1, by simp [he, hc]⟩)
      rcases mem_foldl_preserve _ (fun s2 c2 => rawReached s2 c2) _ hstep _ cb sb hb
        with h1 | h1
      · cases cb <;> simp [Skills5.get] at h1
      · exact h1
    have hconc : ∀ (cb : Cat) (sb : String), sb ∈ ((TECHNICAL_CONCEPTS.filter
        (fun c2 => laSearchCI c2 (harvestCombined texts))).foldl
        (fun a c2 => a.addSet Cat.technical_skills (format_skill_display c2))
        ((allKnownSkills.filter
          (fun k => laSearchCI k (harvestCombined texts))).foldl
          (fun a k => a.addSet (categorize_skill k) (format_skill_display k))
          ({} : Skills5))).get cb → rawReached sb cb := by
      intro cb sb hb
      have hstep : ∀ (acc : Skills5) (k : String),
          k ∈ TECHNICAL_CONCEPTS.filter (fun c2 => laSearchCI c2 (harvestCombined texts)) →
          ∀ (c2 : Cat) (s2 : String),
          s2 ∈ (acc.addSet Cat.technical_skills (format_skill_display k)).get c2 →
          s2 ∈ acc.get c2 ∨ rawReached s2 c2 := by
        intro acc k hk c2 s2 h2
        rcases Skills5.mem_addSet_cat _ _ _ _ _ h2 with h3 | ⟨he, hc⟩
        · exact Or.inl h3
        · exact Or.inr (Or.inr (Or.inl
            ⟨k, (List.mem_filter.mp hk).1, by simp [he, hc]⟩))
      rcases mem_foldl_preserve _ (fun s2 c2 => rawReached s2 c2) _ hstep _ cb sb hb
        with h1 | h1
      · exact hbase cb sb h1
      · exact h1
    have htech : ∀ (cb : Cat) (sb : String), sb ∈ ((explicitTechAdds
        (harvestCombined texts)).foldl
        (fun a s2 => a.addSet Cat.technical_skills s2)
        ((TECHNICAL_CONCEPTS.filter
          (fun c2 => laSearchCI c2 (harvestCombined texts))).foldl
          (fun a c2 => a.addSet Cat.technical_skills (format_skill_display c2))
          ((allKnownSkills.filter
            (fun k => laSearchCI k (harvestCombined texts))).foldl
            (fun a k => a.addSet (categorize_skill k) (format_skill_display k))
            ({} : Skills5)))).get cb → rawReached sb cb := by
      intro cb sb hb
      have hstep : ∀ (acc : Skills5) (x : String),
          x ∈ explicitTechAdds (harvestCombined texts) →
          ∀ (c2 : Cat) (s2 : String),
          s2 ∈ (acc.addSet Cat.technical_skills x).get c2 →
          s2 ∈ acc.get c2 ∨ rawReached s2 c2 := by
        intro acc x hx c2 s2 h2
        rcases Skills5.mem_addSet_cat _ _ _ _ _ h2 with h3 | ⟨he, hc⟩
        · exact Or.inl h3
        · right
          right
          right
          left
          subst he
          exact ⟨mem_explicitTechAdds _ _ hx, hc⟩
      rcases mem_foldl_preserve _ (fun s2 c2 => rawReached s2 c2) _ hstep _ cb sb hb
        with h1 | h1
      · exact hconc cb sb h1
      · exact h1
    split at h
    · rcases Skills5.mem_addSet_cat _ _ _ _ _ h with h1 | ⟨he, hc⟩
      · exact htech c s h1
      · exact Or.inr (Or.inr (Or.inr (Or.inl ⟨he, hc⟩)))
    · exact htech c s h

/-- A verbatim alternation match has the lowercase image of one
alternative. -/
theorem searchAltCI_lower (alts : List String) (l : List Char) (m : String)
    (h : searchAltCI alts l = some m) : ∃ a ∈ alts, lowerStr m = lowerStr a := by
  induction l with
  | nil => simp [searchAltCI] at h
  | cons c ts ih =>
    unfold searchAltCI at h
    split at h
    · rename_i a hfind
      injection h with hm
      subst hm
      have hmem := List.mem_of_find?_eq_some hfind
      have hpred := List.find?_some hfind
      refine ⟨a, hmem, ?_⟩
      have h2 := startsL_take _ _ hpred
      apply String.ext
      show List.map Char.toLower ((c :: ts).take a.length) = (lowerStr a).data
      rw [List.map_take]
      have hlen : (lowerStr a).toList.length = a.length := by
        show (a.data.map Char.toLower).length = a.data.length
        rw [List.length_map]
      rw [← hlen, h2]
      rfl
    · exact ih h

/-- Every project tool is a canonical dictionary form or a verbatim method
capture. -/
theorem mem_flushTools (d t : String) (h : t ∈ flushTools d) :
    (∃ tool ∈ projKnownTools,
      t = alistGetD SKILL_CANONICAL (lowerStr tool) (pyTitle tool)) ∨
    lowerStr t ∈ methodLowers := by
  simp only [flushTools] at h
  have hstep2 : ∀ (acc : List String) (alts : List String) (t2 : String),
      t2 ∈ (match searchAltCI alts d.toList with
            | some m => if m ∈ acc then acc else acc ++ [m]
            | none => acc) →
      t2 ∈ acc ∨ ∃ m, searchAltCI alts d.toList = some m ∧ t2 = m := by
    intro acc alts t2 h2
    split at h2
    · rename_i m hm
      split at h2
      · exact Or.inl h2
      · rcases List.mem_append.mp h2 with h3 | h3
        · exact Or.inl h3
        · exact Or.inr ⟨m, hm, by simpa using h3⟩
    · exact Or.inl h2
  rcases mem_foldl_of_step _
      (fun alts t2 => ∃ m, searchAltCI alts d.toList = some m ∧ t2 = m)
      (fun acc alts t2 h2 => hstep2 acc alts t2 h2) _ _ t h with h1 | ⟨alts, halts, m, hm, he⟩
  · -- t ∈ tools1
    have hstep1 : ∀ (acc : List String) (tool : String) (t2 : String),
        t2 ∈ (if wbSearch (lowerStr tool) (lowerStr d) then
              (if alistGetD SKILL_CANONICAL (lowerStr tool) (pyTitle tool) ∈ acc then acc
               else acc ++ [alistGetD SKILL_CANONICAL (lowerStr tool) (pyTitle tool)])
              else acc) →
        t2 ∈ acc ∨ t2 = alistGetD SKILL_CANONICAL (lowerStr tool) (pyTitle tool) := by
      intro acc tool t2 h2
      split at h2
      · split at h2
        · exact Or.inl h2
        · rcases List.mem_append.mp h2 with h3 | h3
          · exact Or.inl h3
          · exact Or.inr (by simpa using h3)
      · exact Or.inl h2
    rcases mem_foldl_of_step _
        (fun tool t2 => t2 = alistGetD SKILL_CANONICAL (lowerStr tool) (pyTitle tool))
        (fun acc tool t2 h2 => hstep1 acc tool t2 h2) _ _ t h1 with h4 | ⟨tool, htool, he⟩
    · simp at h4
    · exact Or.inl ⟨tool, htool, he⟩
  · subst he
    right
    obtain ⟨a, ha, he2⟩ := searchAltCI_lower alts d.toList t hm
    rw [he2]
    unfold methodLowers
    exact List.mem_map_of_mem lowerStr (List.mem_flatMap.mpr ⟨alts, halts, ha⟩)

/-- The shape of every tools_methods_used entry of a flushed project. -/
def toolOK (t : String) : Prop :=
  (∃ tool ∈ projKnownTools,
    t = alistGetD SKILL_CANONICAL (lowerStr tool) (pyTitle tool)) ∨
  lowerStr t ∈ methodLowers

/-- flushProject only appends entries whose tools have the tool shape. -/
theorem flushProject_toolOK (st : PState)
    (hst : ∀ p ∈ st.out, ∀ t ∈ p.tools_methods_used, toolOK t) :
    ∀ p ∈ (flushProject st).out, ∀ t ∈ p.tools_methods_used, toolOK t := by
  intro p hp t ht
  unfold flushProject at hp
  split at hp
  · exact hst p hp t ht
  · dsimp only at hp
    rcases List.mem_append.mp hp with h1 | h1
    · exact hst p h1 t ht
    · have hpe := (by simpa using h1 :
        p = { title := strTake st.title 100,
              description := strTake (pyStrip (joinSep "\n" st.desc)) 300,
              tools_methods_used := flushTools (pyStrip (joinSep "\n" st.desc)) })
      subst hpe
      exact mem_flushTools _ t ht

/-- The project-grouping loop preserves a property of the flushed
entries. -/
theorem foldl_out_preserve (f : PState → String → PState)
    (Q : ProjectEntry → Prop)
    (hf : ∀ st line, (∀ p ∈ st.out, Q p) → ∀ p ∈ (f st line).out, Q p) :
    ∀ (lines : List String) (st : PState), (∀ p ∈ st.out, Q p) →
      ∀ p ∈ (lines.foldl f st).out, Q p
  | [], _, hst, p, hp => hst p hp
  | a :: as, st, hst, p, hp => by
    rw [List.foldl_cons] at hp
    exact foldl_out_preserve f Q hf as (f st a) (hf st a hst) p hp

/-- Every tool of every extracted project has the tool shape. -/
theorem extract_projects_toolOK (text : String) :
    ∀ p ∈ extract_projects_details text, ∀ t ∈ p.tools_methods_used, toolOK t := by
  intro p hp t ht
  simp only [extract_projects_details] at hp
  split at hp
  · simp at hp
  · have hp2 := List.mem_of_mem_take hp
    have hstep : ∀ (st : PState) (line : String),
        (∀ p2 ∈ st.out, ∀ t2 ∈ p2.tools_methods_used, toolOK t2) →
        ∀ p2 ∈ ((fun (st : PState) line =>
          if detect_section_key line = some "projects" then st
          else
            let ll := lowerStr line
            let isB :=
              isBulletStart line || pyStartsWith ll "developed" || pyStartsWith ll "built" ||
              pyStartsWith ll "created" || pyStartsWith ll "implemented" ||
              pyStartsWith ll "integrated" || pyStartsWith ll "demonstrated" ||
              pyStartsWith ll "used" || pyStartsWith ll "leveraged" ||
              pyStartsWith ll "designed" || pyStartsWith ll "technologies:" ||
              pyStartsWith ll "tech stack:" ||
              (st.title ≠ "" && !hasProjDateToken line)
            if !isB && (hasProjDateToken line || st.title = "") then
              let st2 := if st.title ≠ "" then flushProject st else st
              { st2 with title := line }
            else
              let bulletText := pyStrip (stripBulletWS line)
              if bulletText ≠ "" then { st with desc := st.desc ++ [bulletText] }
              else st) st line).out, ∀ t2 ∈ p2.tools_methods_used, toolOK t2 := by
      intro st line hst p2 hp3
      dsimp only at hp3
      split at hp3
      · exact hst p2 hp3
      · split at hp3
        · have hout : ∀ q ∈ (if st.title ≠ "" then flushProject st else st).out,
              ∀ t2 ∈ q.tools_methods_used, toolOK t2 := by
            split
            · exact flushProject_toolOK st hst
            · exact hst
          exact hout p2 hp3
        · split at hp3
          · exact hst p2 hp3
          · exact hst p2 hp3
    have hfin := foldl_out_preserve _ _ hstep
      (((pySplitOn (joinSep "\n" (sectionsGet (get_sections text) "projects")) "\n").map
        pyStrip).filter (· ≠ ""))
      { title := "", desc := [], out := [] } (by simp)
    exact flushProject_toolOK _ (fun q hq => hfin q hq) p hp2 t ht

/-- Step 1 of post-processing only adds project tools at the category of
their lowercase form. -/
theorem promote_reached (sd : Skills5) (projects : List ProjectEntry)
    (hproj : ∀ p ∈ projects, ∀ t ∈ p.tools_methods_used, toolOK t)
    (c : Cat) (s : String) (h : s ∈ (promoteProjectTools sd projects).get c) :
    s ∈ sd.get c ∨ (toolOK s ∧ c = categorize_skill (lowerStr s)) := by
  unfold promoteProjectTools at h
  have hstep : ∀ (acc : Skills5) (p : ProjectEntry), p ∈ projects →
      ∀ (c2 : Cat) (s2 : String),
      s2 ∈ (p.tools_methods_used.foldl (fun a tech =>
        if tech ≠ "" then a.add (categorize_skill (lowerStr tech)) tech else a) acc).get c2 →
      s2 ∈ acc.get c2 ∨ (toolOK s2 ∧ c2 = categorize_skill (lowerStr s2)) := by
    intro acc p hpmem c2 s2 h2
    have hstep2 : ∀ (a : Skills5) (tech : String), tech ∈ p.tools_methods_used →
        ∀ (c3 : Cat) (s3 : String),
        s3 ∈ (if tech ≠ "" then a.add (categorize_skill (lowerStr tech)) tech else a).get c3 →
        s3 ∈ a.get c3 ∨ (toolOK s3 ∧ c3 = categorize_skill (lowerStr s3)) := by
      intro a tech htech c3 s3 h3
      split at h3
      · rcases Skills5.mem_add_cat _ _ _ _ _ h3 with h4 | ⟨he, hc⟩
        · exact Or.inl h4
        · subst he
          exact Or.inr ⟨hproj p hpmem s3 htech, hc⟩
      · exact Or.inl h3
    exact mem_foldl_preserve _ _ _ hstep2 acc c2 s2 h2
  exact mem_foldl_preserve _ _ _ hstep sd c s h

/-- The merged skills_data per category: section skills then harvested
skills. -/
theorem mergedSkillsData_get (text : String) (sk : Skills5 × List String)
    (experienceDetails : List ExperienceEntry) (projectsDetails : List ProjectEntry)
    (c : Cat) :
    (mergedSkillsData text sk experienceDetails projectsDetails).get c =
      sk.1.get c ++ (harvest_skills_from_texts ([text] ++
        (if experienceDetails ≠ [] then
          experienceDetails.flatMap (fun e => e.responsibilities) else []) ++
        (if projectsDetails ≠ [] then
          projectsDetails.map (fun p => p.description) else []))).get c := by
  cases c <;> rfl

/-- Every all_skills pair keeps the key image and category of a stream
pair. -/
theorem buildAllSkills_mem_cat (pairs : List (String × Cat)) (acc : List (String × Cat))
    (p : String × Cat)
    (h : p ∈ pairs.foldl (fun acc q =>
      match step2Key q.1 with
      | none => acc
      | some k => if acc.any (·.1 = k) then acc else acc ++ [(k, q.2)]) acc) :
    p ∈ acc ∨ ∃ q ∈ pairs, step2Key q.1 = some p.1 ∧ p.2 = q.2 := by
  induction pairs generalizing acc with
  | nil => exact Or.inl h
  | cons q qs ih =>
    simp only [List.foldl_cons] at h
    rcases ih _ h with h1 | ⟨q2, hq2, hs, hc⟩
    · rcases hk : step2Key q.1 with _ | k
      · rw [hk] at h1
        exact Or.inl h1
      · rw [hk] at h1
        dsimp only at h1
        by_cases hany : (acc.any (·.1 = k)) = true
        · rw [if_pos hany] at h1
          exact Or.inl h1
        · rw [if_neg hany] at h1
          rcases List.mem_append.mp h1 with h2 | h2
          · exact Or.inl h2
          · have hpe : p = (k, q.2) := by simpa using h2
            subst hpe
            exact Or.inr ⟨q, List.mem_cons_self q qs, by simpa using hk, rfl⟩
    · exact Or.inr ⟨q2, List.mem_cons_of_mem q hq2, hs, hc⟩

/-- A stream pair is a member of its category list. -/
theorem mem_pairStream (sd : Skills5) (p : String × Cat)
    (h : p ∈ pairStream sd) : p.1 ∈ sd.get p.2 := by
  unfold pairStream at h
  rcases List.mem_flatMap.mp h with ⟨c, hc, hp⟩
  rcases List.mem_map.mp hp with ⟨s, hs, rfl⟩
  exact hs

/-- Every post-processed entry is the normalized display of an all_skills
pair assigned to that category. -/
theorem post_process_mem_cat (sd : Skills5) (projs : List ProjectEntry) (c : Cat)
    (s : String) (h : s ∈ (post_process_skills sd projs).get c) :
    ∃ p ∈ buildAllSkills (pairStream (promoteProjectTools sd projs)),
      s = normStep4 p.1 ∧ assignCategory p.1 p.2 = c := by
  have h2 : s ∈ sortedDedup
      ((((buildAllSkills (pairStream (promoteProjectTools sd projs))).filter
        (fun p => assignCategory p.1 p.2 = c)).map (fun p => p.1)).map normStep4) := by
    cases c <;> simpa [post_process_skills, Skills5.get] using h
  have h3 := sortedDedup_subset _ _ h2
  rcases List.mem_map.mp h3 with ⟨k, hk, rfl⟩
  rcases List.mem_map.mp hk with ⟨p, hp, rfl⟩
  obtain ⟨hp1, hp2⟩ := List.mem_filter.mp hp
  exact ⟨p, hp1, rfl, by simpa using hp2⟩

/-- dict.get misses when no key matches. -/
theorem alistGet_eq_none (m : List (String × String)) (x : String)
    (h : ∀ p ∈ m, p.1 ≠ x) : alistGet m x = none := by
  unfold alistGet
  rw [List.find?_eq_none.mpr]
  intro p hp
  simpa using h p hp

/-- Lowercasing preserves length. -/
theorem lowerStr_length (s : String) : (lowerStr s).length = s.length := by
  show (s.data.map Char.toLower).length = s.data.length
  rw [List.length_map]

/-- The decidable facts about one lowered method alternative that drive the
key analysis of verbatim captures. -/
def methodOk (la : String) : Bool :=
  pyStrip la = la && la ≠ "hsi2c" &&
  !(containsSub "zephyr" la && containsSub "rtos" la) &&
  la ≠ "freertos" && !containsSub "linux kernel module" la &&
  !containsSub "kernel module" la && !containsSub "device driver" la &&
  la ≠ "shell scripting" && la ≠ "shell script" &&
  CANONICAL_MAPPING.all (fun p => lowerStr p.1 ≠ la) &&
  la.length ≠ 1 &&
  INVALID_SKILLS.all (fun v => lowerStr v ≠ la) &&
  VAGUE_CONCEPTS.all (fun v => lowerStr v ≠ la)

/-- Every lowered method alternative passes methodOk. -/
theorem methodLowers_ok : methodLowers.all methodOk = true := by decide

/-- The embedded normalization is the identity when no trigger fires. -/
theorem normalize_embedded_id (skill : String)
    (hne : ¬skill = "")
    (h2 : ¬lowerStr (pyStrip skill) = "hsi2c")
    (h3 : ¬(containsSub "zephyr" (lowerStr (pyStrip skill)) &&
           containsSub "rtos" (lowerStr (pyStrip skill))) = true)
    (h4 : ¬lowerStr (pyStrip skill) = "freertos")
    (h56 : ¬(containsSub "linux kernel module" (lowerStr (pyStrip skill)) ||
           containsSub "kernel module" (lowerStr (pyStrip skill))) = true)
    (h7 : ¬containsSub "device driver" (lowerStr (pyStrip skill)) = true)
    (h8 : ¬lowerStr (pyStrip skill) = "shell scripting")
    (h9 : ¬lowerStr (pyStrip skill) = "shell script") :
    normalize_embedded_skill skill = some skill := by
  simp only [normalize_embedded_skill]
  rw [if_neg hne, if_neg h2, if_neg h3, if_neg h4, if_neg h56, if_neg h7,
    if_neg (by
      intro hx
      rw [Bool.or_eq_true] at hx
      rcases hx with hx | hx
      · exact h8 (of_decide_eq_true hx)
      · exact h9 (of_decide_eq_true hx))]

/-- The all_skills key of a verbatim method capture keeps its lowercase
image. -/
theorem step2Key_method (raw k : String) (hls : lowerStr raw ∈ methodLowers)
    (h : step2Key raw = some k) : lowerStr k = lowerStr raw := by
  have hok : methodOk (lowerStr raw) = true :=
    List.all_eq_true.mp methodLowers_ok _ hls
  unfold methodOk at hok
  repeat rw [Bool.and_eq_true] at hok
  obtain ⟨⟨⟨⟨⟨⟨⟨⟨⟨⟨⟨⟨hstrip, h2⟩, h3⟩, h4⟩, h5⟩, h6⟩, h7⟩, h8⟩, h9⟩, hmap⟩, hlen⟩, hinv⟩, hvag⟩ := hok
  have hstrip2 : pyStrip (lowerStr raw) = lowerStr raw := of_decide_eq_true hstrip
  have hlow : lowerStr (pyStrip raw) = lowerStr raw := by
    rw [lowerStr_pyStrip, hstrip2]
  have hlow2 : lowerStr (pyStrip (pyStrip raw)) = lowerStr raw := by
    rw [lowerStr_pyStrip, hlow, hstrip2]
  unfold step2Key at h
  split at h
  · simp at h
  · rename_i hcond
    have hid : normalize_embedded_skill (pyStrip raw) = some (pyStrip raw) := by
      apply normalize_embedded_id
      · intro hx
        exact hcond (by simp [hx])
      · rw [hlow2]
        exact of_decide_eq_true h2
      · rw [hlow2]
        intro hx
        simp [hx] at h3
      · rw [hlow2]
        exact of_decide_eq_true h4
      · rw [hlow2]
        intro hx
        rw [Bool.or_eq_true] at hx
        rcases hx with hx | hx
        · simp [hx] at h5
        · simp [hx] at h6
      · rw [hlow2]
        intro hx
        simp [hx] at h7
      · rw [hlow2]
        exact of_decide_eq_true h8
      · rw [hlow2]
        exact of_decide_eq_true h9
    rw [hid] at h
    dsimp only at h
    have hmapget : alistGetD CANONICAL_MAPPING (pyStrip raw) (pyStrip raw) = pyStrip raw := by
      unfold alistGetD
      rw [alistGet_eq_none]
      · rfl
      · intro p hp hpe
        have h10 := of_decide_eq_true (List.all_eq_true.mp hmap p hp)
        rw [hpe, hlow] at h10
        exact h10 rfl
    rw [hmapget] at h
    unfold step2Filter at h
    have hlen2 : (pyStrip raw).length = (lowerStr raw).length := by
      rw [← hlow, lowerStr_length]
    rw [if_neg (by
        intro hx
        rw [Bool.and_eq_true] at hx
        have h11 := of_decide_eq_true hx.1
        rw [hlen2] at h11
        exact (of_decide_eq_true hlen) h11)] at h
    rw [if_neg (fun hx =>
      (of_decide_eq_true (List.all_eq_true.mp hinv _ hx)) hlow)] at h
    rw [if_neg (fun hx =>
      (of_decide_eq_true (List.all_eq_true.mp hvag _ hx)) hlow)] at h
    injection h with hk
    rw [← hk, hlow]

end Resume
